import Mathlib

/-!
# Stateful objects of the nftables client: embedding of `obj.go`

The file embeds `objFromMsg`, `Conn.AddObj`, `Conn.GetObj`, `Conn.GetObjReset` and
`Conn.getObj` of `obj.go`, together with the collaborators they call: the netlink
attribute codec, the counter object and the transport.

Conventions of the embedding:

* a byte is a `Fin 256`; a Go `string` and a Go `[]byte` are lists of bytes;
* unsigned machine integers are natural numbers, reduced modulo `2 ^ w` where the
  Go code converts or stores them;
* a Go `(value, error)` result is a pair whose second component is `none` for a
  nil error; a nil pointer or nil interface value is `none`;
* a nil slice and an empty slice are both the empty list (`getObj` never builds an
  empty slice that is not nil);
* a run of Go code ends in `Outcome.ret` (it returned), `Outcome.panic` (a run-time
  panic, such as slicing out of range) or `Outcome.outOfFuel` (the loop counter of
  the embedding ran out, which the theorems exclude).
-/

namespace Nftables

/-- One octet. -/
abbrev Byte := Fin 256

/-- Go error values that the embedded code creates or passes on. -/
inductive Error where
  /-- The `unexpected header type: got %v, want %v` error of `objFromMsg`. -/
  | unexpectedHeaderType (got want : Nat)
  /-- The `errInvalidAttribute` error of the attribute codec. -/
  | invalidAttribute
  /-- An attribute read as a 32-bit integer whose data is not 4 bytes long. -/
  | notUint32 (typ len : Nat)
  /-- An attribute read as a 64-bit integer whose data is not 8 bytes long. -/
  | notUint64 (typ len : Nat)
  /-- A counter payload without its packet count or without its byte count. -/
  | missingField (typ : Nat)
  /-- The `malformed stateful object` error of `objFromMsg`. -/
  | malformedObject
  /-- The `SendMessages: %v` wrapper of `getObj`. -/
  | sendMessages (cause : Error)
  /-- The `Receive: %v` wrapper of `getObj`. -/
  | receive (cause : Error)
  /-- An error raised by a collaborator (dialling, the socket, a foreign `marshal`). -/
  | external (code : Nat)
  deriving DecidableEq, Repr

/-- How a run of Go code ends. -/
inductive Outcome (α : Type) where
  /-- The code returned the value. -/
  | ret (a : α)
  /-- The code panicked at run time. -/
  | panic
  /-- The loop counter of the embedding was used up. -/
  | outOfFuel
  deriving DecidableEq, Repr

/-! ## Constants of `golang.org/x/sys/unix` and of package `netlink`

The packages `golang.org/x/sys/unix` and `netlink` are dependencies of the
repository and are not under src/. Their constants are the values of the kernel
interface; their functions are modelled from the wire format that the spec
describes (sections 3, 4.1 and 6). -/

namespace unix

/-- Modelled from the spec: the constant `unix.NFNL_SUBSYS_NFTABLES` (not under src/),
the subsystem number in the high byte of a header type. -/
def NFNL_SUBSYS_NFTABLES : Nat := 0xa
/-- Modelled from the spec: the constant `unix.NFT_MSG_NEWOBJ` (not under src/), the
message code of an object being added or reported. -/
def NFT_MSG_NEWOBJ : Nat := 0x12
/-- Modelled from the spec: the constant `unix.NFT_MSG_GETOBJ` (not under src/), the
message code of a read. -/
def NFT_MSG_GETOBJ : Nat := 0x13
/-- Modelled from the spec: the constant `unix.NFT_MSG_GETOBJ_RESET` (not under
src/), the message code of a read that resets the object. -/
def NFT_MSG_GETOBJ_RESET : Nat := 0x15
/-- Modelled from the spec: the constant `unix.NFTA_OBJ_TABLE` (not under src/), the
attribute type of the table name. -/
def NFTA_OBJ_TABLE : Nat := 1
/-- Modelled from the spec: the constant `unix.NFTA_OBJ_NAME` (not under src/), the
attribute type of the object name. -/
def NFTA_OBJ_NAME : Nat := 2
/-- Modelled from the spec: the constant `unix.NFTA_OBJ_TYPE` (not under src/), the
attribute type of the object type code. -/
def NFTA_OBJ_TYPE : Nat := 3
/-- Modelled from the spec: the constant `unix.NFTA_OBJ_DATA` (not under src/), the
attribute type of the nested payload. -/
def NFTA_OBJ_DATA : Nat := 4
/-- Modelled from the spec: the constant `unix.NFTA_COUNTER_BYTES` (not under src/),
the attribute type of the byte count inside a counter payload. -/
def NFTA_COUNTER_BYTES : Nat := 1
/-- Modelled from the spec: the constant `unix.NFTA_COUNTER_PACKETS` (not under
src/), the attribute type of the packet count inside a counter payload. -/
def NFTA_COUNTER_PACKETS : Nat := 2
/-- Modelled from the spec: the constant `unix.NLA_F_NESTED` (not under src/), the
flag bit of an attribute type that marks a nested attribute stream. -/
def NLA_F_NESTED : Nat := 0x8000
/-- Modelled from the spec: the constant `unix.NFNETLINK_V0` (not under src/), the
version byte of the resource header. -/
def NFNETLINK_V0 : Nat := 0
/-- Modelled from the spec: the constant `unix.NFPROTO_IPV4` (not under src/), the
address family of IPv4. -/
def NFPROTO_IPV4 : Nat := 2

end unix

namespace netlink

/-- Modelled from the spec: the header flag `netlink.Request` (not under src/). -/
def Request : Nat := 1
/-- Modelled from the spec: the header flag `netlink.Acknowledge` (not under src/). -/
def Acknowledge : Nat := 4
/-- Modelled from the spec: the header flag `netlink.Dump` (not under src/), which
asks for all matching entries. -/
def Dump : Nat := 0x300
/-- Modelled from the spec: the header flag `netlink.Create` (not under src/). -/
def Create : Nat := 0x400

/-- Modelled from the spec: the type `netlink.HeaderType` (not under src/), an
unsigned 16-bit number; the conversion `netlink.HeaderType(x)` keeps the low 16 bits. -/
def HeaderType (x : Nat) : Nat := x % 65536

/-- Modelled from the spec: the type `netlink.Header` (not under src/), the header
of a netlink message. -/
structure Header where
  Length : Nat := 0
  Typ : Nat := 0
  Flags : Nat := 0
  Sequence : Nat := 0
  PID : Nat := 0
  deriving DecidableEq, Repr

/-- Modelled from the spec: the type `netlink.Message` (not under src/), a header
and the bytes it frames. -/
structure Message where
  Header : Header
  Data : List Byte
  deriving DecidableEq, Repr

/-- Modelled from the spec: `nlaHeaderLen` of package netlink (not under src/), the
size of the header of one attribute: two 16-bit fields. -/
def nlaHeaderLen : Nat := 4

/-- Modelled from the spec: `nlaAlign` of package netlink (not under src/), the
"padding per the wire alignment rule": a length rounded up to a multiple of four. -/
def nlaAlign (n : Nat) : Nat := (n + 3) / 4 * 4

/-- Modelled from the spec: the byte orders of `encoding/binary` (not under src/). -/
inductive ByteOrder where
  | LittleEndian
  | BigEndian
  deriving DecidableEq, Repr

/-- Modelled from the spec: the big-endian value of a byte string, as
`binary.BigEndian` reads it (not under src/). -/
def beNat (b : List Byte) : Nat := b.foldl (fun acc x => acc * 256 + x.val) 0

/-- Modelled from the spec: the `w` low-order bytes of `n`, most significant first,
as `binary.BigEndian` writes them (not under src/). -/
def beBytes : Nat → Nat → List Byte
  | 0, _ => []
  | w + 1, n => Fin.ofNat (n / 256 ^ w) :: beBytes w n

/-- Modelled from the spec: `ByteOrder.Uint32` and `ByteOrder.Uint64` of
`encoding/binary` (not under src/), an integer read from bytes in the given order. -/
def ByteOrder.toNat : ByteOrder → List Byte → Nat
  | .BigEndian, b => beNat b
  | .LittleEndian, b => beNat b.reverse

/-- Modelled from the spec: `nlenc.Uint16` of package netlink (not under src/), the
16-bit header fields of an attribute, which the generic attribute format stores in
the byte order of the host; the embedding fixes a little-endian host. The two bytes
are read at offset `i` of `b`. -/
def nlenc.Uint16 (b : List Byte) (i : Nat) : Nat :=
  (b.getD i 0).val + 256 * (b.getD (i + 1) 0).val

/-- Modelled from the spec: `nlenc.PutUint16` of package netlink (not under src/),
the two bytes of a 16-bit header field on a little-endian host. -/
def nlenc.PutUint16 (v : Nat) : List Byte :=
  [Fin.ofNat v, Fin.ofNat (v / 256)]

/-- Modelled from the spec: the trimming inside `nlenc.String` (not under src/): the
byte string without the NUL bytes at its end. -/
def trimNul (b : List Byte) : List Byte :=
  (b.reverse.dropWhile (fun x => x == 0)).reverse

/-- Modelled from the spec: `nlenc.String` of package netlink (not under src/), the
attribute's raw bytes as a string. Strings travel NUL-terminated in the generic
attribute format, and the terminating NUL bytes are not part of the string. -/
def nlenc.String (b : List Byte) : List Byte := trimNul b

/-- Modelled from the spec: the type `netlink.Attribute` (not under src/), the TLV
triple of length, type and value. -/
structure Attribute where
  Length : Nat := 0
  Typ : Nat
  Data : List Byte
  deriving DecidableEq, Repr

/-- Modelled from the spec: `Attribute.unmarshal` of package netlink (not under
src/), the decoding of the attribute at the head of `b`: a 4-byte header (length,
type), then `length - 4` bytes of value. A declared length that exceeds the
remaining bytes, or that is not zero and shorter than the header, is the
malformed-length error. -/
def Attribute.unmarshal (b : List Byte) : Except Error Attribute :=
  if b.length < nlaHeaderLen then .error .invalidAttribute
  else
    let length := nlenc.Uint16 b 0
    let typ := nlenc.Uint16 b 2
    if length > b.length then .error .invalidAttribute
    else if length = 0 then .ok { Length := length, Typ := typ, Data := [] }
    else if length < nlaHeaderLen then .error .invalidAttribute
    else .ok { Length := length, Typ := typ, Data := (b.take length).drop nlaHeaderLen }

/-- Modelled from the spec: `Attribute.marshal` of package netlink (not under
src/), the encoding of one attribute: header, value, and zero padding up to the
alignment. It fails when the length field is shorter than the header. -/
def Attribute.marshal (a : Attribute) : Except Error (List Byte) :=
  if a.Length < nlaHeaderLen then .error .invalidAttribute
  else .ok (nlenc.PutUint16 a.Length ++ nlenc.PutUint16 a.Typ ++ a.Data
    ++ List.replicate (nlaAlign a.Data.length - a.Data.length) 0)

/-- Modelled from the spec: `MarshalAttributes` of package netlink (not under src/),
the encoding of a list of attributes, one after the other. A length field left at
zero is inferred from the value, as an unsigned 16-bit number. -/
def MarshalAttributes : List Attribute → Except Error (List Byte)
  | [] => .ok []
  | a :: rest =>
    let a1 : Attribute :=
      if a.Length = 0 then { a with Length := (nlaHeaderLen + a.Data.length) % 65536 } else a
    match a1.marshal with
    | .error e => .error e
    | .ok chunk =>
      match MarshalAttributes rest with
      | .error e => .error e
      | .ok bs => .ok (chunk ++ bs)

/-- Modelled from the spec: `netlink.AttributeDecoder` (not under src/), the lazy
sequence of attributes over a buffer: the buffer `b`, the offset `i` of the next
attribute, the current attribute `a`, and the sticky error `err`. -/
structure AttributeDecoder where
  ByteOrder : ByteOrder
  a : Attribute
  b : List Byte
  i : Nat
  length : Nat
  err : Option Error
  deriving DecidableEq, Repr

/-- Modelled from the spec: the step of `AttributeDecoder.Next` (not under src/)
over an attribute of declared length `l`: at least one header, and up to the
alignment. -/
def advance (l : Nat) : Nat := if l < nlaHeaderLen then nlaHeaderLen else nlaAlign l

/-- Modelled from the spec: `AttributeDecoder.available` of package netlink (not
under src/), the scan that `NewAttributeDecoder` makes over the buffer: it counts
the attributes and fails when fewer bytes than a header remain at the start of an
attribute. `fuel` bounds the number of attributes. -/
def AttributeDecoder.available : Nat → List Byte → Nat → Nat → Outcome (Nat × Option Error)
  | fuel, b, i, count =>
    if i ≥ b.length then .ret (count, none)
    else if (b.drop i).length < nlaHeaderLen then .ret (0, some .invalidAttribute)
    else
      match fuel with
      | 0 => .outOfFuel
      | fuel + 1 =>
        let l := nlenc.Uint16 b i
        let count := if l ≠ 0 then count + 1 else count
        AttributeDecoder.available fuel b (i + nlaAlign (if l < nlaHeaderLen then nlaHeaderLen else l))
          count

/-- Modelled from the spec: `netlink.NewAttributeDecoder` (not under src/), a
decoder over `b`, in the byte order of the host, positioned before the first
attribute. -/
def NewAttributeDecoder (b : List Byte) : Outcome (Option AttributeDecoder × Option Error) :=
  match AttributeDecoder.available b.length b 0 0 with
  | .ret (n, none) =>
    .ret (some { ByteOrder := .LittleEndian, a := { Typ := 0, Data := [] }, b := b, i := 0,
                 length := n, err := none }, none)
  | .ret (_, some e) => .ret (none, some e)
  | .panic => .panic
  | .outOfFuel => .outOfFuel

/-- Modelled from the spec: `AttributeDecoder.Next` (not under src/): moves to the
next attribute and tells whether there is one. It stops at the end of the buffer,
after an error, and at a malformed attribute, whose error it records. -/
def AttributeDecoder.Next (ad : AttributeDecoder) : Bool × AttributeDecoder :=
  match ad.err with
  | some _ => (false, ad)
  | none =>
    if ad.i ≥ ad.b.length then (false, ad)
    else
      match Attribute.unmarshal (ad.b.drop ad.i) with
      | .error e => (false, { ad with err := some e })
      | .ok a => (true, { ad with a := a, i := ad.i + advance a.Length })

/-- Modelled from the spec: `attrTypeMask` of package netlink (not under src/), the
mask that removes the nested and byte-order flags from an attribute type. -/
def attrTypeMask : Nat := 0x3fff

/-- Modelled from the spec: `AttributeDecoder.Type` (not under src/), the type code
of the current attribute, without its flag bits (`Type` is reserved in Lean). -/
def AttributeDecoder.Typ (ad : AttributeDecoder) : Nat := ad.a.Typ % (attrTypeMask + 1)

/-- Modelled from the spec: `AttributeDecoder.Err` (not under src/), the sticky error. -/
def AttributeDecoder.Err (ad : AttributeDecoder) : Option Error := ad.err

/-- Modelled from the spec: `AttributeDecoder.String` (not under src/), the current
attribute's bytes as a string, or the empty string after an error. -/
def AttributeDecoder.String (ad : AttributeDecoder) : List Byte :=
  match ad.err with
  | some _ => []
  | none => nlenc.String ad.a.Data

/-- Modelled from the spec: `AttributeDecoder.Uint32` (not under src/), the current
attribute as an unsigned 32-bit integer; a value that is not 4 bytes long is a
sticky error and reads as zero. -/
def AttributeDecoder.Uint32 (ad : AttributeDecoder) : Nat × AttributeDecoder :=
  match ad.err with
  | some _ => (0, ad)
  | none =>
    if ad.a.Data.length ≠ 4 then
      (0, { ad with err := some (.notUint32 ad.Typ ad.a.Data.length) })
    else (ad.ByteOrder.toNat ad.a.Data, ad)

/-- Modelled from the spec: `AttributeDecoder.Uint64` (not under src/), the current
attribute as an unsigned 64-bit integer; a value that is not 8 bytes long is a
sticky error and reads as zero. -/
def AttributeDecoder.Uint64 (ad : AttributeDecoder) : Nat × AttributeDecoder :=
  match ad.err with
  | some _ => (0, ad)
  | none =>
    if ad.a.Data.length ≠ 8 then
      (0, { ad with err := some (.notUint64 ad.Typ ad.a.Data.length) })
    else (ad.ByteOrder.toNat ad.a.Data, ad)

/-- Modelled from the spec: `AttributeDecoder.Do` (not under src/): runs `fn` on the
bytes of the current attribute, unless an error is already recorded, and records
the error that `fn` returns. The state `σ` stands for the variables that the Go
closure captures and updates. -/
def AttributeDecoder.Do {σ : Type} (ad : AttributeDecoder)
    (fn : List Byte → σ → Outcome (σ × Option Error)) (s : σ) : Outcome (AttributeDecoder × σ) :=
  match ad.err with
  | some _ => .ret (ad, s)
  | none =>
    match fn ad.a.Data s with
    | .ret (s1, none) => .ret (ad, s1)
    | .ret (s1, some e) => .ret ({ ad with err := some e }, s1)
    | .panic => .panic
    | .outOfFuel => .outOfFuel

end netlink

open netlink

/-! ## The object model of package `nftables` -/

/-- Modelled from the spec: the type `TableFamily` (not under src/), the address
family of a table, one byte. -/
abbrev TableFamily := Byte

/-- Modelled from the spec: the constant `TableFamilyIPv4` (not under src/). -/
def TableFamilyIPv4 : TableFamily := Fin.ofNat unix.NFPROTO_IPV4

/-- Modelled from the spec: the type `Table` (not under src/), with the two fields
that `obj.go` fills in. -/
structure Table where
  Name : List Byte
  Family : TableFamily
  deriving DecidableEq, Repr

/-- Modelled from the spec: the type `CounterObj` (not under src/): the fields
`Table` (a pointer, which may be nil) and `Name` that `obj.go` fills in, and the
"packet count, byte count, both unsigned 64-bit". -/
structure CounterObj where
  Table : Option Table
  Name : List Byte
  Bytes : Nat := 0
  Packets : Nat := 0
  deriving DecidableEq, Repr

/-- Modelled from the spec: `binaryutil.BigEndian.PutUint32` (not under src/), the
four big-endian bytes of an unsigned 32-bit value. -/
def binaryutil.PutUint32 (v : Nat) : List Byte := beBytes 4 v

/-- Modelled from the spec: `binaryutil.BigEndian.PutUint64` (not under src/), the
eight big-endian bytes of an unsigned 64-bit value. -/
def binaryutil.PutUint64 (v : Nat) : List Byte := beBytes 8 v

/-- Modelled from the spec: `extraHeader` (not under src/), the 4-byte resource
header: the family byte, the version byte and the big-endian resource id. -/
def extraHeader (family : Byte) (resID : Nat) : List Byte :=
  [family, Fin.ofNat unix.NFNETLINK_V0] ++ beBytes 2 resID

/-- The constant `NFT_OBJECT_COUNTER` of `objFromMsg`, with the same value in
`CounterObj.marshal`. -/
def NFT_OBJECT_COUNTER : Nat := 1

/-- The interface `Obj` of `obj.go`: the three methods of a stateful object. A method
of a foreign implementation may panic, hence the `Outcome`. -/
class Obj (α : Type) where
  family : α → Outcome TableFamily
  unmarshal : α → AttributeDecoder → Outcome (α × Option Error)
  marshal : α → Bool → Outcome (List Byte × Option Error)

/-- Modelled from the spec: the loop of `CounterObj.unmarshal` (not under src/) over
the nested payload: the byte count and the packet count are read as unsigned 64-bit
integers, other attributes are skipped. The two flags record which counts were
seen. -/
def CounterObj.unmarshal.loop :
    Nat → AttributeDecoder → CounterObj → Bool → Bool →
      Outcome (AttributeDecoder × CounterObj × Bool × Bool)
  | fuel, ad, c, seenBytes, seenPackets =>
    match ad.Next with
    | (false, ad) => .ret (ad, c, seenBytes, seenPackets)
    | (true, ad) =>
      match fuel with
      | 0 => .outOfFuel
      | fuel + 1 =>
        if ad.Typ = unix.NFTA_COUNTER_BYTES then
          let r := ad.Uint64
          CounterObj.unmarshal.loop fuel r.2 { c with Bytes := r.1 } true seenPackets
        else if ad.Typ = unix.NFTA_COUNTER_PACKETS then
          let r := ad.Uint64
          CounterObj.unmarshal.loop fuel r.2 { c with Packets := r.1 } seenBytes true
        else CounterObj.unmarshal.loop fuel ad c seenBytes seenPackets

/-- Modelled from the spec: `CounterObj.unmarshal` (not under src/): it "reads the
nested payload decoder already positioned by the dispatcher and populates variant
fields; fails with a decode error if required fields are absent or of wrong
length". The fields that were read stay in the object when it fails. -/
def CounterObj.unmarshal (c : CounterObj) (ad : AttributeDecoder) :
    Outcome (CounterObj × Option Error) :=
  match CounterObj.unmarshal.loop ad.b.length ad c false false with
  | .ret (ad, c, seenBytes, seenPackets) =>
    match ad.Err with
    | some e => .ret (c, some e)
    | none =>
      if !seenBytes then .ret (c, some (.missingField unix.NFTA_COUNTER_BYTES))
      else if !seenPackets then .ret (c, some (.missingField unix.NFTA_COUNTER_PACKETS))
      else .ret (c, none)
  | .panic => .panic
  | .outOfFuel => .outOfFuel

/-- Modelled from the spec: `CounterObj.family` (not under src/), the family of the
table the object belongs to; it dereferences the table pointer. -/
def CounterObj.family (c : CounterObj) : Outcome TableFamily :=
  match c.Table with
  | none => .panic
  | some t => .ret t.Family

/-- Modelled from the spec: `CounterObj.marshal` (not under src/): it "serializes
name/table/type-code attributes and, when `includeData` is true, the variant's
payload as a nested attribute". The names are written NUL-terminated, the type code
and the counts big-endian. -/
def CounterObj.marshal (c : CounterObj) (data : Bool) : Outcome (List Byte × Option Error) :=
  match c.Table with
  | none => .panic
  | some t =>
    match MarshalAttributes
        [{ Typ := unix.NFTA_COUNTER_BYTES, Data := binaryutil.PutUint64 c.Bytes },
         { Typ := unix.NFTA_COUNTER_PACKETS, Data := binaryutil.PutUint64 c.Packets }] with
    | .error e => .ret ([], some e)
    | .ok obj =>
      let attrs : List Attribute :=
        [{ Typ := unix.NFTA_OBJ_TABLE, Data := t.Name ++ [0] },
         { Typ := unix.NFTA_OBJ_NAME, Data := c.Name ++ [0] },
         { Typ := unix.NFTA_OBJ_TYPE, Data := binaryutil.PutUint32 NFT_OBJECT_COUNTER }]
      let attrs :=
        if data then attrs ++ [{ Typ := unix.NLA_F_NESTED ||| unix.NFTA_OBJ_DATA, Data := obj }]
        else attrs
      match MarshalAttributes attrs with
      | .error e => .ret ([], some e)
      | .ok b => .ret (b, none)

instance : Obj CounterObj where
  family := CounterObj.family
  unmarshal := CounterObj.unmarshal
  marshal := CounterObj.marshal

/-! ## `obj.go` -/

/-- The header type of a reply that carries an object (`objHeaderType`). -/
def objHeaderType : Nat :=
  HeaderType ((unix.NFNL_SUBSYS_NFTABLES <<< 8) ||| unix.NFT_MSG_NEWOBJ)

/-- The closure that `objFromMsg` hands to `ad.Do`: a big-endian decoder over the
bytes `b` of the payload attribute, given to `o.unmarshal`. -/
def objFromMsg.nested (b : List Byte) (o : CounterObj) : Outcome (CounterObj × Option Error) :=
  match NewAttributeDecoder b with
  | .ret (some ad, none) => o.unmarshal { ad with ByteOrder := .BigEndian }
  | .ret (_, some err) => .ret (o, some err)
  | .ret (none, none) => .panic
  | .panic => .panic
  | .outOfFuel => .outOfFuel

/-- The loop `for ad.Next() { switch ad.Type() { ... } }` of `objFromMsg`, with the
statements after it. `table`, `name` and `objectType` are the three local
variables; `fuel` bounds the number of attributes. -/
def objFromMsg.loop (msg : Message) :
    Nat → AttributeDecoder → Option Table → List Byte → Nat →
      Outcome (Option CounterObj × Option Error)
  | fuel, ad, table, name, objectType =>
    match ad.Next with
    | (false, ad) =>
      match ad.Err with
      | some err => .ret (none, some err)
      | none => .ret (none, some .malformedObject)
    | (true, ad) =>
      match fuel with
      | 0 => .outOfFuel
      | fuel + 1 =>
        if ad.Typ = unix.NFTA_OBJ_TABLE then
          match msg.Data[0]? with
          | none => .panic
          | some fam =>
            objFromMsg.loop msg fuel ad (some { Name := ad.String, Family := fam }) name objectType
        else if ad.Typ = unix.NFTA_OBJ_NAME then
          objFromMsg.loop msg fuel ad table ad.String objectType
        else if ad.Typ = unix.NFTA_OBJ_TYPE then
          let r := ad.Uint32
          objFromMsg.loop msg fuel r.2 table name r.1
        else if ad.Typ = unix.NFTA_OBJ_DATA then
          if objectType = NFT_OBJECT_COUNTER then
            let o : CounterObj := { Table := table, Name := name }
            match ad.Do objFromMsg.nested o with
            | .ret (ad, o) => .ret (some o, ad.Err)
            | .panic => .panic
            | .outOfFuel => .outOfFuel
          else objFromMsg.loop msg fuel ad table name objectType
        else objFromMsg.loop msg fuel ad table name objectType

/-- The function `objFromMsg` of `obj.go`: the object that a reply message carries. -/
def objFromMsg (msg : Message) : Outcome (Option CounterObj × Option Error) :=
  if msg.Header.Typ ≠ objHeaderType then
    .ret (none, some (.unexpectedHeaderType msg.Header.Typ objHeaderType))
  else if msg.Data.length < 4 then .panic
  else
    match NewAttributeDecoder (msg.Data.drop 4) with
    | .ret (some ad, none) =>
      objFromMsg.loop msg ad.b.length { ad with ByteOrder := .BigEndian } none [] 0
    | .ret (_, some err) => .ret (none, some err)
    | .ret (none, none) => .panic
    | .panic => .panic
    | .outOfFuel => .outOfFuel

/-- Modelled from the spec: the type `Conn` (not under src/), with the fields that
`obj.go` touches: the pending batch `messages` and the deferred error `err`. -/
structure Conn where
  messages : List Message
  err : Option Error
  deriving DecidableEq, Repr

/-- Modelled from the spec: `Conn.setErr` (not under src/), the deferred error of
the builder: "the builder stores the first failure". -/
def Conn.setErr (cc : Conn) (err : Error) : Conn :=
  match cc.err with
  | some _ => cc
  | none => { cc with err := some err }

/-- The message that `AddObj` appends to the batch, from the family and the
marshalled bytes of the object. -/
def Conn.AddObj.message (fam : TableFamily) (data : List Byte) : Message :=
  { Header := {
      Typ := HeaderType ((unix.NFNL_SUBSYS_NFTABLES <<< 8) ||| unix.NFT_MSG_NEWOBJ),
      Flags := Request ||| Acknowledge ||| Create },
    Data := extraHeader fam 0 ++ data }

/-- The method `Conn.AddObj` of `obj.go`: the returned object and the builder after
the call. -/
def Conn.AddObj {α : Type} [Obj α] (cc : Conn) (o : α) : Outcome (Option α × Conn) :=
  match Obj.marshal o true with
  | .panic => .panic
  | .outOfFuel => .outOfFuel
  | .ret (_, some err) => .ret (none, cc.setErr err)
  | .ret (data, none) =>
    match Obj.family o with
    | .panic => .panic
    | .outOfFuel => .outOfFuel
    | .ret fam =>
      .ret (some o, { cc with messages := cc.messages ++ [Conn.AddObj.message fam data] })

/-- Modelled from the spec: the transport behind `Conn.dialNetlink` (not under
src/), as a script of its "send(messages)", "receive()" and "close()" capabilities:
whether dialling fails, the error of `SendMessages` for the messages sent, and the
result of `Receive` after them. The error of `Close` is dropped by `getObj`. -/
structure Transport where
  dialNetlink : Option Error
  SendMessages : List Message → Option Error
  Receive : List Message → List Message × Option Error

/-- What `getObj` does to the transport, in order. -/
inductive Event where
  | dial
  | send (msgs : List Message)
  | receive
  | close
  deriving DecidableEq, Repr

/-- The loop `for _, msg := range reply` of `getObj`; `objs` is the slice built so
far. -/
def Conn.getObj.decode :
    List Message → List (Option CounterObj) → Outcome (List (Option CounterObj) × Option Error)
  | [], objs => .ret (objs, none)
  | msg :: reply, objs =>
    match objFromMsg msg with
    | .ret (_, some err) => .ret ([], some err)
    | .ret (o, none) => Conn.getObj.decode reply (objs ++ [o])
    | .panic => .panic
    | .outOfFuel => .outOfFuel

/-- The request `message` that `getObj` builds from the family and the marshalled
bytes of the object. -/
def Conn.getObj.message (fam : TableFamily) (data : List Byte) (msgType : Nat) : Message :=
  { Header := {
      Typ := HeaderType ((unix.NFNL_SUBSYS_NFTABLES <<< 8) ||| msgType),
      Flags := Request ||| Acknowledge ||| Dump },
    Data := extraHeader fam 0 ++ data }

/-- The body of `getObj` after the deferred `conn.Close()` is registered: the result
and the transport events. -/
def Conn.getObj.body {α : Type} [Obj α] (t : Transport) (o : α) (msgType : Nat) :
    Outcome (List (Option CounterObj) × Option Error) × List Event :=
  match Obj.marshal o false with
  | .panic => (.panic, [])
  | .outOfFuel => (.outOfFuel, [])
  | .ret (_, some err) => (.ret ([], some err), [])
  | .ret (data, none) =>
    match Obj.family o with
    | .panic => (.panic, [])
    | .outOfFuel => (.outOfFuel, [])
    | .ret fam =>
      let message := Conn.getObj.message fam data msgType
      match t.SendMessages [message] with
      | some err => (.ret ([], some (.sendMessages err)), [.send [message]])
      | none =>
        match t.Receive [message] with
        | (_, some err) => (.ret ([], some (.receive err)), [.send [message], .receive])
        | (reply, none) => (Conn.getObj.decode reply [], [.send [message], .receive])

/-- The method `Conn.getObj` of `obj.go`: the result of the read and the transport
events it caused. The connection is closed by the deferred call on every way out
of the body, a panic included. -/
def Conn.getObj {α : Type} [Obj α] (_cc : Conn) (t : Transport) (o : α) (msgType : Nat) :
    Outcome (List (Option CounterObj) × Option Error) × List Event :=
  match t.dialNetlink with
  | some err => (.ret ([], some err), [.dial])
  | none =>
    let r := Conn.getObj.body t o msgType
    (r.1, [.dial] ++ r.2 ++ [.close])

/-- The method `Conn.GetObj` of `obj.go`. -/
def Conn.GetObj {α : Type} [Obj α] (cc : Conn) (t : Transport) (o : α) :
    Outcome (List (Option CounterObj) × Option Error) × List Event :=
  cc.getObj t o unix.NFT_MSG_GETOBJ

/-- The method `Conn.GetObjReset` of `obj.go`. -/
def Conn.GetObjReset {α : Type} [Obj α] (cc : Conn) (t : Transport) (o : α) :
    Outcome (List (Option CounterObj) × Option Error) × List Event :=
  cc.getObj t o unix.NFT_MSG_GETOBJ_RESET

/-! ## The attribute stream of a buffer

The functions of this section describe, without a decoder state, what a decoder
over a buffer yields. The statements about `objFromMsg` are phrased with them. -/

/-- The type code of an attribute without its flag bits, as `AttributeDecoder.Type`
reports it. -/
def typeOf (a : Attribute) : Nat := a.Typ % (attrTypeMask + 1)

/-- The attributes that successive calls of `Next` yield over the buffer `b`, and
the error that ends the sequence, if any. `fuel` bounds the number of attributes;
the length of the buffer is always enough. -/
def attrStreamAux : Nat → List Byte → List Attribute × Option Error
  | 0, _ => ([], none)
  | fuel + 1, b =>
    if b.length = 0 then ([], none)
    else
      match Attribute.unmarshal b with
      | .error e => ([], some e)
      | .ok a =>
        let r := attrStreamAux fuel (b.drop (advance a.Length))
        (a :: r.1, r.2)

/-- The attribute stream of the buffer `b`: its attributes in order, and the error
at which decoding stops, if any. -/
def attrStream (b : List Byte) : List Attribute × Option Error := attrStreamAux b.length b

/-- The table that the table attributes of `attrs` leave in the variable `table` of
`objFromMsg`: the value of the last one, none when there is none. `fam` is the
family byte of the message. -/
def lastTable (fam : Byte) (attrs : List Attribute) : Option Table :=
  ((attrs.filter (fun a => typeOf a = unix.NFTA_OBJ_TABLE)).getLast?).map
    (fun a => { Name := nlenc.String a.Data, Family := fam })

/-- The name that the name attributes of `attrs` leave in the variable `name` of
`objFromMsg`: the value of the last one, none when there is none (the variable then
keeps the empty string). -/
def lastName (attrs : List Attribute) : Option (List Byte) :=
  ((attrs.filter (fun a => typeOf a = unix.NFTA_OBJ_NAME)).getLast?).map
    (fun a => nlenc.String a.Data)

/-- The code that the type-code attributes of `attrs` leave in the variable
`objectType` of `objFromMsg`: the big-endian value of the last one, none when there
is none (the variable then keeps zero). -/
def lastType (attrs : List Attribute) : Option Nat :=
  ((attrs.filter (fun a => typeOf a = unix.NFTA_OBJ_TYPE)).getLast?).map
    (fun a => beNat a.Data)

/-- Replay of the loop of `objFromMsg` on an attribute stream: `attrs` are the
attributes still to come, `perr` the error that ends the stream. -/
def objScan (fam : Byte) (perr : Option Error) :
    List Attribute → Option Table → List Byte → Nat → Outcome (Option CounterObj × Option Error)
  | [], _, _, _ =>
    match perr with
    | some err => .ret (none, some err)
    | none => .ret (none, some .malformedObject)
  | a :: rest, table, name, objectType =>
    if typeOf a = unix.NFTA_OBJ_TABLE then
      objScan fam perr rest (some { Name := nlenc.String a.Data, Family := fam }) name objectType
    else if typeOf a = unix.NFTA_OBJ_NAME then
      objScan fam perr rest table (nlenc.String a.Data) objectType
    else if typeOf a = unix.NFTA_OBJ_TYPE then
      if a.Data.length ≠ 4 then .ret (none, some (.notUint32 (typeOf a) a.Data.length))
      else objScan fam perr rest table name (beNat a.Data)
    else if typeOf a = unix.NFTA_OBJ_DATA then
      if objectType = NFT_OBJECT_COUNTER then
        match objFromMsg.nested a.Data { Table := table, Name := name } with
        | .ret (o, err) => .ret (some o, err)
        | .panic => .panic
        | .outOfFuel => .outOfFuel
      else objScan fam perr rest table name objectType
    else objScan fam perr rest table name objectType

/-- Replay of the loop of `CounterObj.unmarshal` on an attribute stream: the object,
the two flags, and the error of the first count of a wrong length. -/
def counterScan :
    List Attribute → CounterObj → Bool → Bool → CounterObj × Bool × Bool × Option Error
  | [], c, seenBytes, seenPackets => (c, seenBytes, seenPackets, none)
  | a :: rest, c, seenBytes, seenPackets =>
    if typeOf a = unix.NFTA_COUNTER_BYTES then
      if a.Data.length ≠ 8 then
        ({ c with Bytes := 0 }, true, seenPackets, some (.notUint64 (typeOf a) a.Data.length))
      else counterScan rest { c with Bytes := beNat a.Data } true seenPackets
    else if typeOf a = unix.NFTA_COUNTER_PACKETS then
      if a.Data.length ≠ 8 then
        ({ c with Packets := 0 }, seenBytes, true, some (.notUint64 (typeOf a) a.Data.length))
      else counterScan rest { c with Packets := beNat a.Data } seenBytes true
    else counterScan rest c seenBytes seenPackets

/-- The result of `CounterObj.unmarshal` on a big-endian decoder over the payload
bytes `b`, in terms of the attribute stream of `b`. -/
def counterDecode (b : List Byte) (c : CounterObj) : CounterObj × Option Error :=
  let r := counterScan (attrStream b).1 c false false
  match (match r.2.2.2 with | some e => some e | none => (attrStream b).2) with
  | some e => (r.1, some e)
  | none =>
    if !r.2.1 then (r.1, some (.missingField unix.NFTA_COUNTER_BYTES))
    else if !r.2.2.1 then (r.1, some (.missingField unix.NFTA_COUNTER_PACKETS))
    else (r.1, none)

/-! ## Concrete objects and messages -/

/-- The string `filter`. -/
def strFilter : List Byte := [102, 105, 108, 116, 101, 114]

/-- The string `ctr1`. -/
def strCtr1 : List Byte := [99, 116, 114, 49]

/-- The counter `ctr1` of the IPv4 table `filter`, with 10 packets and 1500 bytes. -/
def ctr1 : CounterObj :=
  { Table := some { Name := strFilter, Family := TableFamilyIPv4 }, Name := strCtr1,
    Bytes := 1500, Packets := 10 }

/-- A counter of the IPv4 table `filter` whose name is the letter `a` followed by a
NUL byte. -/
def nulNamed : CounterObj :=
  { Table := some { Name := strFilter, Family := TableFamilyIPv4 }, Name := [97, 0] }

/-- The message that `AddObj` appends for `nulNamed`. -/
def nulNamedMsg : Message :=
  { Header := { Typ := 2578, Flags := 1029 },
    Data := [2, 0, 0, 0,
      11, 0, 1, 0, 102, 105, 108, 116, 101, 114, 0, 0,
      7, 0, 2, 0, 97, 0, 0, 0,
      8, 0, 3, 0, 0, 0, 0, 1,
      28, 0, 4, 128,
        12, 0, 1, 0, 0, 0, 0, 0, 0, 0, 0, 0,
        12, 0, 2, 0, 0, 0, 0, 0, 0, 0, 0, 0] }

/-- A counter of the IPv4 table `filter` whose name is 65531 letters `a`. -/
def longNamed : CounterObj :=
  { Table := some { Name := strFilter, Family := TableFamilyIPv4 },
    Name := List.replicate 65531 97 }

/-- The bytes of `ctr1.marshal(false)`: table, name and type code. -/
def ctr1Identity : List Byte :=
  [11, 0, 1, 0, 102, 105, 108, 116, 101, 114, 0, 0,
   9, 0, 2, 0, 99, 116, 114, 49, 0, 0, 0, 0,
   8, 0, 3, 0, 0, 0, 0, 1]

/-- The bytes of `ctr1.marshal(true)`: table, name, type code and payload. -/
def ctr1Bytes : List Byte :=
  ctr1Identity ++
    [28, 0, 4, 128,
       12, 0, 1, 0, 0, 0, 0, 0, 0, 0, 5, 220,
       12, 0, 2, 0, 0, 0, 0, 0, 0, 0, 0, 10]

/-- The reply that carries `ctr1`. -/
def ctr1Msg : Message :=
  { Header := { Typ := 2578 }, Data := [2, 0, 0, 0] ++ ctr1Bytes }

/-- A reply like `ctr1Msg` whose type code is 2 instead of counter. -/
def quotaMsg : Message :=
  { Header := { Typ := 2578 },
    Data := [2, 0, 0, 0,
      11, 0, 1, 0, 102, 105, 108, 116, 101, 114, 0, 0,
      9, 0, 2, 0, 99, 116, 114, 49, 0, 0, 0, 0,
      8, 0, 3, 0, 0, 0, 0, 2,
      28, 0, 4, 128,
        12, 0, 1, 0, 0, 0, 0, 0, 0, 0, 5, 220,
        12, 0, 2, 0, 0, 0, 0, 0, 0, 0, 0, 10] }

/-- A reply like `ctr1Msg` without the table attribute. -/
def noTableMsg : Message :=
  { Header := { Typ := 2578 },
    Data := [2, 0, 0, 0,
      9, 0, 2, 0, 99, 116, 114, 49, 0, 0, 0, 0,
      8, 0, 3, 0, 0, 0, 0, 1,
      28, 0, 4, 128,
        12, 0, 1, 0, 0, 0, 0, 0, 0, 0, 5, 220,
        12, 0, 2, 0, 0, 0, 0, 0, 0, 0, 0, 10] }

/-- A reply like `ctr1Msg` without the name attribute. -/
def noNameMsg : Message :=
  { Header := { Typ := 2578 },
    Data := [2, 0, 0, 0,
      11, 0, 1, 0, 102, 105, 108, 116, 101, 114, 0, 0,
      8, 0, 3, 0, 0, 0, 0, 1,
      28, 0, 4, 128,
        12, 0, 1, 0, 0, 0, 0, 0, 0, 0, 5, 220,
        12, 0, 2, 0, 0, 0, 0, 0, 0, 0, 0, 10] }

/-- A reply like `ctr1Msg` with the table and name attributes after the payload. -/
def lateMsg : Message :=
  { Header := { Typ := 2578 },
    Data := [2, 0, 0, 0,
      8, 0, 3, 0, 0, 0, 0, 1,
      28, 0, 4, 128,
        12, 0, 1, 0, 0, 0, 0, 0, 0, 0, 5, 220,
        12, 0, 2, 0, 0, 0, 0, 0, 0, 0, 0, 10,
      11, 0, 1, 0, 102, 105, 108, 116, 101, 114, 0, 0,
      9, 0, 2, 0, 99, 116, 114, 49, 0, 0, 0, 0] }

/-- A reply like `ctr1Msg` with the attributes in the order type code, name, table,
payload. -/
def permMsg : Message :=
  { Header := { Typ := 2578 },
    Data := [2, 0, 0, 0,
      8, 0, 3, 0, 0, 0, 0, 1,
      9, 0, 2, 0, 99, 116, 114, 49, 0, 0, 0, 0,
      11, 0, 1, 0, 102, 105, 108, 116, 101, 114, 0, 0,
      28, 0, 4, 128,
        12, 0, 1, 0, 0, 0, 0, 0, 0, 0, 5, 220,
        12, 0, 2, 0, 0, 0, 0, 0, 0, 0, 0, 10] }

/-- A reply like `ctr1Msg` whose packet count is only 4 bytes long. -/
def badPayloadMsg : Message :=
  { Header := { Typ := 2578 },
    Data := [2, 0, 0, 0,
      11, 0, 1, 0, 102, 105, 108, 116, 101, 114, 0, 0,
      9, 0, 2, 0, 99, 116, 114, 49, 0, 0, 0, 0,
      8, 0, 3, 0, 0, 0, 0, 1,
      24, 0, 4, 128,
        12, 0, 1, 0, 0, 0, 0, 0, 0, 0, 5, 220,
        8, 0, 2, 0, 0, 0, 0, 10] }

/-- A transport on which dialling and sending succeed and `Receive` delivers
`reply`, whatever was sent. -/
def replyTransport (reply : List Message) : Transport :=
  { dialNetlink := none, SendMessages := fun _ => none, Receive := fun _ => (reply, none) }

/-- The payload attribute of `ctr1Msg`: 1500 bytes and 10 packets. -/
def ctr1Payload : Attribute :=
  { Length := 28, Typ := 0x8004,
    Data := [12, 0, 1, 0, 0, 0, 0, 0, 0, 0, 5, 220, 12, 0, 2, 0, 0, 0, 0, 0, 0, 0, 0, 10] }

/-- The table attribute of `ctr1Msg`. -/
def ctr1TableAttr : Attribute :=
  { Length := 11, Typ := 1, Data := [102, 105, 108, 116, 101, 114, 0] }

/-- The name attribute of `ctr1Msg`. -/
def ctr1NameAttr : Attribute :=
  { Length := 9, Typ := 2, Data := [99, 116, 114, 49, 0] }

/-- The type-code attribute of `ctr1Msg`: counter. -/
def ctr1TypeAttr : Attribute :=
  { Length := 8, Typ := 3, Data := [0, 0, 0, 1] }

/-- Whether the scan of `NewAttributeDecoder` over the buffer `b` succeeds: at the
start of every attribute either the buffer is used up or a whole header remains.
`fuel` bounds the number of attributes; the length of the buffer is always enough. -/
def headersOKAux : Nat → List Byte → Bool
  | 0, _ => true
  | fuel + 1, b =>
    if b.length = 0 then true
    else if b.length < nlaHeaderLen then false
    else headersOKAux fuel (b.drop (advance (nlenc.Uint16 b 0)))

/-- Whether `NewAttributeDecoder` accepts the buffer `b`. -/
def headersOK (b : List Byte) : Bool := headersOKAux b.length b

/-- A reply with the expected header type whose data is shorter than the resource
header. -/
def shortMsg : Message :=
  { Header := { Typ := 2578 }, Data := [2, 0, 0] }

/-- Whether a transport event is a call of `SendMessages`. -/
def Event.isSend : Event → Bool
  | .send _ => true
  | _ => false

/-- A transport on which dialling fails. -/
def noDialTransport : Transport :=
  { dialNetlink := some (.external 1), SendMessages := fun _ => none,
    Receive := fun _ => ([], none) }

/-- A transport on which `SendMessages` fails. -/
def noSendTransport : Transport :=
  { dialNetlink := none, SendMessages := fun _ => some (.external 2),
    Receive := fun _ => ([], none) }

/-- A transport on which `Receive` fails. -/
def noReceiveTransport : Transport :=
  { dialNetlink := none, SendMessages := fun _ => none,
    Receive := fun _ => ([], some (.external 3)) }

/-- The bytes of the table attribute of `ctr1Msg`, padded. -/
def tableChunk : List Byte := [11, 0, 1, 0, 102, 105, 108, 116, 101, 114, 0, 0]

/-- The bytes of the name attribute of `ctr1Msg`, padded. -/
def nameChunk : List Byte := [9, 0, 2, 0, 99, 116, 114, 49, 0, 0, 0, 0]

/-- The bytes of the type-code attribute of `ctr1Msg`. -/
def typeChunk : List Byte := [8, 0, 3, 0, 0, 0, 0, 1]

/-- The bytes of the payload attribute of `ctr1Msg`. -/
def payloadChunk : List Byte :=
  [28, 0, 4, 128,
     12, 0, 1, 0, 0, 0, 0, 0, 0, 0, 5, 220,
     12, 0, 2, 0, 0, 0, 0, 0, 0, 0, 0, 10]

/-- The bytes of an attribute of type 5, which `objFromMsg` does not know, with a
4-byte value. -/
def useChunk : List Byte := [8, 0, 5, 0, 0, 0, 0, 1]

/-- The attribute that `useChunk` encodes. -/
def useAttr : Attribute := { Length := 8, Typ := 5, Data := [0, 0, 0, 1] }

/-- A reply whose payload attribute stands before its only type-code attribute. -/
def earlyPayloadMsg : Message :=
  { Header := { Typ := 2578 }, Data := [2, 0, 0, 0] ++ payloadChunk ++ typeChunk }

/-- A reply like `ctr1Msg` followed by an attribute header that declares 8 bytes
where only its own 4 bytes remain. -/
def trailingTruncMsg : Message :=
  { Header := { Typ := 2578 }, Data := [2, 0, 0, 0] ++ ctr1Bytes ++ [8, 0, 9, 0] }

/-- A reply like `ctr1Msg` followed by three bytes, fewer than the header of an
attribute. -/
def shortTailMsg : Message :=
  { Header := { Typ := 2578 }, Data := [2, 0, 0, 0] ++ ctr1Bytes ++ [8, 0, 9] }

/-- A reply cut inside its name attribute, which declares 9 bytes where 6 remain. -/
def earlyTruncMsg : Message :=
  { Header := { Typ := 2578 },
    Data := [2, 0, 0, 0] ++ tableChunk ++ [9, 0, 2, 0, 99, 116] }

/-- The payload attribute of `nestedTruncMsg`: a byte count followed by a packet
count that declares 12 bytes where only its header remains. -/
def truncPayload : Attribute :=
  { Length := 20, Typ := 0x8004,
    Data := [12, 0, 1, 0, 0, 0, 0, 0, 0, 0, 5, 220, 12, 0, 2, 0] }

/-- A reply whose top-level attributes are complete and whose nested payload stream
is cut inside the packet count. -/
def nestedTruncMsg : Message :=
  { Header := { Typ := 2578 },
    Data := [2, 0, 0, 0] ++ tableChunk ++ nameChunk ++ typeChunk ++
      [20, 0, 4, 128, 12, 0, 1, 0, 0, 0, 0, 0, 0, 0, 5, 220, 12, 0, 2, 0] }

/-! ## Basic facts about the codec -/

theorem val_ofNat (v : Nat) : ((Fin.ofNat v : Byte) : Nat) = v % 256 := rfl

theorem nlaAlign_ge (n : Nat) : n ≤ nlaAlign n := by
  unfold nlaAlign; omega

theorem nlaAlign_add_four (n : Nat) : nlaAlign (4 + n) = 4 + nlaAlign n := by
  unfold nlaAlign; omega

theorem advance_pos (l : Nat) : 4 ≤ advance l := by
  unfold advance nlaHeaderLen
  split
  · omega
  · have := nlaAlign_ge l; omega

theorem uint16_put (v : Nat) (hv : v < 65536) (rest : List Byte) :
    nlenc.Uint16 (nlenc.PutUint16 v ++ rest) 0 = v := by
  simp [nlenc.Uint16, nlenc.PutUint16, val_ofNat]
  omega

theorem beNat_append (a b : List Byte) : beNat (a ++ b) = beNat a * 256 ^ b.length + beNat b := by
  unfold beNat
  rw [List.foldl_append]
  generalize List.foldl (fun acc (x : Byte) => acc * 256 + x.val) 0 a = k
  induction b generalizing k with
  | nil => simp
  | cons x xs ih =>
    simp only [List.foldl_cons, List.length_cons]
    rw [ih (k * 256 + x.val), ih (0 * 256 + x.val)]
    ring

theorem beBytes_length (w n : Nat) : (beBytes w n).length = w := by
  induction w with
  | zero => rfl
  | succ w ih => simp [beBytes, ih]

theorem beNat_beBytes (w n : Nat) : beNat (beBytes w n) = n % 256 ^ w := by
  induction w with
  | zero => simp [beBytes, beNat, Nat.mod_one]
  | succ w ih =>
    have h : beBytes (w + 1) n = [Fin.ofNat (n / 256 ^ w)] ++ beBytes w n := rfl
    rw [h, beNat_append, ih, beBytes_length]
    have h1 : beNat [(Fin.ofNat (n / 256 ^ w) : Byte)] = n / 256 ^ w % 256 := by
      simp [beNat, val_ofNat]
    rw [h1, pow_succ, Nat.mod_mul, Nat.mul_comm]
    omega

/-! ## The attribute stream and the decoder -/

theorem attrStreamAux_fuel (f1 : Nat) : ∀ (f2 : Nat) (b : List Byte),
    b.length ≤ f1 → b.length ≤ f2 → attrStreamAux f1 b = attrStreamAux f2 b := by
  induction f1 with
  | zero =>
    intro f2 b h1 _
    have hb : b.length = 0 := by omega
    cases f2 with
    | zero => rfl
    | succ f2 => simp [attrStreamAux, hb]
  | succ f1 ih =>
    intro f2 b h1 h2
    cases f2 with
    | zero =>
      have hb : b.length = 0 := by omega
      simp [attrStreamAux, hb]
    | succ f2 =>
      simp only [attrStreamAux]
      split
      · rfl
      · rename_i hb
        cases hu : Attribute.unmarshal b with
        | error e => rfl
        | ok a =>
          have hlen : (b.drop (advance a.Length)).length ≤ b.length - 4 := by
            have := advance_pos a.Length
            simp only [List.length_drop]; omega
          have e := ih f2 (b.drop (advance a.Length)) (by omega) (by omega)
          simp only [e]

theorem attrStream_nil : attrStream [] = ([], none) := rfl

theorem attrStream_of_length_zero (b : List Byte) (h : b.length = 0) :
    attrStream b = ([], none) := by
  have : b = [] := List.length_eq_zero.mp h
  subst this; rfl

theorem attrStream_of_error (b : List Byte) (e : Error) (hb : b.length ≠ 0)
    (hu : Attribute.unmarshal b = .error e) : attrStream b = ([], some e) := by
  unfold attrStream
  obtain ⟨n, hn⟩ : ∃ n, b.length = n + 1 := ⟨b.length - 1, by omega⟩
  rw [hn]
  simp [attrStreamAux, hu, hn]

theorem attrStream_of_ok (b : List Byte) (a : Attribute) (hb : b.length ≠ 0)
    (hu : Attribute.unmarshal b = .ok a) :
    attrStream b = (a :: (attrStream (b.drop (advance a.Length))).1,
      (attrStream (b.drop (advance a.Length))).2) := by
  have hlen : (b.drop (advance a.Length)).length ≤ b.length - 4 := by
    have := advance_pos a.Length
    simp only [List.length_drop]; omega
  obtain ⟨n, hn⟩ : ∃ n, b.length = n + 1 := ⟨b.length - 1, by omega⟩
  have e := attrStreamAux_fuel n (b.drop (advance a.Length)).length (b.drop (advance a.Length))
    (by omega) (le_refl _)
  unfold attrStream
  rw [hn]
  simp [attrStreamAux, hu, hn, e]

theorem Next_of_err (ad : AttributeDecoder) (e : Error) (h : ad.err = some e) :
    ad.Next = (false, ad) := by
  simp [AttributeDecoder.Next, h]

theorem Next_of_end (ad : AttributeDecoder) (h : ad.err = none) (hi : ad.b.length ≤ ad.i) :
    ad.Next = (false, ad) := by
  simp [AttributeDecoder.Next, h, hi]

theorem Next_of_error (ad : AttributeDecoder) (e : Error) (h : ad.err = none)
    (hi : ad.i < ad.b.length) (hu : Attribute.unmarshal (ad.b.drop ad.i) = .error e) :
    ad.Next = (false, { ad with err := some e }) := by
  simp [AttributeDecoder.Next, h, hu, Nat.not_le.mpr hi]

theorem Next_of_ok (ad : AttributeDecoder) (a : Attribute) (h : ad.err = none)
    (hi : ad.i < ad.b.length) (hu : Attribute.unmarshal (ad.b.drop ad.i) = .ok a) :
    ad.Next = (true, { ad with a := a, i := ad.i + advance a.Length }) := by
  simp [AttributeDecoder.Next, h, hu, Nat.not_le.mpr hi]

theorem loop_of_err (msg : Message) (fuel : Nat) (ad : AttributeDecoder) (e : Error)
    (table : Option Table) (name : List Byte) (objectType : Nat) (h : ad.err = some e) :
    objFromMsg.loop msg fuel ad table name objectType = .ret (none, some e) := by
  unfold objFromMsg.loop
  simp [Next_of_err ad e h, AttributeDecoder.Err, h]

theorem loop_eq_objScan (msg : Message) (fam : Byte) (hfam : msg.Data[0]? = some fam)
    (fuel : Nat) : ∀ (a0 : Attribute) (b : List Byte) (i len : Nat) (table : Option Table)
      (name : List Byte) (objectType : Nat), b.length - i ≤ fuel →
      objFromMsg.loop msg fuel ⟨.BigEndian, a0, b, i, len, none⟩ table name objectType =
        objScan fam (attrStream (b.drop i)).2 (attrStream (b.drop i)).1
          table name objectType := by
  induction fuel with
  | zero =>
    intro a0 b i len table name objectType hfuel
    have hi : b.length ≤ i := by omega
    unfold objFromMsg.loop
    rw [Next_of_end _ rfl hi, attrStream_of_length_zero _ (by simp; omega)]
    simp [AttributeDecoder.Err, objScan]
  | succ fuel ih =>
    intro a0 b i len table name objectType hfuel
    by_cases hi : b.length ≤ i
    · unfold objFromMsg.loop
      rw [Next_of_end _ rfl hi, attrStream_of_length_zero _ (by simp; omega)]
      simp [AttributeDecoder.Err, objScan]
    · have hi1 : i < b.length := by omega
      have hne : (b.drop i).length ≠ 0 := by simp; omega
      cases hu : Attribute.unmarshal (b.drop i) with
      | error e =>
        unfold objFromMsg.loop
        rw [Next_of_error ⟨.BigEndian, a0, b, i, len, none⟩ e rfl hi1 hu,
          attrStream_of_error _ e hne hu]
        simp [AttributeDecoder.Err, objScan]
      | ok a =>
        have hadv := advance_pos a.Length
        have hdrop : (b.drop i).drop (advance a.Length) = b.drop (i + advance a.Length) := by
          rw [List.drop_drop]
        rw [attrStream_of_ok _ a hne hu, hdrop]
        unfold objFromMsg.loop
        rw [Next_of_ok ⟨.BigEndian, a0, b, i, len, none⟩ a rfl hi1 hu]
        have hih := fun t n o => ih a b (i + advance a.Length) len t n o (by omega)
        simp only [AttributeDecoder.Typ, AttributeDecoder.String, AttributeDecoder.Uint32,
          AttributeDecoder.Do, AttributeDecoder.Err, hfam, ByteOrder.toNat]
        simp only [objScan, typeOf]
        by_cases h1 : a.Typ % (attrTypeMask + 1) = unix.NFTA_OBJ_TABLE
        · simp only [h1, if_true]
          exact hih _ _ _
        · simp only [h1, if_false]
          by_cases h2 : a.Typ % (attrTypeMask + 1) = unix.NFTA_OBJ_NAME
          · simp only [h2, if_true]
            exact hih _ _ _
          · simp only [h2, if_false]
            by_cases h3 : a.Typ % (attrTypeMask + 1) = unix.NFTA_OBJ_TYPE
            · simp only [h3, if_true]
              by_cases h4 : a.Data.length = 4
              · simp only [h4, ne_eq, not_true_eq_false, if_false]
                exact hih _ _ _
              · simp only [h4, ne_eq, not_false_eq_true, if_true]
                exact loop_of_err msg fuel _ _ _ _ _ rfl
            · simp only [h3, if_false]
              by_cases h5 : a.Typ % (attrTypeMask + 1) = unix.NFTA_OBJ_DATA
              · simp only [h5, if_true]
                by_cases h6 : objectType = NFT_OBJECT_COUNTER
                · simp only [h6, if_true]
                  cases hn : objFromMsg.nested a.Data ⟨table, name, 0, 0⟩ with
                  | ret r =>
                    obtain ⟨o, e⟩ := r
                    cases e <;> rfl
                  | panic => rfl
                  | outOfFuel => rfl
                · simp only [h6, if_false]
                  exact hih _ _ _
              · simp only [h5, if_false]
                exact hih _ _ _

theorem uint16_drop (b : List Byte) (i : Nat) : nlenc.Uint16 (b.drop i) 0 = nlenc.Uint16 b i := by
  simp [nlenc.Uint16, List.getD_eq_getElem?_getD, List.getElem?_drop]

theorem unmarshal_length (b : List Byte) (a : Attribute) (h : Attribute.unmarshal b = .ok a) :
    a.Length = nlenc.Uint16 b 0 := by
  unfold Attribute.unmarshal at h
  split at h
  · cases h
  · dsimp only at h
    split at h
    · cases h
    · split at h
      · cases h; rfl
      · split at h
        · cases h
        · cases h; rfl

theorem unmarshal_ok_length (b : List Byte) (a : Attribute) (h : Attribute.unmarshal b = .ok a) :
    4 ≤ b.length := by
  unfold Attribute.unmarshal nlaHeaderLen at h
  split at h
  · cases h
  · omega

theorem advance_eq (l : Nat) :
    nlaAlign (if l < nlaHeaderLen then nlaHeaderLen else l) = advance l := by
  unfold advance
  split
  · rfl
  · rfl

theorem available_cases (fuel : Nat) : ∀ (b : List Byte) (i c : Nat), b.length - i ≤ fuel →
    (∃ n, AttributeDecoder.available fuel b i c = .ret (n, none)) ∨
      AttributeDecoder.available fuel b i c = .ret (0, some .invalidAttribute) := by
  induction fuel with
  | zero =>
    intro b i c h
    left
    unfold AttributeDecoder.available
    exact ⟨c, by simp; omega⟩
  | succ fuel ih =>
    intro b i c h
    unfold AttributeDecoder.available
    by_cases h1 : i ≥ b.length
    · left; exact ⟨c, by simp [h1]⟩
    · by_cases h2 : (b.drop i).length < nlaHeaderLen
      · right; rw [if_neg h1, if_pos h2]
      · simp only [h1, h2, if_false]
        apply ih
        have := advance_pos (nlenc.Uint16 b i)
        rw [advance_eq]
        omega

theorem available_of_stream (fuel : Nat) : ∀ (b : List Byte) (i c : Nat), b.length - i ≤ fuel →
    (attrStream (b.drop i)).2 = none →
    ∃ n, AttributeDecoder.available fuel b i c = .ret (n, none) := by
  induction fuel with
  | zero =>
    intro b i c h _
    unfold AttributeDecoder.available
    exact ⟨c, by simp; omega⟩
  | succ fuel ih =>
    intro b i c h hs
    unfold AttributeDecoder.available
    by_cases h1 : i ≥ b.length
    · exact ⟨c, by simp [h1]⟩
    · have hne : (b.drop i).length ≠ 0 := by simp; omega
      cases hu : Attribute.unmarshal (b.drop i) with
      | error e =>
        rw [attrStream_of_error _ e hne hu] at hs
        cases hs
      | ok a =>
        have h4 := unmarshal_ok_length _ _ hu
        have h2 : ¬ (b.drop i).length < nlaHeaderLen := by unfold nlaHeaderLen; omega
        rw [attrStream_of_ok _ a hne hu, List.drop_drop] at hs
        have hl := unmarshal_length _ _ hu
        rw [uint16_drop] at hl
        simp only [h1, h2, if_false]
        rw [advance_eq, ← hl]
        apply ih
        · have := advance_pos a.Length
          omega
        · exact hs

theorem NewAttributeDecoder_cases (b : List Byte) :
    (∃ n, NewAttributeDecoder b =
      .ret (some ⟨.LittleEndian, ⟨0, 0, []⟩, b, 0, n, none⟩, none)) ∨
      NewAttributeDecoder b = .ret (none, some .invalidAttribute) := by
  unfold NewAttributeDecoder
  rcases available_cases b.length b 0 0 (by omega) with ⟨n, h⟩ | h
  · left; exact ⟨n, by rw [h]⟩
  · right; rw [h]

theorem NewAttributeDecoder_of_stream (b : List Byte) (hs : (attrStream b).2 = none) :
    ∃ n, NewAttributeDecoder b =
      .ret (some ⟨.LittleEndian, ⟨0, 0, []⟩, b, 0, n, none⟩, none) := by
  unfold NewAttributeDecoder
  obtain ⟨n, h⟩ := available_of_stream b.length b 0 0 (by omega) (by simpa using hs)
  exact ⟨n, by rw [h]⟩

theorem unmarshal_loop_of_err (fuel : Nat) (ad : AttributeDecoder) (e : Error) (c : CounterObj)
    (sb sp : Bool) (h : ad.err = some e) :
    CounterObj.unmarshal.loop fuel ad c sb sp = .ret (ad, c, sb, sp) := by
  unfold CounterObj.unmarshal.loop
  simp [Next_of_err ad e h]

theorem unmarshal_loop_eq (fuel : Nat) : ∀ (a0 : Attribute) (b : List Byte) (i len : Nat)
    (c : CounterObj) (sb sp : Bool), b.length - i ≤ fuel →
    ∃ ad, CounterObj.unmarshal.loop fuel ⟨.BigEndian, a0, b, i, len, none⟩ c sb sp =
        .ret (ad, (counterScan (attrStream (b.drop i)).1 c sb sp).1,
          (counterScan (attrStream (b.drop i)).1 c sb sp).2.1,
          (counterScan (attrStream (b.drop i)).1 c sb sp).2.2.1) ∧
      ad.err = (match (counterScan (attrStream (b.drop i)).1 c sb sp).2.2.2 with
        | some e => some e
        | none => (attrStream (b.drop i)).2) := by
  induction fuel with
  | zero =>
    intro a0 b i len c sb sp hfuel
    have hi : b.length ≤ i := by omega
    unfold CounterObj.unmarshal.loop
    rw [Next_of_end _ rfl hi, attrStream_of_length_zero _ (by simp; omega)]
    exact ⟨_, rfl, rfl⟩
  | succ fuel ih =>
    intro a0 b i len c sb sp hfuel
    by_cases hi : b.length ≤ i
    · unfold CounterObj.unmarshal.loop
      rw [Next_of_end _ rfl hi, attrStream_of_length_zero _ (by simp; omega)]
      exact ⟨_, rfl, rfl⟩
    · have hi1 : i < b.length := by omega
      have hne : (b.drop i).length ≠ 0 := by simp; omega
      cases hu : Attribute.unmarshal (b.drop i) with
      | error e =>
        unfold CounterObj.unmarshal.loop
        rw [Next_of_error ⟨.BigEndian, a0, b, i, len, none⟩ e rfl hi1 hu,
          attrStream_of_error _ e hne hu]
        exact ⟨_, rfl, rfl⟩
      | ok a =>
        have hadv := advance_pos a.Length
        have hdrop : (b.drop i).drop (advance a.Length) = b.drop (i + advance a.Length) := by
          rw [List.drop_drop]
        rw [attrStream_of_ok _ a hne hu, hdrop]
        unfold CounterObj.unmarshal.loop
        rw [Next_of_ok ⟨.BigEndian, a0, b, i, len, none⟩ a rfl hi1 hu]
        have hih := fun c sb sp => ih a b (i + advance a.Length) len c sb sp (by omega)
        simp only [AttributeDecoder.Typ, AttributeDecoder.Uint64, ByteOrder.toNat]
        simp only [counterScan, typeOf]
        by_cases h1 : a.Typ % (attrTypeMask + 1) = unix.NFTA_COUNTER_BYTES
        · simp only [h1, if_true]
          by_cases h4 : a.Data.length = 8
          · simp only [h4, ne_eq, not_true_eq_false, if_false]
            exact hih _ _ _
          · simp only [h4, ne_eq, not_false_eq_true, if_true]
            rw [unmarshal_loop_of_err fuel _ _ _ _ _ rfl]
            exact ⟨_, rfl, rfl⟩
        · simp only [h1, if_false]
          by_cases h2 : a.Typ % (attrTypeMask + 1) = unix.NFTA_COUNTER_PACKETS
          · simp only [h2, if_true]
            by_cases h4 : a.Data.length = 8
            · simp only [h4, ne_eq, not_true_eq_false, if_false]
              exact hih _ _ _
            · simp only [h4, ne_eq, not_false_eq_true, if_true]
              rw [unmarshal_loop_of_err fuel _ _ _ _ _ rfl]
              exact ⟨_, rfl, rfl⟩
          · simp only [h2, if_false]
            exact hih _ _ _

theorem unmarshal_eq_counterDecode (a0 : Attribute) (b : List Byte) (len : Nat)
    (c : CounterObj) :
    CounterObj.unmarshal c ⟨.BigEndian, a0, b, 0, len, none⟩ = .ret (counterDecode b c) := by
  obtain ⟨ad, h1, h2⟩ := unmarshal_loop_eq b.length a0 b 0 len c false false (by omega)
  simp only [List.drop_zero] at h1 h2
  unfold CounterObj.unmarshal counterDecode
  simp only [h1, AttributeDecoder.Err, h2]
  cases (counterScan (attrStream b).1 c false false).2.2.2 with
  | some e => rfl
  | none =>
    cases (attrStream b).2 with
    | some e => rfl
    | none =>
      simp only []
      split
      · rfl
      · split
        · rfl
        · rfl

theorem nested_cases (b : List Byte) (o : CounterObj) :
    objFromMsg.nested b o = .ret (counterDecode b o) ∨
      objFromMsg.nested b o = .ret (o, some .invalidAttribute) := by
  unfold objFromMsg.nested
  rcases NewAttributeDecoder_cases b with ⟨n, h⟩ | h
  · left
    rw [h]
    exact unmarshal_eq_counterDecode _ _ _ _
  · right
    rw [h]

theorem nested_of_stream (b : List Byte) (o : CounterObj) (hs : (attrStream b).2 = none) :
    objFromMsg.nested b o = .ret (counterDecode b o) := by
  unfold objFromMsg.nested
  obtain ⟨n, h⟩ := NewAttributeDecoder_of_stream b hs
  rw [h]
  exact unmarshal_eq_counterDecode _ _ _ _

/-! ## The loop of `objFromMsg` on a stream -/

theorem objFromMsg_eq_objScan (msg : Message) (fam : Byte)
    (hh : msg.Header.Typ = objHeaderType) (hlen : 4 ≤ msg.Data.length)
    (hfam : msg.Data[0]? = some fam) :
    objFromMsg msg = .ret (none, some .invalidAttribute) ∨
      objFromMsg msg = objScan fam (attrStream (msg.Data.drop 4)).2
        (attrStream (msg.Data.drop 4)).1 none [] 0 := by
  unfold objFromMsg
  rw [if_neg (by simpa using hh), if_neg (by omega)]
  rcases NewAttributeDecoder_cases (msg.Data.drop 4) with ⟨n, h⟩ | h
  · right
    rw [h]
    have := loop_eq_objScan msg fam hfam (msg.Data.drop 4).length ⟨0, 0, []⟩ (msg.Data.drop 4) 0 n
      none [] 0 (by omega)
    simpa using this
  · left
    rw [h]

theorem objFromMsg_of_stream (msg : Message) (fam : Byte)
    (hh : msg.Header.Typ = objHeaderType) (hlen : 4 ≤ msg.Data.length)
    (hfam : msg.Data[0]? = some fam) (hs : (attrStream (msg.Data.drop 4)).2 = none) :
    objFromMsg msg = objScan fam none (attrStream (msg.Data.drop 4)).1 none [] 0 := by
  unfold objFromMsg
  rw [if_neg (by simpa using hh), if_neg (by omega)]
  obtain ⟨n, h⟩ := NewAttributeDecoder_of_stream (msg.Data.drop 4) hs
  rw [h]
  have := loop_eq_objScan msg fam hfam (msg.Data.drop 4).length ⟨0, 0, []⟩ (msg.Data.drop 4) 0 n
    none [] 0 (by omega)
  simp only [List.drop_zero] at this
  rw [hs] at this
  simpa using this

theorem head_of_length (d : List Byte) (h : 4 ≤ d.length) : ∃ fam, d[0]? = some fam := by
  cases d with
  | nil => simp at h
  | cons x xs => exact ⟨x, by simp⟩

theorem putUint32_counter : binaryutil.PutUint32 NFT_OBJECT_COUNTER = [0, 0, 0, 1] := by decide

theorem beNat_four_eq_one (d : List Byte) (h : d.length = 4) (h1 : beNat d = 1) :
    d = binaryutil.PutUint32 NFT_OBJECT_COUNTER := by
  rw [putUint32_counter]
  match d, h with
  | [b0, b1, b2, b3], _ =>
    simp only [beNat, List.foldl_cons, List.foldl_nil] at h1
    have e0 : b0 = 0 := Fin.ext (by simp only [Fin.val_zero]; omega)
    have e1 : b1 = 0 := Fin.ext (by simp only [Fin.val_zero]; omega)
    have e2 : b2 = 0 := Fin.ext (by simp only [Fin.val_zero]; omega)
    have e3 : b3 = 1 := Fin.ext (by simp only [Fin.val_one]; omega)
    rw [e0, e1, e2, e3]

theorem objScan_cons (fam : Byte) (perr : Option Error) (a : Attribute) (rest : List Attribute)
    (table : Option Table) (name : List Byte) (objectType : Nat) :
    objScan fam perr (a :: rest) table name objectType =
      if typeOf a = unix.NFTA_OBJ_TABLE then
        objScan fam perr rest (some { Name := nlenc.String a.Data, Family := fam }) name objectType
      else if typeOf a = unix.NFTA_OBJ_NAME then
        objScan fam perr rest table (nlenc.String a.Data) objectType
      else if typeOf a = unix.NFTA_OBJ_TYPE then
        if a.Data.length ≠ 4 then .ret (none, some (.notUint32 (typeOf a) a.Data.length))
        else objScan fam perr rest table name (beNat a.Data)
      else if typeOf a = unix.NFTA_OBJ_DATA then
        if objectType = NFT_OBJECT_COUNTER then
          match objFromMsg.nested a.Data { Table := table, Name := name } with
          | .ret (o, err) => .ret (some o, err)
          | .panic => .panic
          | .outOfFuel => .outOfFuel
        else objScan fam perr rest table name objectType
      else objScan fam perr rest table name objectType := by
  rw [objScan]

theorem objScan_no_counter (fam : Byte) (perr : Option Error) :
    ∀ (attrs : List Attribute) (t : Option Table) (n : List Byte) (ot : Nat),
      ot ≠ NFT_OBJECT_COUNTER →
      (∀ a ∈ attrs, typeOf a = unix.NFTA_OBJ_TYPE →
        a.Data ≠ binaryutil.PutUint32 NFT_OBJECT_COUNTER) →
      ∃ e, objScan fam perr attrs t n ot = .ret (none, some e) := by
  intro attrs
  induction attrs with
  | nil =>
    intro t n ot _ _
    cases perr with
    | none => exact ⟨_, rfl⟩
    | some e => exact ⟨_, rfl⟩
  | cons a rest ih =>
    intro t n ot hot hall
    have hrest : ∀ x ∈ rest, typeOf x = unix.NFTA_OBJ_TYPE →
        x.Data ≠ binaryutil.PutUint32 NFT_OBJECT_COUNTER :=
      fun x hx => hall x (List.mem_cons_of_mem _ hx)
    rw [objScan_cons]
    by_cases h1 : typeOf a = unix.NFTA_OBJ_TABLE
    · rw [if_pos h1]
      exact ih _ _ _ hot hrest
    · rw [if_neg h1]
      by_cases h2 : typeOf a = unix.NFTA_OBJ_NAME
      · rw [if_pos h2]
        exact ih _ _ _ hot hrest
      · rw [if_neg h2]
        by_cases h3 : typeOf a = unix.NFTA_OBJ_TYPE
        · rw [if_pos h3]
          by_cases h4 : a.Data.length = 4
          · rw [if_neg (by simpa using h4)]
            apply ih _ _ _ _ hrest
            intro h1
            exact hall a (List.mem_cons_self _ _) h3 (beNat_four_eq_one _ h4 h1)
          · rw [if_pos (by simpa using h4)]
            exact ⟨_, rfl⟩
        · rw [if_neg h3]
          by_cases h5 : typeOf a = unix.NFTA_OBJ_DATA
          · rw [if_pos h5, if_neg hot]
            exact ih _ _ _ hot hrest
          · rw [if_neg h5]
            exact ih _ _ _ hot hrest

theorem lastTable_cons (fam : Byte) (a : Attribute) (l : List Attribute) :
    lastTable fam (a :: l) =
      if typeOf a = unix.NFTA_OBJ_TABLE then
        (lastTable fam l).or (some { Name := nlenc.String a.Data, Family := fam })
      else lastTable fam l := by
  unfold lastTable
  by_cases h : typeOf a = unix.NFTA_OBJ_TABLE
  · simp only [h, decide_True, List.filter_cons_of_pos, if_true, List.getLast?_cons]
    cases (List.filter (fun a => decide (typeOf a = unix.NFTA_OBJ_TABLE)) l).getLast? <;> rfl
  · simp [h, List.filter_cons]

theorem lastName_cons (a : Attribute) (l : List Attribute) :
    lastName (a :: l) =
      if typeOf a = unix.NFTA_OBJ_NAME then (lastName l).or (some (nlenc.String a.Data))
      else lastName l := by
  unfold lastName
  by_cases h : typeOf a = unix.NFTA_OBJ_NAME
  · simp only [h, decide_True, List.filter_cons_of_pos, if_true, List.getLast?_cons]
    cases (List.filter (fun a => decide (typeOf a = unix.NFTA_OBJ_NAME)) l).getLast? <;> rfl
  · simp [h, List.filter_cons]

theorem lastType_cons (a : Attribute) (l : List Attribute) :
    lastType (a :: l) =
      if typeOf a = unix.NFTA_OBJ_TYPE then (lastType l).or (some (beNat a.Data))
      else lastType l := by
  unfold lastType
  by_cases h : typeOf a = unix.NFTA_OBJ_TYPE
  · simp only [h, decide_True, List.filter_cons_of_pos, if_true, List.getLast?_cons]
    cases (List.filter (fun a => decide (typeOf a = unix.NFTA_OBJ_TYPE)) l).getLast? <;> rfl
  · simp [h, List.filter_cons]

theorem or_some_or {α : Type} (x : Option α) (y : α) (t : Option α) :
    (x.or (some y)).or t = x.or (some y) := by
  cases x <;> rfl

theorem or_some_getD {α : Type} (x : Option α) (y t : α) :
    (x.or (some y)).getD t = x.getD y := by
  cases x <;> rfl

theorem objScan_append (fam : Byte) (perr : Option Error) (rest : List Attribute) :
    ∀ (pre : List Attribute) (t : Option Table) (n : List Byte) (ot : Nat),
      (∀ a ∈ pre, typeOf a ≠ unix.NFTA_OBJ_DATA) →
      (∀ a ∈ pre, typeOf a = unix.NFTA_OBJ_TYPE → a.Data.length = 4) →
      objScan fam perr (pre ++ rest) t n ot =
        objScan fam perr rest ((lastTable fam pre).or t) ((lastName pre).getD n)
          ((lastType pre).getD ot) := by
  intro pre
  induction pre with
  | nil =>
    intro t n ot _ _
    simp [lastTable, lastName, lastType]
  | cons a pre ih =>
    intro t n ot hnd hty
    have hnd1 : ∀ x ∈ pre, typeOf x ≠ unix.NFTA_OBJ_DATA :=
      fun x hx => hnd x (List.mem_cons_of_mem _ hx)
    have hty1 : ∀ x ∈ pre, typeOf x = unix.NFTA_OBJ_TYPE → x.Data.length = 4 :=
      fun x hx => hty x (List.mem_cons_of_mem _ hx)
    have ha := hnd a (List.mem_cons_self _ _)
    rw [List.cons_append, lastTable_cons, lastName_cons, lastType_cons, objScan_cons]
    by_cases h1 : typeOf a = unix.NFTA_OBJ_TABLE
    · have h2 : typeOf a ≠ unix.NFTA_OBJ_NAME := by rw [h1]; decide
      have h3 : typeOf a ≠ unix.NFTA_OBJ_TYPE := by rw [h1]; decide
      rw [if_pos h1, if_pos h1, if_neg h2, if_neg h3, ih _ _ _ hnd1 hty1, or_some_or]
    · rw [if_neg h1, if_neg h1]
      by_cases h2 : typeOf a = unix.NFTA_OBJ_NAME
      · have h3 : typeOf a ≠ unix.NFTA_OBJ_TYPE := by rw [h2]; decide
        rw [if_pos h2, if_pos h2, if_neg h3, ih _ _ _ hnd1 hty1, or_some_getD]
      · rw [if_neg h2, if_neg h2]
        by_cases h3 : typeOf a = unix.NFTA_OBJ_TYPE
        · have h4 := hty a (List.mem_cons_self _ _) h3
          rw [if_pos h3, if_pos h3, if_neg (by simpa using h4), ih _ _ _ hnd1 hty1,
            or_some_getD]
        · rw [if_neg h3, if_neg h3, if_neg ha, ih _ _ _ hnd1 hty1]

theorem counterScan_frame (t t0 : Option Table) (n n0 : List Byte) :
    ∀ (attrs : List Attribute) (B P : Nat) (sb sp : Bool),
      counterScan attrs ⟨t, n, B, P⟩ sb sp =
        (⟨t, n, (counterScan attrs ⟨t0, n0, B, P⟩ sb sp).1.Bytes,
            (counterScan attrs ⟨t0, n0, B, P⟩ sb sp).1.Packets⟩,
          (counterScan attrs ⟨t0, n0, B, P⟩ sb sp).2) := by
  intro attrs
  induction attrs with
  | nil => intro B P sb sp; rfl
  | cons a rest ih =>
    intro B P sb sp
    simp only [counterScan]
    split
    · split
      · rfl
      · exact ih _ _ _ _
    · split
      · split
        · rfl
        · exact ih _ _ _ _
      · exact ih _ _ _ _

theorem counterDecode_frame (b : List Byte) (t t0 : Option Table) (n n0 : List Byte)
    (B P : Nat) :
    counterDecode b ⟨t, n, B, P⟩ =
      (⟨t, n, (counterDecode b ⟨t0, n0, B, P⟩).1.Bytes, (counterDecode b ⟨t0, n0, B, P⟩).1.Packets⟩,
        (counterDecode b ⟨t0, n0, B, P⟩).2) := by
  unfold counterDecode
  simp only [counterScan_frame t t0 n n0]
  cases (counterScan (attrStream b).1 ⟨t0, n0, B, P⟩ false false).2.2.2 with
  | some e => rfl
  | none =>
    cases (attrStream b).2 with
    | some e => rfl
    | none =>
      simp only []
      split
      · rfl
      · split
        · rfl
        · rfl

theorem nested_frame (b : List Byte) (t : Option Table) (n : List Byte) (B P : Nat)
    (h : objFromMsg.nested b ⟨none, [], 0, 0⟩ = .ret (⟨none, [], B, P⟩, none)) :
    objFromMsg.nested b ⟨t, n, 0, 0⟩ = .ret (⟨t, n, B, P⟩, none) := by
  unfold objFromMsg.nested at h ⊢
  rcases NewAttributeDecoder_cases b with ⟨k, hk⟩ | hk
  · rw [hk] at h ⊢
    simp only [unmarshal_eq_counterDecode] at h ⊢
    rw [counterDecode_frame b t none n [] 0 0]
    injection h with h
    rw [h]
  · rw [hk] at h
    simp at h

theorem objFromMsg_of_leading (msg : Message) (fam : Byte) (pre : List Attribute) (d : Attribute)
    (post : List Attribute) (B P : Nat)
    (hh : msg.Header.Typ = objHeaderType) (hlen : 4 ≤ msg.Data.length)
    (hfam : msg.Data[0]? = some fam)
    (hs : attrStream (msg.Data.drop 4) = (pre ++ d :: post, none))
    (hnd : ∀ a ∈ pre, typeOf a ≠ unix.NFTA_OBJ_DATA)
    (hty : ∀ a ∈ pre, typeOf a = unix.NFTA_OBJ_TYPE → a.Data.length = 4)
    (hlast : lastType pre = some NFT_OBJECT_COUNTER)
    (hd : typeOf d = unix.NFTA_OBJ_DATA)
    (hp : objFromMsg.nested d.Data ⟨none, [], 0, 0⟩ = .ret (⟨none, [], B, P⟩, none)) :
    objFromMsg msg = .ret (some ⟨lastTable fam pre, (lastName pre).getD [], B, P⟩, none) := by
  rw [objFromMsg_of_stream msg fam hh hlen hfam (by rw [hs]), hs]
  simp only []
  rw [objScan_append fam none (d :: post) pre none [] 0 hnd hty, objScan_cons, hlast]
  have h1 : typeOf d ≠ unix.NFTA_OBJ_TABLE := by rw [hd]; decide
  have h2 : typeOf d ≠ unix.NFTA_OBJ_NAME := by rw [hd]; decide
  have h3 : typeOf d ≠ unix.NFTA_OBJ_TYPE := by rw [hd]; decide
  rw [if_neg h1, if_neg h2, if_neg h3, if_pos hd]
  simp only [Option.getD_some, if_true, Option.or_none]
  rw [nested_frame _ _ _ B P hp]

/-! ## The loop counters are always enough -/

theorem nested_returns (b : List Byte) (o : CounterObj) :
    ∃ r, objFromMsg.nested b o = .ret r := by
  rcases nested_cases b o with h | h
  · exact ⟨_, h⟩
  · exact ⟨_, h⟩

theorem objScan_returns (fam : Byte) (perr : Option Error) :
    ∀ (attrs : List Attribute) (t : Option Table) (n : List Byte) (ot : Nat),
      ∃ r, objScan fam perr attrs t n ot = .ret r := by
  intro attrs
  induction attrs with
  | nil =>
    intro t n ot
    cases perr with
    | none => exact ⟨_, rfl⟩
    | some e => exact ⟨_, rfl⟩
  | cons a rest ih =>
    intro t n ot
    rw [objScan_cons]
    by_cases h1 : typeOf a = unix.NFTA_OBJ_TABLE
    · rw [if_pos h1]
      exact ih _ _ _
    · rw [if_neg h1]
      by_cases h2 : typeOf a = unix.NFTA_OBJ_NAME
      · rw [if_pos h2]
        exact ih _ _ _
      · rw [if_neg h2]
        by_cases h3 : typeOf a = unix.NFTA_OBJ_TYPE
        · rw [if_pos h3]
          by_cases h4 : a.Data.length = 4
          · rw [if_neg (by simpa using h4)]
            exact ih _ _ _
          · rw [if_pos (by simpa using h4)]
            exact ⟨_, rfl⟩
        · rw [if_neg h3]
          by_cases h5 : typeOf a = unix.NFTA_OBJ_DATA
          · rw [if_pos h5]
            by_cases h6 : ot = NFT_OBJECT_COUNTER
            · rw [if_pos h6]
              obtain ⟨r, hr⟩ := nested_returns a.Data ⟨t, n, 0, 0⟩
              rw [hr]
              exact ⟨_, rfl⟩
            · rw [if_neg h6]
              exact ih _ _ _
          · rw [if_neg h5]
            exact ih _ _ _

theorem objFromMsg_returns (msg : Message)
    (h : msg.Header.Typ ≠ objHeaderType ∨ 4 ≤ msg.Data.length) :
    ∃ r, objFromMsg msg = .ret r := by
  by_cases hh : msg.Header.Typ = objHeaderType
  · rcases h with h | hlen
    · exact absurd hh h
    · obtain ⟨fam, hfam⟩ := head_of_length msg.Data hlen
      rcases objFromMsg_eq_objScan msg fam hh hlen hfam with e | e
      · exact ⟨_, e⟩
      · rw [e]
        exact objScan_returns _ _ _ _ _ _
  · exact ⟨(none, some (.unexpectedHeaderType msg.Header.Typ objHeaderType)),
      by simp [objFromMsg, hh]⟩

/-! ## Encoding followed by decoding -/

theorem putUint16_length (v : Nat) : (nlenc.PutUint16 v).length = 2 := rfl

theorem unmarshal_chunk (T : Nat) (data rest : List Byte) (hL : 4 + data.length < 65536)
    (hT : T < 65536) :
    Attribute.unmarshal (nlenc.PutUint16 (4 + data.length) ++ nlenc.PutUint16 T ++ data
        ++ List.replicate (nlaAlign data.length - data.length) 0 ++ rest) =
      .ok ⟨4 + data.length, T, data⟩ := by
  have hlen : nlenc.Uint16 (nlenc.PutUint16 (4 + data.length) ++ nlenc.PutUint16 T ++ data
      ++ List.replicate (nlaAlign data.length - data.length) 0 ++ rest) 0 = 4 + data.length := by
    simp only [List.append_assoc]
    exact uint16_put _ hL _
  have htyp : nlenc.Uint16 (nlenc.PutUint16 (4 + data.length) ++ nlenc.PutUint16 T ++ data
      ++ List.replicate (nlaAlign data.length - data.length) 0 ++ rest) 2 = T := by
    simp [nlenc.Uint16, nlenc.PutUint16, val_ofNat]
    omega
  have hdata : ((nlenc.PutUint16 (4 + data.length) ++ nlenc.PutUint16 T ++ data
      ++ List.replicate (nlaAlign data.length - data.length) 0 ++ rest).take
        (4 + data.length)).drop nlaHeaderLen = data := by
    have e : nlenc.PutUint16 (4 + data.length) ++ nlenc.PutUint16 T ++ data
        ++ List.replicate (nlaAlign data.length - data.length) 0 ++ rest
        = ((nlenc.PutUint16 (4 + data.length) ++ nlenc.PutUint16 T) ++ data)
          ++ (List.replicate (nlaAlign data.length - data.length) 0 ++ rest) := by
      simp only [List.append_assoc]
    rw [e, List.take_left' (by simp [putUint16_length]; omega)]
    exact List.drop_left' (by simp [putUint16_length, nlaHeaderLen])
  unfold Attribute.unmarshal
  simp only [hlen, htyp, hdata]
  have hge := nlaAlign_ge data.length
  have hl : (nlenc.PutUint16 (4 + data.length) ++ nlenc.PutUint16 T ++ data
      ++ List.replicate (nlaAlign data.length - data.length) 0 ++ rest).length
      = 4 + nlaAlign data.length + rest.length := by
    simp [putUint16_length]; omega
  rw [hl]
  simp only [nlaHeaderLen]
  rw [if_neg (by omega), if_neg (by omega), if_neg (by omega), if_neg (by omega)]

theorem drop_chunk (T : Nat) (data rest : List Byte) :
    (nlenc.PutUint16 (4 + data.length) ++ nlenc.PutUint16 T ++ data
        ++ List.replicate (nlaAlign data.length - data.length) 0 ++ rest).drop
        (advance (4 + data.length)) = rest := by
  have hge := nlaAlign_ge data.length
  apply List.drop_left'
  unfold advance nlaHeaderLen
  rw [if_neg (by omega), nlaAlign_add_four]
  simp [putUint16_length]; omega

theorem attrStream_marshal : ∀ (attrs : List Attribute),
    (∀ a ∈ attrs, a.Length = 0 ∧ 4 + a.Data.length < 65536 ∧ a.Typ < 65536) →
    ∃ bs, MarshalAttributes attrs = .ok bs ∧
      attrStream bs = (attrs.map (fun a => ⟨4 + a.Data.length, a.Typ, a.Data⟩), none) := by
  intro attrs
  induction attrs with
  | nil => intro _; exact ⟨[], rfl, rfl⟩
  | cons a rest ih =>
    intro h
    obtain ⟨h0, hL, hT⟩ := h a (List.mem_cons_self _ _)
    obtain ⟨bs, hbs, hst⟩ := ih (fun x hx => h x (List.mem_cons_of_mem _ hx))
    refine ⟨nlenc.PutUint16 (4 + a.Data.length) ++ nlenc.PutUint16 a.Typ ++ a.Data
        ++ List.replicate (nlaAlign a.Data.length - a.Data.length) 0 ++ bs, ?_, ?_⟩
    · simp only [MarshalAttributes, h0, if_true, Attribute.marshal, nlaHeaderLen, hbs]
      rw [Nat.mod_eq_of_lt hL, if_neg (by omega)]
    · have hu := unmarshal_chunk a.Typ a.Data bs hL hT
      rw [attrStream_of_ok _ _ (by simp [putUint16_length]) hu]
      simp only []
      rw [drop_chunk, hst]
      rfl

theorem trimNul_append_nul (s : List Byte) (h : s.getLast? ≠ some 0) :
    nlenc.String (s ++ [0]) = s := by
  unfold nlenc.String trimNul
  rcases List.eq_nil_or_concat s with rfl | ⟨L, b, rfl⟩
  · rfl
  · have hb : b ≠ 0 := by
      intro hb
      apply h
      rw [hb]
      simp
    simp [List.dropWhile_cons, hb]

theorem extraHeader_eq (fam : Byte) : extraHeader fam 0 = [fam, 0, 0, 0] := by
  simp [extraHeader, beBytes]
  decide

theorem counter_payload (bytes packets : Nat) (hb : bytes < 2 ^ 64) (hp : packets < 2 ^ 64) :
    ∃ ob, MarshalAttributes
        [{ Typ := unix.NFTA_COUNTER_BYTES, Data := binaryutil.PutUint64 bytes },
         { Typ := unix.NFTA_COUNTER_PACKETS, Data := binaryutil.PutUint64 packets }] = .ok ob ∧
      ob.length = 24 ∧
      objFromMsg.nested ob ⟨none, [], 0, 0⟩ = .ret (⟨none, [], bytes, packets⟩, none) := by
  obtain ⟨ob, hob, hst⟩ := attrStream_marshal
    [{ Typ := unix.NFTA_COUNTER_BYTES, Data := binaryutil.PutUint64 bytes },
     { Typ := unix.NFTA_COUNTER_PACKETS, Data := binaryutil.PutUint64 packets }]
    (by
      intro a ha
      simp only [List.mem_cons, List.mem_singleton, List.not_mem_nil, or_false] at ha
      rcases ha with rfl | rfl <;>
        simp [binaryutil.PutUint64, beBytes_length, unix.NFTA_COUNTER_BYTES,
          unix.NFTA_COUNTER_PACKETS])
  refine ⟨ob, hob, ?_, ?_⟩
  · simp only [MarshalAttributes, Attribute.marshal, nlaHeaderLen, binaryutil.PutUint64,
      beBytes_length] at hob
    simp at hob
    rw [← hob]
    simp [putUint16_length, beBytes_length, nlaAlign]
  · rw [nested_of_stream ob _ (by rw [hst])]
    unfold counterDecode
    rw [hst]
    have e1 : beNat (binaryutil.PutUint64 bytes) = bytes := by
      rw [binaryutil.PutUint64, beNat_beBytes]
      exact Nat.mod_eq_of_lt (by norm_num; omega)
    have e2 : beNat (binaryutil.PutUint64 packets) = packets := by
      rw [binaryutil.PutUint64, beNat_beBytes]
      exact Nat.mod_eq_of_lt (by norm_num; omega)
    simp [counterScan, typeOf, attrTypeMask, unix.NFTA_COUNTER_BYTES, unix.NFTA_COUNTER_PACKETS,
      binaryutil.PutUint64, beBytes_length]
    simp only [binaryutil.PutUint64] at e1 e2
    exact ⟨e1, e2⟩

theorem counter_marshal (tname name : List Byte) (fam : TableFamily) (bytes packets : Nat)
    (htl : tname.length ≤ 65530) (hnl : name.length ≤ 65530)
    (hb : bytes < 2 ^ 64) (hp : packets < 2 ^ 64) :
    ∃ d ob, CounterObj.marshal ⟨some ⟨tname, fam⟩, name, bytes, packets⟩ true = .ret (d, none) ∧
      attrStream d =
        ([⟨4 + (tname ++ [0]).length, unix.NFTA_OBJ_TABLE, tname ++ [0]⟩,
          ⟨4 + (name ++ [0]).length, unix.NFTA_OBJ_NAME, name ++ [0]⟩,
          ⟨4 + 4, unix.NFTA_OBJ_TYPE, binaryutil.PutUint32 NFT_OBJECT_COUNTER⟩] ++
          ⟨4 + ob.length, unix.NLA_F_NESTED ||| unix.NFTA_OBJ_DATA, ob⟩ :: [], none) ∧
      objFromMsg.nested ob ⟨none, [], 0, 0⟩ = .ret (⟨none, [], bytes, packets⟩, none) := by
  obtain ⟨ob, hob, hol, hon⟩ := counter_payload bytes packets hb hp
  obtain ⟨d, hd, hst⟩ := attrStream_marshal
    [{ Typ := unix.NFTA_OBJ_TABLE, Data := tname ++ [0] },
     { Typ := unix.NFTA_OBJ_NAME, Data := name ++ [0] },
     { Typ := unix.NFTA_OBJ_TYPE, Data := binaryutil.PutUint32 NFT_OBJECT_COUNTER },
     { Typ := unix.NLA_F_NESTED ||| unix.NFTA_OBJ_DATA, Data := ob }]
    (by
      intro a ha
      simp only [List.mem_cons, List.mem_singleton, List.not_mem_nil, or_false] at ha
      rcases ha with rfl | rfl | rfl | rfl
      · simp [unix.NFTA_OBJ_TABLE]; omega
      · simp [unix.NFTA_OBJ_NAME]; omega
      · simp [unix.NFTA_OBJ_TYPE, binaryutil.PutUint32, beBytes_length]
      · refine ⟨rfl, ?_, ?_⟩
        · simp only [hol]
          omega
        · show unix.NLA_F_NESTED ||| unix.NFTA_OBJ_DATA < 65536
          decide)
  refine ⟨d, ob, ?_, ?_, hon⟩
  · simp only [CounterObj.marshal, hob, if_true, List.cons_append, List.nil_append, hd]
  · rw [hst, putUint32_counter]
    rfl

/-! ## Round trip through `AddObj` and `objFromMsg` -/

/-- Claim C1 (amended): for every counter object whose table name and object name
are at most 65530 bytes long and do not end in a NUL byte, and whose counts are
unsigned 64-bit values, `marshal(true)` succeeds, `AddObj` appends one message of
type NEWOBJ whose data is the resource header followed by the marshalled bytes, and
`objFromMsg` decodes that message without error into a counter object with the same
table name, family, name, packets and bytes. -/
theorem AddObj_objFromMsg_roundtrip (cc : Conn) (tname name : List Byte) (fam : TableFamily)
    (bytes packets : Nat)
    (htl : tname.length ≤ 65530) (hnl : name.length ≤ 65530)
    (htz : tname.getLast? ≠ some 0) (hnz : name.getLast? ≠ some 0)
    (hb : bytes < 2 ^ 64) (hp : packets < 2 ^ 64) :
    ∃ d, CounterObj.marshal ⟨some ⟨tname, fam⟩, name, bytes, packets⟩ true = .ret (d, none) ∧
      cc.AddObj (⟨some ⟨tname, fam⟩, name, bytes, packets⟩ : CounterObj) =
        .ret (some ⟨some ⟨tname, fam⟩, name, bytes, packets⟩,
          { cc with messages := cc.messages ++ [Conn.AddObj.message fam d] }) ∧
      (Conn.AddObj.message fam d).Header.Typ =
        HeaderType ((unix.NFNL_SUBSYS_NFTABLES <<< 8) ||| unix.NFT_MSG_NEWOBJ) ∧
      (Conn.AddObj.message fam d).Data = extraHeader fam 0 ++ d ∧
      objFromMsg (Conn.AddObj.message fam d) =
        .ret (some ⟨some ⟨tname, fam⟩, name, bytes, packets⟩, none) := by
  obtain ⟨d, ob, hm, hst, hon⟩ := counter_marshal tname name fam bytes packets htl hnl hb hp
  refine ⟨d, hm, ?_, rfl, rfl, ?_⟩
  · simp only [Conn.AddObj, Obj.marshal, Obj.family, hm, CounterObj.family]
  · have hdata : (Conn.AddObj.message fam d).Data = fam :: 0 :: 0 :: 0 :: d := by
      simp [Conn.AddObj.message, extraHeader_eq]
    have h := objFromMsg_of_leading (Conn.AddObj.message fam d) fam
      [⟨4 + (tname ++ [0]).length, unix.NFTA_OBJ_TABLE, tname ++ [0]⟩,
        ⟨4 + (name ++ [0]).length, unix.NFTA_OBJ_NAME, name ++ [0]⟩,
        ⟨4 + 4, unix.NFTA_OBJ_TYPE, binaryutil.PutUint32 NFT_OBJECT_COUNTER⟩]
      ⟨4 + ob.length, unix.NLA_F_NESTED ||| unix.NFTA_OBJ_DATA, ob⟩ [] bytes packets
      rfl (by rw [hdata]; simp) (by rw [hdata]; simp)
      (by rw [hdata]; simpa using hst)
      (by
        intro a ha
        simp only [List.mem_cons, List.mem_singleton, List.not_mem_nil, or_false] at ha
        rcases ha with rfl | rfl | rfl <;>
          simp [typeOf, attrTypeMask, unix.NFTA_OBJ_TABLE, unix.NFTA_OBJ_NAME,
            unix.NFTA_OBJ_TYPE, unix.NFTA_OBJ_DATA])
      (by
        intro a ha hty
        simp only [List.mem_cons, List.mem_singleton, List.not_mem_nil, or_false] at ha
        rcases ha with rfl | rfl | rfl
        · simp [typeOf, attrTypeMask, unix.NFTA_OBJ_TABLE, unix.NFTA_OBJ_TYPE] at hty
        · simp [typeOf, attrTypeMask, unix.NFTA_OBJ_NAME, unix.NFTA_OBJ_TYPE] at hty
        · simp [binaryutil.PutUint32, beBytes_length])
      (by
        simp only [lastType, typeOf, attrTypeMask, unix.NFTA_OBJ_TABLE, unix.NFTA_OBJ_NAME,
          unix.NFTA_OBJ_TYPE, List.filter]
        have hbe : beNat (binaryutil.PutUint32 NFT_OBJECT_COUNTER) = NFT_OBJECT_COUNTER := by
          decide
        simp [hbe])
      (by
        show (unix.NLA_F_NESTED ||| unix.NFTA_OBJ_DATA) % (attrTypeMask + 1) = unix.NFTA_OBJ_DATA
        decide) hon
    rw [h]
    have e1 : lastTable fam
        [⟨4 + (tname ++ [0]).length, unix.NFTA_OBJ_TABLE, tname ++ [0]⟩,
          ⟨4 + (name ++ [0]).length, unix.NFTA_OBJ_NAME, name ++ [0]⟩,
          ⟨4 + 4, unix.NFTA_OBJ_TYPE, binaryutil.PutUint32 NFT_OBJECT_COUNTER⟩]
        = some ⟨nlenc.String (tname ++ [0]), fam⟩ := by
      simp only [lastTable, typeOf, attrTypeMask, unix.NFTA_OBJ_TABLE, unix.NFTA_OBJ_NAME,
        unix.NFTA_OBJ_TYPE, List.filter]
      simp
    have e2 : lastName
        [⟨4 + (tname ++ [0]).length, unix.NFTA_OBJ_TABLE, tname ++ [0]⟩,
          ⟨4 + (name ++ [0]).length, unix.NFTA_OBJ_NAME, name ++ [0]⟩,
          ⟨4 + 4, unix.NFTA_OBJ_TYPE, binaryutil.PutUint32 NFT_OBJECT_COUNTER⟩]
        = some (nlenc.String (name ++ [0])) := by
      simp only [lastName, typeOf, attrTypeMask, unix.NFTA_OBJ_TABLE, unix.NFTA_OBJ_NAME,
        unix.NFTA_OBJ_TYPE, List.filter]
      simp
    rw [e1, e2, trimNul_append_nul tname htz, trimNul_append_nul name hnz]
    rfl

theorem MarshalAttributes_cons_ok (a : Attribute) (rest : List Attribute) (h0 : a.Length = 0)
    (hL : 4 + a.Data.length < 65536) :
    MarshalAttributes (a :: rest) =
      match MarshalAttributes rest with
      | .error e => .error e
      | .ok bs => .ok (nlenc.PutUint16 (4 + a.Data.length) ++ nlenc.PutUint16 a.Typ ++ a.Data
          ++ List.replicate (nlaAlign a.Data.length - a.Data.length) 0 ++ bs) := by
  simp only [MarshalAttributes, h0, if_true, Attribute.marshal, nlaHeaderLen]
  rw [Nat.mod_eq_of_lt hL, if_neg (by omega)]

theorem MarshalAttributes_cons_zero (a : Attribute) (rest : List Attribute) (h0 : a.Length = 0)
    (hL : (4 + a.Data.length) % 65536 = 0) :
    MarshalAttributes (a :: rest) = .error .invalidAttribute := by
  simp only [MarshalAttributes, h0, if_true, Attribute.marshal, nlaHeaderLen, hL]
  rfl

theorem marshal_long_name (t : Table) (name : List Byte) (B P : Nat)
    (ht : t.Name.length ≤ 65530) (h : name.length = 65531) :
    CounterObj.marshal ⟨some t, name, B, P⟩ true = .ret ([], some .invalidAttribute) := by
  have hlen : (name ++ [0]).length = 65532 := by
    rw [List.length_append, h]
    rfl
  have hpay : ∃ ob, MarshalAttributes
      [{ Typ := unix.NFTA_COUNTER_BYTES, Data := binaryutil.PutUint64 B },
       { Typ := unix.NFTA_COUNTER_PACKETS, Data := binaryutil.PutUint64 P }] = .ok ob := by
    rw [MarshalAttributes_cons_ok _ _ rfl (by simp [binaryutil.PutUint64, beBytes_length]),
      MarshalAttributes_cons_ok _ _ rfl (by simp [binaryutil.PutUint64, beBytes_length])]
    exact ⟨_, rfl⟩
  obtain ⟨ob, hob⟩ := hpay
  simp only [CounterObj.marshal, hob, if_true, List.cons_append, List.nil_append]
  rw [MarshalAttributes_cons_ok _ _ rfl (by simp; omega),
    MarshalAttributes_cons_zero _ _ rfl (by simp only [hlen])]

theorem AddObj_long_name (cc : Conn) (t : Table) (name : List Byte) (B P : Nat)
    (ht : t.Name.length ≤ 65530) (h : name.length = 65531) :
    cc.AddObj (⟨some t, name, B, P⟩ : CounterObj) = .ret (none, cc.setErr .invalidAttribute) := by
  simp only [Conn.AddObj, Obj.marshal, marshal_long_name t name B P ht h]

/-- Witness of C1: the counter `ctr1` of the IPv4 table `filter`, with 10 packets
and 1500 bytes, decodes to itself. -/
theorem AddObj_objFromMsg_roundtrip_witness :
    (strFilter.length ≤ 65530 ∧ strCtr1.length ≤ 65530 ∧ strFilter.getLast? ≠ some 0 ∧
      strCtr1.getLast? ≠ some 0 ∧ 1500 < 2 ^ 64 ∧ 10 < 2 ^ 64) ∧
    ∃ d, CounterObj.marshal ⟨some ⟨strFilter, TableFamilyIPv4⟩, strCtr1, 1500, 10⟩ true
          = .ret (d, none) ∧
      Conn.AddObj ⟨[], none⟩ (⟨some ⟨strFilter, TableFamilyIPv4⟩, strCtr1, 1500, 10⟩ : CounterObj) =
        .ret (some ⟨some ⟨strFilter, TableFamilyIPv4⟩, strCtr1, 1500, 10⟩,
          { (⟨[], none⟩ : Conn) with
            messages := [] ++ [Conn.AddObj.message TableFamilyIPv4 d] }) ∧
      (Conn.AddObj.message TableFamilyIPv4 d).Header.Typ =
        HeaderType ((unix.NFNL_SUBSYS_NFTABLES <<< 8) ||| unix.NFT_MSG_NEWOBJ) ∧
      (Conn.AddObj.message TableFamilyIPv4 d).Data = extraHeader TableFamilyIPv4 0 ++ d ∧
      objFromMsg (Conn.AddObj.message TableFamilyIPv4 d) =
        .ret (some ⟨some ⟨strFilter, TableFamilyIPv4⟩, strCtr1, 1500, 10⟩, none) :=
  ⟨⟨by decide, by decide, by decide, by decide, by decide, by decide⟩,
    AddObj_objFromMsg_roundtrip ⟨[], none⟩ strFilter strCtr1 TableFamilyIPv4 1500 10
      (by decide) (by decide) (by decide) (by decide) (by decide) (by decide)⟩

/-- Counterexample to C1 as stated: a name that ends in a NUL byte comes back
without that byte, and for a name of 65531 bytes `AddObj` appends no message at
all, because the attribute length does not fit in 16 bits. -/
theorem AddObj_objFromMsg_roundtrip_counterexample :
    (Conn.AddObj ⟨[], none⟩ nulNamed = .ret (some nulNamed, ⟨[nulNamedMsg], none⟩) ∧
      nulNamed.Name = [97, 0] ∧
      objFromMsg nulNamedMsg =
        .ret (some ⟨some ⟨strFilter, TableFamilyIPv4⟩, [97], 0, 0⟩, none) ∧
      objFromMsg nulNamedMsg ≠ .ret (some nulNamed, none)) ∧
    Conn.AddObj ⟨[], none⟩ longNamed = .ret (none, ⟨[], some .invalidAttribute⟩) := by
  refine ⟨⟨by decide!, rfl, by decide!, by decide!⟩, ?_⟩
  exact AddObj_long_name ⟨[], none⟩ ⟨strFilter, TableFamilyIPv4⟩ (List.replicate 65531 97) 0 0
    (by decide) (List.length_replicate _ _)

/-! ## Header check and unknown type codes -/

/-- Claim C2: a message whose header type is not the object message type makes
`objFromMsg` return a nil object and the header-mismatch error, whatever its data. -/
theorem objFromMsg_header_mismatch (msg : Message) (h : msg.Header.Typ ≠ objHeaderType) :
    objHeaderType = (unix.NFNL_SUBSYS_NFTABLES <<< 8) ||| unix.NFT_MSG_NEWOBJ ∧
      objFromMsg msg =
        .ret (none, some (.unexpectedHeaderType msg.Header.Typ objHeaderType)) := by
  refine ⟨by decide, ?_⟩
  simp [objFromMsg, h]

/-- Witness of C2: a message of header type 0 with empty data. -/
theorem objFromMsg_header_mismatch_witness :
    (0 : Nat) ≠ objHeaderType ∧
      objHeaderType = (unix.NFNL_SUBSYS_NFTABLES <<< 8) ||| unix.NFT_MSG_NEWOBJ ∧
      objFromMsg ⟨{ Typ := 0 }, []⟩ = .ret (none, some (.unexpectedHeaderType 0 objHeaderType)) :=
  ⟨by decide, objFromMsg_header_mismatch ⟨{ Typ := 0 }, []⟩ (by decide)⟩

/-- Claim C3: a reply with the expected header type in which no type-code attribute
carries the counter code makes `objFromMsg` return an error and no object, whatever
table, name and payload attributes it has. -/
theorem objFromMsg_unknown_type (msg : Message) (hh : msg.Header.Typ = objHeaderType)
    (hlen : 4 ≤ msg.Data.length)
    (hall : ∀ a ∈ (attrStream (msg.Data.drop 4)).1, typeOf a = unix.NFTA_OBJ_TYPE →
      a.Data ≠ binaryutil.PutUint32 NFT_OBJECT_COUNTER) :
    ∃ e, objFromMsg msg = .ret (none, some e) := by
  obtain ⟨fam, hfam⟩ := head_of_length msg.Data hlen
  rcases objFromMsg_eq_objScan msg fam hh hlen hfam with h | h
  · exact ⟨_, h⟩
  · rw [h]
    exact objScan_no_counter fam _ _ none [] 0 (by decide) hall

/-- Witness of C3: `quotaMsg` has well-formed table, name and payload attributes and
the type code 2. -/
theorem objFromMsg_unknown_type_witness :
    (quotaMsg.Header.Typ = objHeaderType ∧ 4 ≤ quotaMsg.Data.length ∧
      ∀ a ∈ (attrStream (quotaMsg.Data.drop 4)).1, typeOf a = unix.NFTA_OBJ_TYPE →
        a.Data ≠ binaryutil.PutUint32 NFT_OBJECT_COUNTER) ∧
    ∃ e, objFromMsg quotaMsg = .ret (none, some e) :=
  ⟨⟨by decide, by decide, by decide!⟩,
    objFromMsg_unknown_type quotaMsg (by decide) (by decide) (by decide!)⟩

/-! ## `AddObj` -/

/-- Claim C6: when `marshal(true)` succeeds with bytes `d`, `AddObj` returns the
object and appends exactly one message at the end of the batch: header type
NFNL_SUBSYS_NFTABLES<<8 | NFT_MSG_NEWOBJ, flags Request|Acknowledge|Create, data the
4-byte resource header that starts with the family byte, followed by `d`. -/
theorem AddObj_appends {α : Type} [Obj α] (cc : Conn) (o : α) (d : List Byte)
    (fam : TableFamily) (hm : Obj.marshal o true = .ret (d, none))
    (hf : Obj.family o = .ret fam) :
    ∃ m, cc.AddObj o = .ret (some o, { messages := cc.messages ++ [m], err := cc.err }) ∧
      m.Header.Typ = (unix.NFNL_SUBSYS_NFTABLES <<< 8) ||| unix.NFT_MSG_NEWOBJ ∧
      m.Header.Flags = Request ||| Acknowledge ||| Create ∧
      m.Data = [fam, 0, 0, 0] ++ d := by
  have ht : HeaderType ((unix.NFNL_SUBSYS_NFTABLES <<< 8) ||| unix.NFT_MSG_NEWOBJ) =
      (unix.NFNL_SUBSYS_NFTABLES <<< 8) ||| unix.NFT_MSG_NEWOBJ := by decide
  refine ⟨Conn.AddObj.message fam d, ?_, ht, rfl, ?_⟩
  · simp only [Conn.AddObj, hm, hf]
  · simp [Conn.AddObj.message, extraHeader_eq]

/-- Witness of C6: the counter `ctr1` added to an empty builder. -/
theorem AddObj_appends_witness :
    (Obj.marshal ctr1 true = .ret (ctr1Bytes, none) ∧ Obj.family ctr1 = .ret TableFamilyIPv4) ∧
    ∃ m, Conn.AddObj ⟨[], none⟩ ctr1 = .ret (some ctr1, { messages := [] ++ [m], err := none }) ∧
      m.Header.Typ = (unix.NFNL_SUBSYS_NFTABLES <<< 8) ||| unix.NFT_MSG_NEWOBJ ∧
      m.Header.Flags = Request ||| Acknowledge ||| Create ∧
      m.Data = [TableFamilyIPv4, 0, 0, 0] ++ ctr1Bytes :=
  ⟨⟨by decide!, by decide⟩,
    AddObj_appends ⟨[], none⟩ ctr1 ctr1Bytes TableFamilyIPv4 (by decide!) (by decide)⟩

/-- Claim C7 (amended): when `marshal(true)` fails, `AddObj` returns nil, leaves the
batch as it was, and hands the marshal error to `setErr`: it becomes the deferred
error when none is deferred yet, and an error deferred earlier is kept. -/
theorem AddObj_marshal_error {α : Type} [Obj α] (cc : Conn) (o : α) (d : List Byte) (e : Error)
    (hm : Obj.marshal o true = .ret (d, some e)) :
    ∃ cc1, cc.AddObj o = .ret (none, cc1) ∧ cc1.messages = cc.messages ∧
      (cc.err = none → cc1.err = some e) ∧ (∀ e0, cc.err = some e0 → cc1.err = some e0) := by
  refine ⟨cc.setErr e, ?_, ?_, ?_, ?_⟩
  · simp only [Conn.AddObj, hm]
  · unfold Conn.setErr; split <;> rfl
  · intro h; simp [Conn.setErr, h]
  · intro e0 h; simp [Conn.setErr, h]

/-- Witness of C7: the counter `longNamed`, whose marshalling fails, added to an
empty builder. -/
theorem AddObj_marshal_error_witness :
    Obj.marshal longNamed true = .ret ([], some .invalidAttribute) ∧
    ∃ cc1, Conn.AddObj ⟨[], none⟩ longNamed = .ret (none, cc1) ∧
      cc1.messages = (⟨[], none⟩ : Conn).messages ∧
      ((⟨[], none⟩ : Conn).err = none → cc1.err = some .invalidAttribute) ∧
      (∀ e0, (⟨[], none⟩ : Conn).err = some e0 → cc1.err = some e0) :=
  ⟨marshal_long_name ⟨strFilter, TableFamilyIPv4⟩ (List.replicate 65531 97) 0 0
      (by decide) (List.length_replicate _ _),
    AddObj_marshal_error ⟨[], none⟩ longNamed [] .invalidAttribute
      (marshal_long_name ⟨strFilter, TableFamilyIPv4⟩ (List.replicate 65531 97) 0 0
        (by decide) (List.length_replicate _ _))⟩

/-- Counterexample to C7 as stated: on a builder that already defers an error, the
failing `AddObj` does not record the marshal error; the earlier error stays. -/
theorem AddObj_marshal_error_counterexample :
    Obj.marshal longNamed true = .ret ([], some .invalidAttribute) ∧
      Conn.AddObj ⟨[], some (.external 1)⟩ longNamed =
        .ret (none, ⟨[], some (.external 1)⟩) ∧
      Error.external 1 ≠ Error.invalidAttribute :=
  ⟨marshal_long_name ⟨strFilter, TableFamilyIPv4⟩ (List.replicate 65531 97) 0 0
      (by decide) (List.length_replicate _ _),
    AddObj_long_name ⟨[], some (.external 1)⟩ ⟨strFilter, TableFamilyIPv4⟩
      (List.replicate 65531 97) 0 0 (by decide) (List.length_replicate _ _),
    by decide⟩

/-- Claim C8: `AddObj` is not short-circuited by an earlier failure: after a failing
`AddObj`, an `AddObj` whose `marshal(true)` succeeds returns its object, the batch
is the one before the two calls extended by exactly the second object's message, and
the deferred error is not nil. -/
theorem AddObj_after_error {α β : Type} [Obj α] [Obj β] (cc : Conn) (o1 : α) (o2 : β)
    (d1 d2 : List Byte) (e : Error) (fam : TableFamily)
    (h1 : Obj.marshal o1 true = .ret (d1, some e))
    (h2 : Obj.marshal o2 true = .ret (d2, none)) (hf : Obj.family o2 = .ret fam) :
    ∃ cc1 cc2, cc.AddObj o1 = .ret (none, cc1) ∧ cc1.AddObj o2 = .ret (some o2, cc2) ∧
      cc2.err ≠ none ∧ cc2.messages = cc.messages ++ [Conn.AddObj.message fam d2] := by
  refine ⟨cc.setErr e, { cc.setErr e with
    messages := (cc.setErr e).messages ++ [Conn.AddObj.message fam d2] }, ?_, ?_, ?_, ?_⟩
  · simp only [Conn.AddObj, h1]
  · simp only [Conn.AddObj, h2, hf]
  · unfold Conn.setErr
    cases h : cc.err <;> simp [h]
  · unfold Conn.setErr
    cases h : cc.err <;> simp [h]

/-- Witness of C8: `longNamed`, whose marshalling fails, then `ctr1`, on an empty
builder. -/
theorem AddObj_after_error_witness :
    (Obj.marshal longNamed true = .ret ([], some .invalidAttribute) ∧
      Obj.marshal ctr1 true = .ret (ctr1Bytes, none) ∧
      Obj.family ctr1 = .ret TableFamilyIPv4) ∧
    ∃ cc1 cc2, Conn.AddObj ⟨[], none⟩ longNamed = .ret (none, cc1) ∧
      cc1.AddObj ctr1 = .ret (some ctr1, cc2) ∧ cc2.err ≠ none ∧
      cc2.messages =
        (⟨[], none⟩ : Conn).messages ++ [Conn.AddObj.message TableFamilyIPv4 ctr1Bytes] :=
  ⟨⟨marshal_long_name ⟨strFilter, TableFamilyIPv4⟩ (List.replicate 65531 97) 0 0
      (by decide) (List.length_replicate _ _), by decide!, by decide⟩,
    AddObj_after_error ⟨[], none⟩ longNamed ctr1 [] ctr1Bytes .invalidAttribute TableFamilyIPv4
      (marshal_long_name ⟨strFilter, TableFamilyIPv4⟩ (List.replicate 65531 97) 0 0
        (by decide) (List.length_replicate _ _))
      (by decide!) (by decide)⟩

/-! ## `getObj` -/

theorem decode_all_valid : ∀ (reply : List Message) (acc : List (Option CounterObj)),
    (∀ m ∈ reply, ∃ x, objFromMsg m = .ret (x, none)) →
    ∃ objs, Conn.getObj.decode reply acc = .ret (acc ++ objs, none) ∧
      List.Forall₂ (fun m x => objFromMsg m = .ret (x, none)) reply objs := by
  intro reply
  induction reply with
  | nil =>
    intro acc _
    exact ⟨[], by simp [Conn.getObj.decode], List.Forall₂.nil⟩
  | cons m rest ih =>
    intro acc h
    obtain ⟨x, hx⟩ := h m (List.mem_cons_self _ _)
    obtain ⟨objs, h1, h2⟩ := ih (acc ++ [x]) (fun m hm => h m (List.mem_cons_of_mem _ hm))
    refine ⟨x :: objs, ?_, List.Forall₂.cons hx h2⟩
    simp only [Conn.getObj.decode, hx, h1, List.append_assoc, List.singleton_append]

theorem decode_error_nil : ∀ (reply : List Message) (acc objs : List (Option CounterObj))
    (e : Error), Conn.getObj.decode reply acc = .ret (objs, some e) → objs = [] := by
  intro reply
  induction reply with
  | nil =>
    intro acc objs e h
    simp [Conn.getObj.decode] at h
  | cons m rest ih =>
    intro acc objs e h
    unfold Conn.getObj.decode at h
    split at h
    · injection h with h
      injection h with h1 h2
      exact h1.symm
    · exact ih _ _ _ h
    · cases h
    · cases h

/-- Claim C4: when dialling, marshalling and sending succeed and every one of the N
reply messages decodes without error, `getObj` returns a nil error and exactly N
objects, the i-th being the decoding of the i-th message received. -/
theorem getObj_all_valid {α : Type} [Obj α] (cc : Conn) (t : Transport) (o : α) (msgType : Nat)
    (d : List Byte) (fam : TableFamily) (reply : List Message)
    (hdial : t.dialNetlink = none)
    (hm : Obj.marshal o false = .ret (d, none)) (hf : Obj.family o = .ret fam)
    (hsend : t.SendMessages [Conn.getObj.message fam d msgType] = none)
    (hrecv : t.Receive [Conn.getObj.message fam d msgType] = (reply, none))
    (hall : ∀ m ∈ reply, ∃ x, objFromMsg m = .ret (x, none)) :
    ∃ objs, (cc.getObj t o msgType).1 = .ret (objs, none) ∧ objs.length = reply.length ∧
      List.Forall₂ (fun m x => objFromMsg m = .ret (x, none)) reply objs := by
  obtain ⟨objs, h1, h2⟩ := decode_all_valid reply [] hall
  refine ⟨objs, ?_, h2.length_eq.symm, h2⟩
  simp only [Conn.getObj, hdial, Conn.getObj.body, hm, hf, hsend, hrecv, h1, List.nil_append]

/-- Witness of C4: a read of `ctr1` that receives the two replies `ctr1Msg` and
`permMsg`. -/
theorem getObj_all_valid_witness :
    ((replyTransport [ctr1Msg, permMsg]).dialNetlink = none ∧
      Obj.marshal ctr1 false = .ret (ctr1Identity, none) ∧
      Obj.family ctr1 = .ret TableFamilyIPv4 ∧
      (replyTransport [ctr1Msg, permMsg]).SendMessages
        [Conn.getObj.message TableFamilyIPv4 ctr1Identity unix.NFT_MSG_GETOBJ] = none ∧
      (replyTransport [ctr1Msg, permMsg]).Receive
        [Conn.getObj.message TableFamilyIPv4 ctr1Identity unix.NFT_MSG_GETOBJ]
          = ([ctr1Msg, permMsg], none) ∧
      objFromMsg ctr1Msg = .ret (some ctr1, none) ∧
      objFromMsg permMsg = .ret (some ctr1, none)) ∧
    ∃ objs, (Conn.getObj ⟨[], none⟩ (replyTransport [ctr1Msg, permMsg]) ctr1
        unix.NFT_MSG_GETOBJ).1 = .ret (objs, none) ∧
      objs.length = [ctr1Msg, permMsg].length ∧
      List.Forall₂ (fun m x => objFromMsg m = .ret (x, none)) [ctr1Msg, permMsg] objs :=
  ⟨⟨rfl, by decide!, by decide, rfl, rfl, by decide!, by decide!⟩,
    getObj_all_valid ⟨[], none⟩ (replyTransport [ctr1Msg, permMsg]) ctr1 unix.NFT_MSG_GETOBJ
      ctr1Identity TableFamilyIPv4 [ctr1Msg, permMsg] rfl (by decide!) (by decide) rfl rfl
      (by
        intro m hm
        simp only [List.mem_cons, List.mem_singleton, List.not_mem_nil, or_false] at hm
        rcases hm with rfl | rfl
        · exact ⟨some ctr1, by decide!⟩
        · exact ⟨some ctr1, by decide!⟩)⟩

/-- Claim C5: whenever `getObj` returns an error, the object list it returns is
nil, on every path: dialling, marshalling, sending, receiving, and decoding a reply
at any position. -/
theorem getObj_error_nil {α : Type} [Obj α] (cc : Conn) (t : Transport) (o : α) (msgType : Nat)
    (objs : List (Option CounterObj)) (e : Error)
    (h : (cc.getObj t o msgType).1 = .ret (objs, some e)) : objs = [] := by
  unfold Conn.getObj at h
  split at h
  · injection h with h
    injection h with h1 h2
    exact h1.symm
  · simp only [Conn.getObj.body] at h
    split at h
    · cases h
    · cases h
    · injection h with h
      injection h with h1 h2
      exact h1.symm
    · split at h
      · cases h
      · cases h
      · split at h
        · injection h with h
          injection h with h1 h2
          exact h1.symm
        · split at h
          · injection h with h
            injection h with h1 h2
            exact h1.symm
          · exact decode_error_nil _ _ _ _ h

/-- Witness of C5: a read whose second reply has a payload that fails to unmarshal,
after a valid first reply: `objFromMsg` returns the object filled so far together
with the error, and `getObj` returns the error with a nil list. -/
theorem getObj_error_nil_witness :
    (objFromMsg ctr1Msg = .ret (some ctr1, none) ∧
      objFromMsg badPayloadMsg =
        .ret (some ⟨some ⟨strFilter, TableFamilyIPv4⟩, strCtr1, 1500, 0⟩,
          some (.notUint64 2 4)) ∧
      (Conn.getObj ⟨[], none⟩ (replyTransport [ctr1Msg, badPayloadMsg]) ctr1
        unix.NFT_MSG_GETOBJ).1 = .ret ([], some (.notUint64 2 4))) ∧
    ([] : List (Option CounterObj)) = [] :=
  ⟨⟨by decide!, by decide!, by decide!⟩,
    getObj_error_nil ⟨[], none⟩ (replyTransport [ctr1Msg, badPayloadMsg]) ctr1
      unix.NFT_MSG_GETOBJ [] (.notUint64 2 4) (by decide!)⟩

/-! ## Identity attributes -/

/-- Claim C9 (amended): a well-formed reply with the expected header type in which a
valid payload attribute follows the counter type code is decoded without error also
when no table attribute or no name attribute precedes the payload: the object then
has a nil table, respectively an empty name. `pre` are the attributes before the
first payload attribute `d`. -/
theorem objFromMsg_missing_identity (msg : Message) (fam : Byte) (pre : List Attribute)
    (d : Attribute) (post : List Attribute) (B P : Nat)
    (hh : msg.Header.Typ = objHeaderType) (hlen : 4 ≤ msg.Data.length)
    (hfam : msg.Data[0]? = some fam)
    (hs : attrStream (msg.Data.drop 4) = (pre ++ d :: post, none))
    (hnd : ∀ a ∈ pre, typeOf a ≠ unix.NFTA_OBJ_DATA)
    (hty : ∀ a ∈ pre, typeOf a = unix.NFTA_OBJ_TYPE → a.Data.length = 4)
    (hlast : lastType pre = some NFT_OBJECT_COUNTER)
    (hd : typeOf d = unix.NFTA_OBJ_DATA)
    (hp : objFromMsg.nested d.Data ⟨none, [], 0, 0⟩ = .ret (⟨none, [], B, P⟩, none)) :
    ∃ o, objFromMsg msg = .ret (some o, none) ∧ o.Bytes = B ∧ o.Packets = P ∧
      ((∀ a ∈ pre, typeOf a ≠ unix.NFTA_OBJ_TABLE) → o.Table = none) ∧
      ((∀ a ∈ pre, typeOf a ≠ unix.NFTA_OBJ_NAME) → o.Name = []) := by
  refine ⟨_, objFromMsg_of_leading msg fam pre d post B P hh hlen hfam hs hnd hty hlast hd hp,
    rfl, rfl, ?_, ?_⟩
  · intro h
    have : pre.filter (fun a => typeOf a = unix.NFTA_OBJ_TABLE) = [] := by
      rw [List.filter_eq_nil_iff]
      intro a ha
      simpa using h a ha
    simp [lastTable, this]
  · intro h
    have : pre.filter (fun a => typeOf a = unix.NFTA_OBJ_NAME) = [] := by
      rw [List.filter_eq_nil_iff]
      intro a ha
      simpa using h a ha
    simp [lastName, this]

/-- Witness of C9: `noTableMsg`, whose attributes are name, type code and payload. -/
theorem objFromMsg_missing_identity_witness :
    (noTableMsg.Header.Typ = objHeaderType ∧ 4 ≤ noTableMsg.Data.length ∧
      noTableMsg.Data[0]? = some TableFamilyIPv4 ∧
      attrStream (noTableMsg.Data.drop 4)
        = ([ctr1NameAttr, ctr1TypeAttr] ++ ctr1Payload :: [], none) ∧
      (∀ a ∈ [ctr1NameAttr, ctr1TypeAttr], typeOf a ≠ unix.NFTA_OBJ_DATA) ∧
      (∀ a ∈ [ctr1NameAttr, ctr1TypeAttr], typeOf a = unix.NFTA_OBJ_TYPE → a.Data.length = 4) ∧
      lastType [ctr1NameAttr, ctr1TypeAttr] = some NFT_OBJECT_COUNTER ∧
      typeOf ctr1Payload = unix.NFTA_OBJ_DATA ∧
      objFromMsg.nested ctr1Payload.Data ⟨none, [], 0, 0⟩ = .ret (⟨none, [], 1500, 10⟩, none)) ∧
    ∃ o, objFromMsg noTableMsg = .ret (some o, none) ∧ o.Bytes = 1500 ∧ o.Packets = 10 ∧
      ((∀ a ∈ [ctr1NameAttr, ctr1TypeAttr], typeOf a ≠ unix.NFTA_OBJ_TABLE) → o.Table = none) ∧
      ((∀ a ∈ [ctr1NameAttr, ctr1TypeAttr], typeOf a ≠ unix.NFTA_OBJ_NAME) → o.Name = []) :=
  ⟨⟨by decide, by decide, by decide, by decide!, by decide, by decide, by decide, by decide,
      by decide!⟩,
    objFromMsg_missing_identity noTableMsg TableFamilyIPv4 [ctr1NameAttr, ctr1TypeAttr]
      ctr1Payload [] 1500 10 (by decide) (by decide) (by decide) (by decide!) (by decide)
      (by decide) (by decide) (by decide) (by decide!)⟩

/-- Counterexample to C9 as stated: a reply without the table attribute and a reply
without the name attribute are both decoded without error, into an object with a
nil table and into an object with an empty name. -/
theorem objFromMsg_missing_identity_counterexample :
    objFromMsg noTableMsg = .ret (some ⟨none, strCtr1, 1500, 10⟩, none) ∧
      objFromMsg noNameMsg =
        .ret (some ⟨some ⟨strFilter, TableFamilyIPv4⟩, [], 1500, 10⟩, none) :=
  ⟨by decide!, by decide!⟩

/-- Claim C10 (amended): in a well-formed reply with the expected header type,
whose attributes before the first payload attribute `d` include exactly one table
attribute `t`, one name attribute `n` and one type-code attribute carrying the
counter code, the decoded object has the table name of `t` and the name of `n`,
wherever the three stand among the attributes before the payload. Attributes after
the payload are not read. -/
theorem objFromMsg_order_independent (msg : Message) (fam : Byte) (pre : List Attribute)
    (t n ty d : Attribute) (post : List Attribute) (B P : Nat)
    (hh : msg.Header.Typ = objHeaderType) (hlen : 4 ≤ msg.Data.length)
    (hfam : msg.Data[0]? = some fam)
    (hs : attrStream (msg.Data.drop 4) = (pre ++ d :: post, none))
    (htab : pre.filter (fun a => typeOf a = unix.NFTA_OBJ_TABLE) = [t])
    (hname : pre.filter (fun a => typeOf a = unix.NFTA_OBJ_NAME) = [n])
    (htype : pre.filter (fun a => typeOf a = unix.NFTA_OBJ_TYPE) = [ty])
    (hcode : ty.Data = binaryutil.PutUint32 NFT_OBJECT_COUNTER)
    (hnd : ∀ a ∈ pre, typeOf a ≠ unix.NFTA_OBJ_DATA)
    (hd : typeOf d = unix.NFTA_OBJ_DATA)
    (hp : objFromMsg.nested d.Data ⟨none, [], 0, 0⟩ = .ret (⟨none, [], B, P⟩, none)) :
    objFromMsg msg =
      .ret (some ⟨some ⟨nlenc.String t.Data, fam⟩, nlenc.String n.Data, B, P⟩, none) := by
  have hty : ∀ a ∈ pre, typeOf a = unix.NFTA_OBJ_TYPE → a.Data.length = 4 := by
    intro a ha h
    have hmem : a ∈ pre.filter (fun a => typeOf a = unix.NFTA_OBJ_TYPE) := by
      rw [List.mem_filter]
      exact ⟨ha, by simpa using h⟩
    rw [htype, List.mem_singleton] at hmem
    rw [hmem, hcode, putUint32_counter]
    rfl
  have hlast : lastType pre = some NFT_OBJECT_COUNTER := by
    unfold lastType
    rw [htype, List.getLast?_singleton, Option.map_some', hcode]
    rfl
  rw [objFromMsg_of_leading msg fam pre d post B P hh hlen hfam hs hnd hty hlast hd hp]
  unfold lastTable lastName
  rw [htab, hname]
  rfl

/-- Witness of C10: `permMsg`, whose attributes stand in the order type code, name,
table, payload. -/
theorem objFromMsg_order_independent_witness :
    (permMsg.Header.Typ = objHeaderType ∧ 4 ≤ permMsg.Data.length ∧
      permMsg.Data[0]? = some TableFamilyIPv4 ∧
      attrStream (permMsg.Data.drop 4)
        = ([ctr1TypeAttr, ctr1NameAttr, ctr1TableAttr] ++ ctr1Payload :: [], none) ∧
      [ctr1TypeAttr, ctr1NameAttr, ctr1TableAttr].filter
        (fun a => typeOf a = unix.NFTA_OBJ_TABLE) = [ctr1TableAttr] ∧
      [ctr1TypeAttr, ctr1NameAttr, ctr1TableAttr].filter
        (fun a => typeOf a = unix.NFTA_OBJ_NAME) = [ctr1NameAttr] ∧
      [ctr1TypeAttr, ctr1NameAttr, ctr1TableAttr].filter
        (fun a => typeOf a = unix.NFTA_OBJ_TYPE) = [ctr1TypeAttr] ∧
      ctr1TypeAttr.Data = binaryutil.PutUint32 NFT_OBJECT_COUNTER ∧
      (∀ a ∈ [ctr1TypeAttr, ctr1NameAttr, ctr1TableAttr], typeOf a ≠ unix.NFTA_OBJ_DATA) ∧
      typeOf ctr1Payload = unix.NFTA_OBJ_DATA ∧
      objFromMsg.nested ctr1Payload.Data ⟨none, [], 0, 0⟩ = .ret (⟨none, [], 1500, 10⟩, none)) ∧
    objFromMsg permMsg =
      .ret (some ⟨some ⟨nlenc.String ctr1TableAttr.Data, TableFamilyIPv4⟩,
        nlenc.String ctr1NameAttr.Data, 1500, 10⟩, none) :=
  ⟨⟨by decide, by decide, by decide, by decide!, by decide, by decide, by decide, by decide,
      by decide, by decide, by decide!⟩,
    objFromMsg_order_independent permMsg TableFamilyIPv4
      [ctr1TypeAttr, ctr1NameAttr, ctr1TableAttr] ctr1TableAttr ctr1NameAttr ctr1TypeAttr
      ctr1Payload [] 1500 10 (by decide) (by decide) (by decide) (by decide!) (by decide)
      (by decide) (by decide) (by decide) (by decide) (by decide) (by decide!)⟩

/-- Counterexample to C10 as stated: in `lateMsg` the table and name attributes
stand after the payload attribute, and the decoded object has a nil table and an
empty name instead of `filter` and `ctr1`. -/
theorem objFromMsg_order_independent_counterexample :
    objFromMsg lateMsg = .ret (some ⟨none, [], 1500, 10⟩, none) ∧
      attrStream (lateMsg.Data.drop 4)
        = ([ctr1TypeAttr, ctr1Payload, ctr1TableAttr, ctr1NameAttr], none) ∧
      nlenc.String ctr1TableAttr.Data = strFilter ∧ nlenc.String ctr1NameAttr.Data = strCtr1 :=
  ⟨by decide!, by decide!, by decide, by decide⟩

/-! ## The scan of `NewAttributeDecoder` -/

theorem headersOKAux_fuel (f1 : Nat) : ∀ (f2 : Nat) (b : List Byte),
    b.length ≤ f1 → b.length ≤ f2 → headersOKAux f1 b = headersOKAux f2 b := by
  induction f1 with
  | zero =>
    intro f2 b h1 _
    have hb : b.length = 0 := by omega
    cases f2 with
    | zero => rfl
    | succ f2 => simp [headersOKAux, hb]
  | succ f1 ih =>
    intro f2 b h1 h2
    cases f2 with
    | zero =>
      have hb : b.length = 0 := by omega
      simp [headersOKAux, hb]
    | succ f2 =>
      simp only [headersOKAux]
      split
      · rfl
      · split
        · rfl
        · have hadv := advance_pos (nlenc.Uint16 b 0)
          have hlen : (b.drop (advance (nlenc.Uint16 b 0))).length ≤ b.length - 4 := by
            simp only [List.length_drop]; omega
          exact ih f2 _ (by omega) (by omega)

theorem headersOK_of_short (b : List Byte) (h0 : b.length ≠ 0) (h : b.length < 4) :
    headersOK b = false := by
  unfold headersOK
  obtain ⟨n, hn⟩ : ∃ n, b.length = n + 1 := ⟨b.length - 1, by omega⟩
  rw [hn]
  simp only [headersOKAux, nlaHeaderLen]
  rw [if_neg (by omega), if_pos (by omega)]

theorem headersOK_of_length_zero (b : List Byte) (h : b.length = 0) : headersOK b = true := by
  have : b = [] := List.length_eq_zero.mp h
  subst this; rfl

theorem headersOK_step (b : List Byte) (h : 4 ≤ b.length) :
    headersOK b = headersOK (b.drop (advance (nlenc.Uint16 b 0))) := by
  have hadv := advance_pos (nlenc.Uint16 b 0)
  have hlen : (b.drop (advance (nlenc.Uint16 b 0))).length ≤ b.length - 4 := by
    simp only [List.length_drop]; omega
  obtain ⟨n, hn⟩ : ∃ n, b.length = n + 1 := ⟨b.length - 1, by omega⟩
  unfold headersOK
  rw [hn]
  simp only [headersOKAux, nlaHeaderLen]
  rw [if_neg (by omega), if_neg (by omega)]
  exact headersOKAux_fuel n _ _ (by omega) (le_refl _)

theorem available_eq_headersOK (fuel : Nat) : ∀ (b : List Byte) (i c : Nat),
    b.length - i ≤ fuel →
    (headersOK (b.drop i) = true → ∃ n, AttributeDecoder.available fuel b i c = .ret (n, none)) ∧
    (headersOK (b.drop i) = false →
      AttributeDecoder.available fuel b i c = .ret (0, some .invalidAttribute)) := by
  induction fuel with
  | zero =>
    intro b i c h
    have hz : (b.drop i).length = 0 := by simp; omega
    rw [headersOK_of_length_zero _ hz]
    refine ⟨fun _ => ?_, fun h => by cases h⟩
    unfold AttributeDecoder.available
    exact ⟨c, by simp; omega⟩
  | succ fuel ih =>
    intro b i c h
    unfold AttributeDecoder.available
    by_cases h1 : i ≥ b.length
    · have hz : (b.drop i).length = 0 := by simp; omega
      rw [headersOK_of_length_zero _ hz, if_pos h1]
      exact ⟨fun _ => ⟨c, rfl⟩, fun h => by cases h⟩
    · rw [if_neg h1]
      by_cases h2 : (b.drop i).length < nlaHeaderLen
      · rw [if_pos h2, headersOK_of_short _ (by simp; omega) h2]
        exact ⟨fun h => Bool.noConfusion h, fun _ => rfl⟩
      · rw [if_neg h2]
        have h4 : 4 ≤ (b.drop i).length := by unfold nlaHeaderLen at h2; omega
        rw [headersOK_step _ h4, uint16_drop, List.drop_drop]
        simp only []
        rw [advance_eq]
        have hadv := advance_pos (nlenc.Uint16 b i)
        exact ih b (i + advance (nlenc.Uint16 b i)) _ (by omega)

theorem NewAttributeDecoder_eq (b : List Byte) :
    (headersOK b = true ∧ ∃ n, NewAttributeDecoder b =
      .ret (some ⟨.LittleEndian, ⟨0, 0, []⟩, b, 0, n, none⟩, none)) ∨
    (headersOK b = false ∧ NewAttributeDecoder b = .ret (none, some .invalidAttribute)) := by
  have h := available_eq_headersOK b.length b 0 0 (by omega)
  simp only [List.drop_zero] at h
  unfold NewAttributeDecoder
  cases hk : headersOK b with
  | true =>
    left
    obtain ⟨n, hn⟩ := h.1 hk
    exact ⟨rfl, n, by rw [hn]⟩
  | false =>
    right
    refine ⟨rfl, ?_⟩
    rw [h.2 hk]

/-- The function `objFromMsg` on a message with the expected header type and at
least four data bytes, in terms of the attribute stream of the data. -/
theorem objFromMsg_eq (msg : Message) (fam : Byte)
    (hh : msg.Header.Typ = objHeaderType) (hlen : 4 ≤ msg.Data.length)
    (hfam : msg.Data[0]? = some fam) :
    objFromMsg msg =
      if headersOK (msg.Data.drop 4) then
        objScan fam (attrStream (msg.Data.drop 4)).2 (attrStream (msg.Data.drop 4)).1 none [] 0
      else .ret (none, some .invalidAttribute) := by
  unfold objFromMsg
  rw [if_neg (by simpa using hh), if_neg (by omega)]
  rcases NewAttributeDecoder_eq (msg.Data.drop 4) with ⟨hk, n, h⟩ | ⟨hk, h⟩
  · rw [h, hk]
    have := loop_eq_objScan msg fam hfam (msg.Data.drop 4).length ⟨0, 0, []⟩ (msg.Data.drop 4) 0 n
      none [] 0 (by omega)
    simpa using this
  · rw [h, hk]
    rfl

/-! ## Where the loop of `objFromMsg` builds the object -/

theorem objScan_dispatch (fam : Byte) (perr : Option Error) (a : Attribute)
    (rest : List Attribute) (t : Option Table) (n : List Byte) (ot : Nat)
    (h5 : typeOf a = unix.NFTA_OBJ_DATA) (h6 : ot = NFT_OBJECT_COUNTER) :
    objScan fam perr (a :: rest) t n ot =
      match objFromMsg.nested a.Data ⟨t, n, 0, 0⟩ with
      | .ret (o, err) => .ret (some o, err)
      | .panic => .panic
      | .outOfFuel => .outOfFuel := by
  have h1 : typeOf a ≠ unix.NFTA_OBJ_TABLE := by rw [h5]; decide
  have h2 : typeOf a ≠ unix.NFTA_OBJ_NAME := by rw [h5]; decide
  have h3 : typeOf a ≠ unix.NFTA_OBJ_TYPE := by rw [h5]; decide
  rw [objScan_cons, if_neg h1, if_neg h2, if_neg h3, if_pos h5, if_pos h6]

theorem objScan_dispatch_object (fam : Byte) (perr : Option Error) (a : Attribute)
    (rest : List Attribute) (t : Option Table) (n : List Byte) (ot : Nat)
    (h5 : typeOf a = unix.NFTA_OBJ_DATA) (h6 : ot = NFT_OBJECT_COUNTER) :
    ∃ o e, objScan fam perr (a :: rest) t n ot = .ret (some o, e) := by
  rw [objScan_dispatch fam perr a rest t n ot h5 h6]
  obtain ⟨r, hr⟩ := nested_returns a.Data ⟨t, n, 0, 0⟩
  rw [hr]
  exact ⟨r.1, r.2, rfl⟩

theorem objScan_never_nil_nil (fam : Byte) (perr : Option Error) :
    ∀ (attrs : List Attribute) (t : Option Table) (n : List Byte) (ot : Nat),
      objScan fam perr attrs t n ot ≠ .ret (none, none) := by
  intro attrs
  induction attrs with
  | nil =>
    intro t n ot
    cases perr with
    | none => simp [objScan]
    | some e => simp [objScan]
  | cons a rest ih =>
    intro t n ot
    rw [objScan_cons]
    by_cases h1 : typeOf a = unix.NFTA_OBJ_TABLE
    · rw [if_pos h1]
      exact ih _ _ _
    · rw [if_neg h1]
      by_cases h2 : typeOf a = unix.NFTA_OBJ_NAME
      · rw [if_pos h2]
        exact ih _ _ _
      · rw [if_neg h2]
        by_cases h3 : typeOf a = unix.NFTA_OBJ_TYPE
        · rw [if_pos h3]
          by_cases h4 : a.Data.length = 4
          · rw [if_neg (by simpa using h4)]
            exact ih _ _ _
          · rw [if_pos (by simpa using h4)]
            simp
        · rw [if_neg h3]
          by_cases h5 : typeOf a = unix.NFTA_OBJ_DATA
          · rw [if_pos h5]
            by_cases h6 : ot = NFT_OBJECT_COUNTER
            · rw [if_pos h6]
              obtain ⟨r, hr⟩ := nested_returns a.Data ⟨t, n, 0, 0⟩
              rw [hr]
              simp
            · rw [if_neg h6]
              exact ih _ _ _
          · rw [if_neg h5]
            exact ih _ _ _

theorem lastType_nil : lastType [] = none := rfl

theorem objScan_object_iff (fam : Byte) (perr : Option Error) :
    ∀ (attrs : List Attribute) (t : Option Table) (n : List Byte) (ot : Nat),
      (∃ o e, objScan fam perr attrs t n ot = .ret (some o, e)) ↔
        ∃ pre d post, attrs = pre ++ d :: post ∧ typeOf d = unix.NFTA_OBJ_DATA ∧
          (lastType pre).getD ot = NFT_OBJECT_COUNTER ∧
          ∀ a ∈ pre, typeOf a = unix.NFTA_OBJ_TYPE → a.Data.length = 4 := by
  intro attrs
  induction attrs with
  | nil =>
    intro t n ot
    constructor
    · rintro ⟨o, e, h⟩
      cases perr <;> simp [objScan] at h
    · rintro ⟨pre, d, post, h, _⟩
      simp at h
  | cons a rest ih =>
    intro t n ot
    -- the decompositions of `a :: rest` whose prefix is not empty
    have hshift : ∀ (ot1 : Nat),
        (∀ pre, (lastType (a :: pre)).getD ot = (lastType pre).getD ot1) →
        (typeOf a = unix.NFTA_OBJ_TYPE → a.Data.length = 4) →
        (typeOf a = unix.NFTA_OBJ_DATA → ot ≠ NFT_OBJECT_COUNTER) →
        ((∃ pre d post, rest = pre ++ d :: post ∧ typeOf d = unix.NFTA_OBJ_DATA ∧
            (lastType pre).getD ot1 = NFT_OBJECT_COUNTER ∧
            ∀ x ∈ pre, typeOf x = unix.NFTA_OBJ_TYPE → x.Data.length = 4) ↔
          ∃ pre d post, a :: rest = pre ++ d :: post ∧ typeOf d = unix.NFTA_OBJ_DATA ∧
            (lastType pre).getD ot = NFT_OBJECT_COUNTER ∧
            ∀ x ∈ pre, typeOf x = unix.NFTA_OBJ_TYPE → x.Data.length = 4) := by
      intro ot1 hl hlen hnd
      constructor
      · rintro ⟨pre, d, post, he, hd, hlt, hty⟩
        refine ⟨a :: pre, d, post, by rw [he]; rfl, hd, by rw [hl]; exact hlt, ?_⟩
        intro x hx
        rcases List.mem_cons.mp hx with rfl | hx
        · exact hlen
        · exact hty x hx
      · rintro ⟨pre, d, post, he, hd, hlt, hty⟩
        cases pre with
        | nil =>
          simp only [List.nil_append, List.cons.injEq] at he
          obtain ⟨rfl, _⟩ := he
          exact absurd (by simpa [lastType_nil] using hlt) (hnd hd)
        | cons p pre =>
          simp only [List.cons_append, List.cons.injEq] at he
          obtain ⟨rfl, he⟩ := he
          refine ⟨pre, d, post, he, hd, by rw [← hl]; exact hlt, ?_⟩
          intro x hx
          exact hty x (List.mem_cons_of_mem _ hx)
    rw [objScan_cons]
    by_cases h1 : typeOf a = unix.NFTA_OBJ_TABLE
    · rw [if_pos h1, ih]
      apply hshift ot
      · intro pre
        rw [lastType_cons, if_neg (by rw [h1]; decide)]
      · intro h; rw [h1] at h; exact absurd h (by decide)
      · intro h; rw [h1] at h; exact absurd h (by decide)
    · rw [if_neg h1]
      by_cases h2 : typeOf a = unix.NFTA_OBJ_NAME
      · rw [if_pos h2, ih]
        apply hshift ot
        · intro pre
          rw [lastType_cons, if_neg (by rw [h2]; decide)]
        · intro h; rw [h2] at h; exact absurd h (by decide)
        · intro h; rw [h2] at h; exact absurd h (by decide)
      · rw [if_neg h2]
        by_cases h3 : typeOf a = unix.NFTA_OBJ_TYPE
        · rw [if_pos h3]
          by_cases h4 : a.Data.length = 4
          · rw [if_neg (by simpa using h4), ih]
            apply hshift (beNat a.Data)
            · intro pre
              rw [lastType_cons, if_pos h3, or_some_getD]
            · intro _; exact h4
            · intro h; rw [h3] at h; exact absurd h (by decide)
          · rw [if_pos (by simpa using h4)]
            constructor
            · rintro ⟨o, e, h⟩
              simp at h
            · rintro ⟨pre, d, post, he, hd, hlt, hty⟩
              cases pre with
              | nil =>
                simp only [List.nil_append, List.cons.injEq] at he
                obtain ⟨rfl, _⟩ := he
                rw [h3] at hd
                exact absurd hd (by decide)
              | cons p pre =>
                simp only [List.cons_append, List.cons.injEq] at he
                obtain ⟨rfl, _⟩ := he
                exact absurd (hty _ (List.mem_cons_self _ _) h3) h4
        · rw [if_neg h3]
          by_cases h5 : typeOf a = unix.NFTA_OBJ_DATA
          · rw [if_pos h5]
            by_cases h6 : ot = NFT_OBJECT_COUNTER
            · rw [if_pos h6]
              constructor
              · intro _
                exact ⟨[], a, rest, rfl, h5, by simpa [lastType_nil] using h6, by simp⟩
              · intro _
                obtain ⟨r, hr⟩ := nested_returns a.Data ⟨t, n, 0, 0⟩
                rw [hr]
                exact ⟨r.1, r.2, rfl⟩
            · rw [if_neg h6, ih]
              apply hshift ot
              · intro pre
                rw [lastType_cons, if_neg h3]
              · intro h; exact absurd h h3
              · intro _; exact h6
          · rw [if_neg h5, ih]
            apply hshift ot
            · intro pre
              rw [lastType_cons, if_neg h3]
            · intro h; exact absurd h h3
            · intro h; exact absurd h h5

theorem objScan_append_skipping (fam : Byte) (perr : Option Error) (rest : List Attribute) :
    ∀ (pre : List Attribute) (t : Option Table) (n : List Byte) (ot : Nat),
      (∀ a ∈ pre, typeOf a = unix.NFTA_OBJ_TYPE → a.Data.length = 4) →
      (∀ p d q, pre = p ++ d :: q → typeOf d = unix.NFTA_OBJ_DATA →
        (lastType p).getD ot ≠ NFT_OBJECT_COUNTER) →
      objScan fam perr (pre ++ rest) t n ot =
        objScan fam perr rest ((lastTable fam pre).or t) ((lastName pre).getD n)
          ((lastType pre).getD ot) := by
  intro pre
  induction pre with
  | nil =>
    intro t n ot _ _
    simp [lastTable, lastName, lastType]
  | cons a pre ih =>
    intro t n ot hty hno
    have hty1 : ∀ x ∈ pre, typeOf x = unix.NFTA_OBJ_TYPE → x.Data.length = 4 :=
      fun x hx => hty x (List.mem_cons_of_mem _ hx)
    have hno1 : ∀ (ot1 : Nat), (∀ p, (lastType (a :: p)).getD ot = (lastType p).getD ot1) →
        ∀ p d q, pre = p ++ d :: q → typeOf d = unix.NFTA_OBJ_DATA →
          (lastType p).getD ot1 ≠ NFT_OBJECT_COUNTER := by
      intro ot1 hl p d q he hd
      rw [← hl]
      exact hno (a :: p) d q (by rw [he]; rfl) hd
    rw [List.cons_append, lastTable_cons, lastName_cons, lastType_cons, objScan_cons]
    by_cases h1 : typeOf a = unix.NFTA_OBJ_TABLE
    · have h2 : typeOf a ≠ unix.NFTA_OBJ_NAME := by rw [h1]; decide
      have h3 : typeOf a ≠ unix.NFTA_OBJ_TYPE := by rw [h1]; decide
      rw [if_pos h1, if_pos h1, if_neg h2, if_neg h3,
        ih _ _ _ hty1 (hno1 ot (fun p => by rw [lastType_cons, if_neg h3])), or_some_or]
    · rw [if_neg h1, if_neg h1]
      by_cases h2 : typeOf a = unix.NFTA_OBJ_NAME
      · have h3 : typeOf a ≠ unix.NFTA_OBJ_TYPE := by rw [h2]; decide
        rw [if_pos h2, if_pos h2, if_neg h3,
          ih _ _ _ hty1 (hno1 ot (fun p => by rw [lastType_cons, if_neg h3])), or_some_getD]
      · rw [if_neg h2, if_neg h2]
        by_cases h3 : typeOf a = unix.NFTA_OBJ_TYPE
        · have h4 := hty a (List.mem_cons_self _ _) h3
          rw [if_pos h3, if_pos h3, if_neg (by simpa using h4),
            ih _ _ _ hty1 (hno1 (beNat a.Data)
              (fun p => by rw [lastType_cons, if_pos h3, or_some_getD])), or_some_getD]
        · rw [if_neg h3, if_neg h3]
          have hrec := ih t n ot hty1 (hno1 ot (fun p => by rw [lastType_cons, if_neg h3]))
          by_cases h5 : typeOf a = unix.NFTA_OBJ_DATA
          · have h6 : ot ≠ NFT_OBJECT_COUNTER := by
              have := hno [] a pre rfl h5
              simpa [lastType_nil] using this
            rw [if_pos h5, if_neg h6, hrec]
          · rw [if_neg h5, hrec]

theorem objScan_insert (fam : Byte) (perr : Option Error) (x : Attribute) (q : List Attribute)
    (hx1 : typeOf x ≠ unix.NFTA_OBJ_TABLE) (hx2 : typeOf x ≠ unix.NFTA_OBJ_NAME)
    (hx3 : typeOf x ≠ unix.NFTA_OBJ_TYPE) (hx4 : typeOf x ≠ unix.NFTA_OBJ_DATA) :
    ∀ (p : List Attribute) (t : Option Table) (n : List Byte) (ot : Nat),
      objScan fam perr (p ++ x :: q) t n ot = objScan fam perr (p ++ q) t n ot := by
  intro p
  induction p with
  | nil =>
    intro t n ot
    rw [List.nil_append, List.nil_append, objScan_cons, if_neg hx1, if_neg hx2, if_neg hx3,
      if_neg hx4]
  | cons a p ih =>
    intro t n ot
    rw [List.cons_append, List.cons_append, objScan_cons, objScan_cons]
    by_cases h1 : typeOf a = unix.NFTA_OBJ_TABLE
    · rw [if_pos h1, if_pos h1, ih]
    · rw [if_neg h1, if_neg h1]
      by_cases h2 : typeOf a = unix.NFTA_OBJ_NAME
      · rw [if_pos h2, if_pos h2, ih]
      · rw [if_neg h2, if_neg h2]
        by_cases h3 : typeOf a = unix.NFTA_OBJ_TYPE
        · rw [if_pos h3, if_pos h3]
          by_cases h4 : a.Data.length = 4
          · rw [if_neg (by simpa using h4), if_neg (by simpa using h4), ih]
          · rw [if_pos (by simpa using h4), if_pos (by simpa using h4)]
        · rw [if_neg h3, if_neg h3]
          by_cases h5 : typeOf a = unix.NFTA_OBJ_DATA
          · rw [if_pos h5, if_pos h5]
            by_cases h6 : ot = NFT_OBJECT_COUNTER
            · rw [if_pos h6, if_pos h6]
            · rw [if_neg h6, if_neg h6, ih]
          · rw [if_neg h5, if_neg h5, ih]

/-! ## Buffers made of whole attributes -/

theorem uint16_append (c rest : List Byte) (i : Nat) (h : i + 1 < c.length) :
    nlenc.Uint16 (c ++ rest) i = nlenc.Uint16 c i := by
  simp [nlenc.Uint16, List.getD_eq_getElem?_getD, List.getElem?_append_left, h,
    Nat.lt_of_succ_lt h]

theorem unmarshal_append (c rest : List Byte) (a : Attribute)
    (h : Attribute.unmarshal c = .ok a) : Attribute.unmarshal (c ++ rest) = .ok a := by
  have h4 := unmarshal_ok_length c a h
  unfold Attribute.unmarshal at h ⊢
  simp only [nlaHeaderLen] at h ⊢
  rw [if_neg (by omega)] at h
  rw [if_neg (by simp; omega), uint16_append c rest 0 (by omega),
    uint16_append c rest 2 (by omega)]
  by_cases h1 : nlenc.Uint16 c 0 > c.length
  · rw [if_pos h1] at h
    cases h
  · rw [if_neg h1] at h
    rw [if_neg (by simp; omega)]
    by_cases h2 : nlenc.Uint16 c 0 = 0
    · rw [if_pos h2] at h
      rw [if_pos h2]
      exact h
    · rw [if_neg h2] at h
      rw [if_neg h2]
      by_cases h3 : nlenc.Uint16 c 0 < 4
      · rw [if_pos h3] at h
        cases h
      · rw [if_neg h3] at h
        rw [if_neg h3, List.take_append_of_le_length (by omega)]
        exact h

theorem attrStream_chunk (c rest : List Byte) (a : Attribute)
    (h : Attribute.unmarshal c = .ok a) (hl : c.length = advance a.Length) :
    attrStream (c ++ rest) = (a :: (attrStream rest).1, (attrStream rest).2) := by
  have h4 := unmarshal_ok_length c a h
  rw [attrStream_of_ok _ a (by rw [List.length_append]; omega) (unmarshal_append c rest a h),
    List.drop_left' hl]

theorem headersOK_chunk (c rest : List Byte) (a : Attribute)
    (h : Attribute.unmarshal c = .ok a) (hl : c.length = advance a.Length) :
    headersOK (c ++ rest) = headersOK rest := by
  have h4 := unmarshal_ok_length c a h
  have hlen := unmarshal_length c a h
  rw [headersOK_step _ (by rw [List.length_append]; omega), uint16_append c rest 0 (by omega), ← hlen,
    List.drop_left' hl]

theorem attrStream_chunks : ∀ (chunks : List (List Byte)),
    (∀ c ∈ chunks, ∃ a, Attribute.unmarshal c = .ok a ∧ c.length = advance a.Length) →
    ∃ attrs, ∀ rest, attrStream (chunks.flatten ++ rest)
        = (attrs ++ (attrStream rest).1, (attrStream rest).2) ∧
      headersOK (chunks.flatten ++ rest) = headersOK rest := by
  intro chunks
  induction chunks with
  | nil =>
    intro _
    exact ⟨[], fun rest => by simp⟩
  | cons c cs ih =>
    intro h
    obtain ⟨a, ha, hl⟩ := h c (List.mem_cons_self _ _)
    obtain ⟨attrs, hattrs⟩ := ih (fun x hx => h x (List.mem_cons_of_mem _ hx))
    refine ⟨a :: attrs, fun rest => ?_⟩
    rw [List.flatten_cons, List.append_assoc, attrStream_chunk c _ a ha hl,
      headersOK_chunk c _ a ha hl, (hattrs rest).1, (hattrs rest).2]
    exact ⟨rfl, rfl⟩

/-! ## Data shorter than the resource header -/

/-- Claim C11: what `objFromMsg` does with arbitrary data under the expected header
type: with at least four data bytes it returns a result, and `msg.Data[0]` is inside
the data; with fewer than four data bytes the slice `msg.Data[4:]` is out of range
and the function panics instead of returning an error. -/
theorem objFromMsg_short_data (msg : Message) (hh : msg.Header.Typ = objHeaderType) :
    (4 ≤ msg.Data.length → ∃ r, objFromMsg msg = .ret r) ∧
      (msg.Data.length < 4 → objFromMsg msg = .panic) := by
  refine ⟨fun h => objFromMsg_returns msg (Or.inr h), fun h => ?_⟩
  unfold objFromMsg
  rw [if_neg (by simpa using hh), if_pos h]

/-- Witness of C11: a reply with three data bytes, and one with no data at all. -/
theorem objFromMsg_short_data_witness :
    shortMsg.Header.Typ = objHeaderType ∧ shortMsg.Data.length < 4 ∧
      objFromMsg shortMsg = .panic ∧ objFromMsg ⟨{ Typ := 2578 }, []⟩ = .panic :=
  ⟨by decide, by decide, (objFromMsg_short_data shortMsg (by decide)).2 (by decide),
    (objFromMsg_short_data ⟨{ Typ := 2578 }, []⟩ (by decide)).2 (by decide)⟩

/-! ## No nil object without an error -/

theorem decode_non_nil : ∀ (reply : List Message) (acc objs : List (Option CounterObj)),
    (∀ m r, objFromMsg m = .ret (r, none) → r ≠ none) →
    (∀ x ∈ acc, x ≠ none) →
    Conn.getObj.decode reply acc = .ret (objs, none) → ∀ x ∈ objs, x ≠ none := by
  intro reply
  induction reply with
  | nil =>
    intro acc objs _ hacc h
    simp only [Conn.getObj.decode, Outcome.ret.injEq, Prod.mk.injEq, and_true] at h
    rw [← h]
    exact hacc
  | cons m rest ih =>
    intro acc objs hobj hacc h
    unfold Conn.getObj.decode at h
    split at h
    · simp at h
    · rename_i o ho
      apply ih (acc ++ [o]) objs hobj _ h
      intro x hx
      rcases List.mem_append.mp hx with hx | hx
      · exact hacc x hx
      · rw [List.mem_singleton.mp hx]
        exact hobj m o ho
    · cases h
    · cases h

/-- Claim C17: `objFromMsg` never returns a nil object together with a nil error,
and so every element of the list that a successful `getObj` returns is a non-nil
object. -/
theorem objFromMsg_never_nil_nil :
    (∀ (msg : Message) (r : Option CounterObj), objFromMsg msg = .ret (r, none) → r ≠ none) ∧
    (∀ (α : Type) [Obj α] (cc : Conn) (t : Transport) (o : α) (msgType : Nat)
        (objs : List (Option CounterObj)),
      (cc.getObj t o msgType).1 = .ret (objs, none) → ∀ x ∈ objs, x ≠ none) := by
  have h1 : ∀ (msg : Message) (r : Option CounterObj),
      objFromMsg msg = .ret (r, none) → r ≠ none := by
    intro msg r h hr
    subst hr
    by_cases hh : msg.Header.Typ = objHeaderType
    · by_cases hlen : 4 ≤ msg.Data.length
      · obtain ⟨fam, hfam⟩ := head_of_length msg.Data hlen
        rw [objFromMsg_eq msg fam hh hlen hfam] at h
        split at h
        · exact objScan_never_nil_nil _ _ _ _ _ _ h
        · simp at h
      · unfold objFromMsg at h
        rw [if_neg (by simpa using hh), if_pos (by omega)] at h
        cases h
    · simp [objFromMsg, hh] at h
  refine ⟨h1, ?_⟩
  intro α _ cc t o msgType objs h
  unfold Conn.getObj at h
  split at h
  · simp at h
  · simp only [Conn.getObj.body] at h
    split at h
    · cases h
    · cases h
    · simp at h
    · split at h
      · cases h
      · cases h
      · split at h
        · simp at h
        · split at h
          · simp at h
          · exact decode_non_nil _ [] objs h1 (by simp) h

/-- Witness of C17: the reply `ctr1Msg`, and a read that receives it twice. -/
theorem objFromMsg_never_nil_nil_witness :
    (objFromMsg ctr1Msg = .ret (some ctr1, none) ∧ some ctr1 ≠ none) ∧
    ((Conn.getObj ⟨[], none⟩ (replyTransport [ctr1Msg, ctr1Msg]) ctr1 unix.NFT_MSG_GETOBJ).1
        = .ret ([some ctr1, some ctr1], none) ∧
      ∀ x ∈ [some ctr1, some ctr1], x ≠ none) :=
  ⟨⟨by decide!, objFromMsg_never_nil_nil.1 ctr1Msg (some ctr1) (by decide!)⟩,
    ⟨by decide!, objFromMsg_never_nil_nil.2 CounterObj ⟨[], none⟩
      (replyTransport [ctr1Msg, ctr1Msg]) ctr1 unix.NFT_MSG_GETOBJ [some ctr1, some ctr1]
      (by decide!)⟩⟩

/-! ## The requests of `GetObj` and `GetObjReset`, and the connection -/

theorem body_trace {α : Type} [Obj α] (t : Transport) (o : α) (msgType : Nat) (d : List Byte)
    (fam : TableFamily) (hm : Obj.marshal o false = .ret (d, none))
    (hf : Obj.family o = .ret fam) :
    (Conn.getObj.body t o msgType).2 = [.send [Conn.getObj.message fam d msgType]] ∨
      (Conn.getObj.body t o msgType).2 =
        [.send [Conn.getObj.message fam d msgType], .receive] := by
  simp only [Conn.getObj.body, hm, hf]
  split
  · left; rfl
  · split
    · right; rfl
    · right; rfl

theorem body_trace_cases {α : Type} [Obj α] (t : Transport) (o : α) (msgType : Nat) :
    (Conn.getObj.body t o msgType).2 = [] ∨
      ∃ m, (Conn.getObj.body t o msgType).2 = [.send [m]] ∨
        (Conn.getObj.body t o msgType).2 = [.send [m], .receive] := by
  simp only [Conn.getObj.body]
  split
  · left; rfl
  · left; rfl
  · left; rfl
  · split
    · left; rfl
    · left; rfl
    · right
      split
      · exact ⟨_, Or.inl rfl⟩
      · split
        · exact ⟨_, Or.inr rfl⟩
        · exact ⟨_, Or.inr rfl⟩

theorem getObj_trace {α : Type} [Obj α] (cc : Conn) (t : Transport) (o : α) (msgType : Nat)
    (hdial : t.dialNetlink = none) :
    (cc.getObj t o msgType).2 = [.dial] ++ (Conn.getObj.body t o msgType).2 ++ [.close] := by
  simp only [Conn.getObj, hdial]

/-- Claim C14: when the connection is opened and `marshal(false)` succeeds with
bytes `d`, `GetObj` and `GetObjReset` each send exactly one message, with the flags
Request|Acknowledge|Dump and the data made of the 4-byte resource header that starts
with the family byte, followed by `d`; the two requests differ only in the header
type, NFT_MSG_GETOBJ against NFT_MSG_GETOBJ_RESET under the nftables subsystem.
Nothing is assumed about `marshal(true)`. -/
theorem GetObj_request {α : Type} [Obj α] (cc : Conn) (t : Transport) (o : α) (d : List Byte)
    (fam : TableFamily) (hdial : t.dialNetlink = none)
    (hm : Obj.marshal o false = .ret (d, none)) (hf : Obj.family o = .ret fam) :
    ∃ m1 m2, (cc.GetObj t o).2.filter Event.isSend = [.send [m1]] ∧
      (cc.GetObjReset t o).2.filter Event.isSend = [.send [m2]] ∧
      m1.Header.Typ = (unix.NFNL_SUBSYS_NFTABLES <<< 8) ||| unix.NFT_MSG_GETOBJ ∧
      m2.Header.Typ = (unix.NFNL_SUBSYS_NFTABLES <<< 8) ||| unix.NFT_MSG_GETOBJ_RESET ∧
      m1.Header.Flags = Request ||| Acknowledge ||| Dump ∧
      m1.Data = [fam, 0, 0, 0] ++ d ∧
      m2 = { m1 with Header := { m1.Header with Typ := m2.Header.Typ } } := by
  have ht1 : HeaderType ((unix.NFNL_SUBSYS_NFTABLES <<< 8) ||| unix.NFT_MSG_GETOBJ) =
      (unix.NFNL_SUBSYS_NFTABLES <<< 8) ||| unix.NFT_MSG_GETOBJ := by decide
  have ht2 : HeaderType ((unix.NFNL_SUBSYS_NFTABLES <<< 8) ||| unix.NFT_MSG_GETOBJ_RESET) =
      (unix.NFNL_SUBSYS_NFTABLES <<< 8) ||| unix.NFT_MSG_GETOBJ_RESET := by decide
  refine ⟨Conn.getObj.message fam d unix.NFT_MSG_GETOBJ,
    Conn.getObj.message fam d unix.NFT_MSG_GETOBJ_RESET, ?_, ?_, ht1, ht2, rfl, ?_, rfl⟩
  · unfold Conn.GetObj
    rw [getObj_trace cc t o _ hdial]
    rcases body_trace t o unix.NFT_MSG_GETOBJ d fam hm hf with h | h <;> rw [h] <;> rfl
  · unfold Conn.GetObjReset
    rw [getObj_trace cc t o _ hdial]
    rcases body_trace t o unix.NFT_MSG_GETOBJ_RESET d fam hm hf with h | h <;> rw [h] <;> rfl
  · simp [Conn.getObj.message, extraHeader_eq]

/-- Witness of C14: the two reads of `ctr1` over a transport that delivers one
reply. -/
theorem GetObj_request_witness :
    ((replyTransport [ctr1Msg]).dialNetlink = none ∧
      Obj.marshal ctr1 false = .ret (ctr1Identity, none) ∧
      Obj.family ctr1 = .ret TableFamilyIPv4) ∧
    ∃ m1 m2, (Conn.GetObj ⟨[], none⟩ (replyTransport [ctr1Msg]) ctr1).2.filter Event.isSend
        = [.send [m1]] ∧
      (Conn.GetObjReset ⟨[], none⟩ (replyTransport [ctr1Msg]) ctr1).2.filter Event.isSend
        = [.send [m2]] ∧
      m1.Header.Typ = (unix.NFNL_SUBSYS_NFTABLES <<< 8) ||| unix.NFT_MSG_GETOBJ ∧
      m2.Header.Typ = (unix.NFNL_SUBSYS_NFTABLES <<< 8) ||| unix.NFT_MSG_GETOBJ_RESET ∧
      m1.Header.Flags = Request ||| Acknowledge ||| Dump ∧
      m1.Data = [TableFamilyIPv4, 0, 0, 0] ++ ctr1Identity ∧
      m2 = { m1 with Header := { m1.Header with Typ := m2.Header.Typ } } :=
  ⟨⟨rfl, by decide!, by decide⟩,
    GetObj_request ⟨[], none⟩ (replyTransport [ctr1Msg]) ctr1 ctr1Identity TableFamilyIPv4 rfl
      (by decide!) (by decide)⟩

/-- Claim C16: when dialling succeeds, `getObj` dials first and closes the
connection exactly once, as its last action, on every way out; when dialling fails,
nothing is sent, received or closed; when `marshal(false)` fails nothing is sent or
received, and when `SendMessages` fails `Receive` is not called. -/
theorem getObj_releases {α : Type} [Obj α] (cc : Conn) (t : Transport) (o : α) (msgType : Nat) :
    (t.dialNetlink = none →
      (cc.getObj t o msgType).2.count .close = 1 ∧
      (cc.getObj t o msgType).2.getLast? = some .close ∧
      (cc.getObj t o msgType).2.head? = some .dial) ∧
    (∀ e, t.dialNetlink = some e → (cc.getObj t o msgType).2 = [.dial]) ∧
    (∀ d e, t.dialNetlink = none → Obj.marshal o false = .ret (d, some e) →
      (cc.getObj t o msgType).2 = [.dial, .close]) ∧
    (∀ d fam e, t.dialNetlink = none → Obj.marshal o false = .ret (d, none) →
      Obj.family o = .ret fam →
      t.SendMessages [Conn.getObj.message fam d msgType] = some e →
      (cc.getObj t o msgType).2 = [.dial, .send [Conn.getObj.message fam d msgType], .close]) := by
  refine ⟨?_, ?_, ?_, ?_⟩
  · intro hdial
    rw [getObj_trace cc t o msgType hdial]
    rcases body_trace_cases t o msgType with h | ⟨m, h | h⟩ <;> rw [h] <;>
      exact ⟨by simp, rfl, rfl⟩
  · intro e he
    simp only [Conn.getObj, he]
  · intro d e hdial hm
    rw [getObj_trace cc t o msgType hdial]
    simp only [Conn.getObj.body, hm]
    rfl
  · intro d fam e hdial hm hf hs
    rw [getObj_trace cc t o msgType hdial]
    simp only [Conn.getObj.body, hm, hf, hs]
    rfl

theorem marshal_identity_long_name (t : Table) (name : List Byte) (B P : Nat)
    (ht : t.Name.length ≤ 65530) (h : name.length = 65531) :
    CounterObj.marshal ⟨some t, name, B, P⟩ false = .ret ([], some .invalidAttribute) := by
  have hlen : (name ++ [0]).length = 65532 := by
    rw [List.length_append, h]
    rfl
  have hpay : ∃ ob, MarshalAttributes
      [{ Typ := unix.NFTA_COUNTER_BYTES, Data := binaryutil.PutUint64 B },
       { Typ := unix.NFTA_COUNTER_PACKETS, Data := binaryutil.PutUint64 P }] = .ok ob := by
    rw [MarshalAttributes_cons_ok _ _ rfl (by simp [binaryutil.PutUint64, beBytes_length]),
      MarshalAttributes_cons_ok _ _ rfl (by simp [binaryutil.PutUint64, beBytes_length])]
    exact ⟨_, rfl⟩
  obtain ⟨ob, hob⟩ := hpay
  simp only [CounterObj.marshal, hob, Bool.false_eq_true, if_false]
  rw [MarshalAttributes_cons_ok _ _ rfl (by simp; omega),
    MarshalAttributes_cons_zero _ _ rfl (by simp only [hlen])]

/-- Witness of C16: a read of `ctr1` whose `Receive` fails closes the connection
once; a read on which dialling fails only dials; a read of `longNamed`, whose
marshalling fails, dials and closes; a read of `ctr1` whose `SendMessages` fails
dials, sends and closes. -/
theorem getObj_releases_witness :
    (noReceiveTransport.dialNetlink = none ∧
      (Conn.getObj ⟨[], none⟩ noReceiveTransport ctr1 unix.NFT_MSG_GETOBJ).2.count .close = 1 ∧
      (Conn.getObj ⟨[], none⟩ noReceiveTransport ctr1 unix.NFT_MSG_GETOBJ).2.getLast?
        = some .close ∧
      (Conn.getObj ⟨[], none⟩ noReceiveTransport ctr1 unix.NFT_MSG_GETOBJ).2.head?
        = some .dial) ∧
    (noDialTransport.dialNetlink = some (.external 1) ∧
      (Conn.getObj ⟨[], none⟩ noDialTransport ctr1 unix.NFT_MSG_GETOBJ).2 = [.dial]) ∧
    (noSendTransport.dialNetlink = none ∧
      Obj.marshal longNamed false = .ret ([], some .invalidAttribute) ∧
      (Conn.getObj ⟨[], none⟩ noSendTransport longNamed unix.NFT_MSG_GETOBJ).2
        = [.dial, .close]) ∧
    (noSendTransport.dialNetlink = none ∧
      Obj.marshal ctr1 false = .ret (ctr1Identity, none) ∧
      Obj.family ctr1 = .ret TableFamilyIPv4 ∧
      noSendTransport.SendMessages
        [Conn.getObj.message TableFamilyIPv4 ctr1Identity unix.NFT_MSG_GETOBJ]
          = some (.external 2) ∧
      (Conn.getObj ⟨[], none⟩ noSendTransport ctr1 unix.NFT_MSG_GETOBJ).2 =
        [.dial, .send [Conn.getObj.message TableFamilyIPv4 ctr1Identity unix.NFT_MSG_GETOBJ],
          .close]) :=
  ⟨⟨rfl, (getObj_releases ⟨[], none⟩ noReceiveTransport ctr1 unix.NFT_MSG_GETOBJ).1 rfl⟩,
    ⟨rfl, (getObj_releases ⟨[], none⟩ noDialTransport ctr1 unix.NFT_MSG_GETOBJ).2.1
      (.external 1) rfl⟩,
    ⟨rfl, marshal_identity_long_name ⟨strFilter, TableFamilyIPv4⟩ (List.replicate 65531 97) 0 0
        (by decide) (List.length_replicate _ _),
      (getObj_releases ⟨[], none⟩ noSendTransport longNamed unix.NFT_MSG_GETOBJ).2.2.1
        [] .invalidAttribute rfl
        (marshal_identity_long_name ⟨strFilter, TableFamilyIPv4⟩ (List.replicate 65531 97) 0 0
          (by decide) (List.length_replicate _ _))⟩,
    ⟨rfl, by decide!, by decide, rfl,
      (getObj_releases ⟨[], none⟩ noSendTransport ctr1 unix.NFT_MSG_GETOBJ).2.2.2
        ctr1Identity TableFamilyIPv4 (.external 2) rfl (by decide!) (by decide) rfl⟩⟩

/-! ## Unknown attributes -/

/-- Claim C13: inserting a whole attribute whose type code is none of table, name,
type and data between two attributes of the stream (after the attributes `chunks`,
before the bytes `B2`, which may be anything) does not change the result of
`objFromMsg`. -/
theorem objFromMsg_unknown_attribute (h : Header) (hdr : List Byte)
    (chunks : List (List Byte)) (X B2 : List Byte) (x : Attribute)
    (h4 : hdr.length = 4)
    (hc : ∀ c ∈ chunks, ∃ a, Attribute.unmarshal c = .ok a ∧ c.length = advance a.Length)
    (hx : Attribute.unmarshal X = .ok x) (hxl : X.length = advance x.Length)
    (hx1 : typeOf x ≠ unix.NFTA_OBJ_TABLE) (hx2 : typeOf x ≠ unix.NFTA_OBJ_NAME)
    (hx3 : typeOf x ≠ unix.NFTA_OBJ_TYPE) (hx4 : typeOf x ≠ unix.NFTA_OBJ_DATA) :
    objFromMsg ⟨h, hdr ++ chunks.flatten ++ X ++ B2⟩ =
      objFromMsg ⟨h, hdr ++ chunks.flatten ++ B2⟩ := by
  by_cases hh : h.Typ = objHeaderType
  · obtain ⟨fam, hfam⟩ := head_of_length hdr (by omega)
    obtain ⟨attrs, hattrs⟩ := attrStream_chunks chunks hc
    have hd1 : (hdr ++ chunks.flatten ++ X ++ B2).drop 4 = chunks.flatten ++ (X ++ B2) := by
      rw [List.append_assoc, List.append_assoc, List.drop_left' h4]
    have hd2 : (hdr ++ chunks.flatten ++ B2).drop 4 = chunks.flatten ++ B2 := by
      rw [List.append_assoc, List.drop_left' h4]
    have hf1 : (hdr ++ chunks.flatten ++ X ++ B2)[0]? = some fam := by
      rw [List.append_assoc, List.append_assoc, List.getElem?_append_left (by omega)]
      exact hfam
    have hf2 : (hdr ++ chunks.flatten ++ B2)[0]? = some fam := by
      rw [List.append_assoc, List.getElem?_append_left (by omega)]
      exact hfam
    rw [objFromMsg_eq ⟨h, hdr ++ chunks.flatten ++ X ++ B2⟩ fam hh
        (by simp only [List.length_append]; omega) hf1,
      objFromMsg_eq ⟨h, hdr ++ chunks.flatten ++ B2⟩ fam hh
        (by simp only [List.length_append]; omega) hf2]
    simp only [hd1, hd2]
    rw [(hattrs (X ++ B2)).1, (hattrs (X ++ B2)).2, (hattrs B2).1, (hattrs B2).2,
      attrStream_chunk X B2 x hx hxl, headersOK_chunk X B2 x hx hxl]
    simp only []
    rw [objScan_insert fam _ x _ hx1 hx2 hx3 hx4]
  · simp [objFromMsg, hh]

/-- Witness of C13: an attribute of type 5 inserted into `ctr1Msg` between the name
and the type code; both replies decode to `ctr1`. -/
theorem objFromMsg_unknown_attribute_witness :
    (([2, 0, 0, 0] : List Byte).length = 4 ∧
      (Attribute.unmarshal tableChunk = .ok ctr1TableAttr ∧
        tableChunk.length = advance ctr1TableAttr.Length) ∧
      (Attribute.unmarshal nameChunk = .ok ctr1NameAttr ∧
        nameChunk.length = advance ctr1NameAttr.Length) ∧
      Attribute.unmarshal useChunk = .ok useAttr ∧ useChunk.length = advance useAttr.Length ∧
      typeOf useAttr ≠ unix.NFTA_OBJ_TABLE ∧ typeOf useAttr ≠ unix.NFTA_OBJ_NAME ∧
      typeOf useAttr ≠ unix.NFTA_OBJ_TYPE ∧ typeOf useAttr ≠ unix.NFTA_OBJ_DATA) ∧
    objFromMsg ⟨{ Typ := 2578 }, [2, 0, 0, 0] ++ [tableChunk, nameChunk].flatten ++ useChunk
        ++ (typeChunk ++ payloadChunk)⟩ =
      objFromMsg ⟨{ Typ := 2578 }, [2, 0, 0, 0] ++ [tableChunk, nameChunk].flatten
        ++ (typeChunk ++ payloadChunk)⟩ ∧
    objFromMsg ⟨{ Typ := 2578 }, [2, 0, 0, 0] ++ [tableChunk, nameChunk].flatten
        ++ (typeChunk ++ payloadChunk)⟩ = .ret (some ctr1, none) :=
  ⟨⟨rfl, ⟨rfl, by decide⟩, ⟨rfl, by decide⟩, rfl, by decide, by decide,
      by decide, by decide, by decide⟩,
    objFromMsg_unknown_attribute { Typ := 2578 } [2, 0, 0, 0] [tableChunk, nameChunk] useChunk
      (typeChunk ++ payloadChunk) useAttr rfl
      (by
        intro c hc
        simp only [List.mem_cons, List.mem_singleton, List.not_mem_nil, or_false] at hc
        rcases hc with rfl | rfl
        · exact ⟨ctr1TableAttr, rfl, by decide⟩
        · exact ⟨ctr1NameAttr, rfl, by decide⟩)
      rfl (by decide) (by decide) (by decide) (by decide) (by decide),
    by decide!⟩

/-! ## The payload must follow the type code -/

theorem objScan_error_of_no_object (fam : Byte) (perr : Option Error) (attrs : List Attribute)
    (t : Option Table) (n : List Byte) (ot : Nat)
    (h : ¬ ∃ o e, objScan fam perr attrs t n ot = .ret (some o, e)) :
    ∃ e, objScan fam perr attrs t n ot = .ret (none, some e) := by
  obtain ⟨r, hr⟩ := objScan_returns fam perr attrs t n ot
  obtain ⟨o, e⟩ := r
  cases o with
  | some o => exact absurd ⟨o, e, hr⟩ h
  | none =>
    cases e with
    | some e => exact ⟨e, hr⟩
    | none => exact absurd hr (objScan_never_nil_nil fam perr attrs t n ot)

theorem getD_zero_eq_counter (x : Option Nat) :
    x.getD 0 = NFT_OBJECT_COUNTER ↔ x = some NFT_OBJECT_COUNTER := by
  cases x with
  | none => simp [NFT_OBJECT_COUNTER]
  | some v => simp

theorem lastType_of_no_type (pre : List Attribute)
    (h : ∀ a ∈ pre, typeOf a ≠ unix.NFTA_OBJ_TYPE) : lastType pre = none := by
  have : pre.filter (fun a => typeOf a = unix.NFTA_OBJ_TYPE) = [] := by
    rw [List.filter_eq_nil_iff]
    intro a ha
    simpa using h a ha
  simp [lastType, this]

theorem decomposition_of_index (attrs : List Attribute) (Q : List Attribute → Attribute → Prop)
    (h : ∀ i (hi : i < attrs.length), Q (attrs.take i) (attrs.get ⟨i, hi⟩)) :
    ∀ pre d post, attrs = pre ++ d :: post → Q pre d := by
  intro pre d post he
  subst he
  have h1 := h pre.length (by simp)
  have h2 : (pre ++ d :: post).get ⟨pre.length, by simp⟩ = d := by
    simp [List.getElem_append_right]
  rw [h2, List.take_left] at h1
  exact h1

/-- Claim C15: in a reply with the expected header type whose attribute stream is
well formed (it decodes without error and every type-code attribute carries four
bytes), `objFromMsg` returns an object if and only if some payload attribute stands
where the last type-code attribute before it is counter; the object is built at the
first such payload attribute `d` from the last table and name attributes before it,
whatever follows `d`; and a stream whose only payload attribute stands before every
type-code attribute fails with an error. -/
theorem objFromMsg_payload_after_type (msg : Message) (fam : Byte) (attrs : List Attribute)
    (hh : msg.Header.Typ = objHeaderType) (hlen : 4 ≤ msg.Data.length)
    (hfam : msg.Data[0]? = some fam)
    (hs : attrStream (msg.Data.drop 4) = (attrs, none))
    (hty : ∀ a ∈ attrs, typeOf a = unix.NFTA_OBJ_TYPE → a.Data.length = 4) :
    ((∃ o e, objFromMsg msg = .ret (some o, e)) ↔
      ∃ pre d post, attrs = pre ++ d :: post ∧ typeOf d = unix.NFTA_OBJ_DATA ∧
        lastType pre = some NFT_OBJECT_COUNTER) ∧
    (∀ pre d post, attrs = pre ++ d :: post → typeOf d = unix.NFTA_OBJ_DATA →
      lastType pre = some NFT_OBJECT_COUNTER →
      (∀ p d1 q, pre = p ++ d1 :: q → typeOf d1 = unix.NFTA_OBJ_DATA →
        lastType p ≠ some NFT_OBJECT_COUNTER) →
      objFromMsg msg =
        match objFromMsg.nested d.Data ⟨lastTable fam pre, (lastName pre).getD [], 0, 0⟩ with
        | .ret (o, e) => .ret (some o, e)
        | .panic => .panic
        | .outOfFuel => .outOfFuel) ∧
    (∀ pre d post, attrs = pre ++ d :: post → typeOf d = unix.NFTA_OBJ_DATA →
      (∀ a ∈ pre, typeOf a ≠ unix.NFTA_OBJ_TYPE) →
      (∀ a ∈ pre ++ post, typeOf a ≠ unix.NFTA_OBJ_DATA) →
      ∃ e, objFromMsg msg = .ret (none, some e)) := by
  have hobj : objFromMsg msg = objScan fam none attrs none [] 0 := by
    rw [objFromMsg_of_stream msg fam hh hlen hfam (by rw [hs]), hs]
  rw [hobj]
  refine ⟨?_, ?_, ?_⟩
  · rw [objScan_object_iff]
    constructor
    · rintro ⟨pre, d, post, he, hd, hl, _⟩
      exact ⟨pre, d, post, he, hd, (getD_zero_eq_counter _).mp hl⟩
    · rintro ⟨pre, d, post, he, hd, hl⟩
      refine ⟨pre, d, post, he, hd, (getD_zero_eq_counter _).mpr hl, ?_⟩
      intro a ha
      exact hty a (by rw [he]; exact List.mem_append_left _ ha)
  · intro pre d post he hd hl hfirst
    rw [he, objScan_append_skipping fam none (d :: post) pre none [] 0
        (fun a ha => hty a (by rw [he]; exact List.mem_append_left _ ha))
        (fun p d1 q hp hd1 hc => hfirst p d1 q hp hd1 ((getD_zero_eq_counter _).mp hc)),
      objScan_dispatch fam none d post _ _ _ hd (by rw [hl]; rfl)]
    simp only [Option.or_none]
  · intro pre d post he hd hnt hnd
    have hpre : lastType pre = none := lastType_of_no_type pre hnt
    have h6 : (lastType pre).getD 0 ≠ NFT_OBJECT_COUNTER := by rw [hpre]; decide
    have h1 : typeOf d ≠ unix.NFTA_OBJ_TABLE := by rw [hd]; decide
    have h2 : typeOf d ≠ unix.NFTA_OBJ_NAME := by rw [hd]; decide
    have h3 : typeOf d ≠ unix.NFTA_OBJ_TYPE := by rw [hd]; decide
    rw [he, objScan_append fam none (d :: post) pre none [] 0
        (fun a ha => hnd a (List.mem_append_left _ ha))
        (fun a ha h => absurd h (hnt a ha)),
      objScan_cons, if_neg h1, if_neg h2, if_neg h3, if_pos hd, if_neg h6]
    apply objScan_error_of_no_object
    rw [objScan_object_iff]
    rintro ⟨p, d1, q, hp, hd1, _⟩
    exact hnd d1 (List.mem_append_right _ (by rw [hp]; simp)) hd1

/-- Witness of C15: `permMsg`, whose payload follows the counter type code, and
`earlyPayloadMsg`, whose payload precedes its only type code. -/
theorem objFromMsg_payload_after_type_witness :
    ((permMsg.Header.Typ = objHeaderType ∧ 4 ≤ permMsg.Data.length ∧
        permMsg.Data[0]? = some TableFamilyIPv4 ∧
        attrStream (permMsg.Data.drop 4)
          = ([ctr1TypeAttr, ctr1NameAttr, ctr1TableAttr] ++ ctr1Payload :: [], none) ∧
        (∀ a ∈ [ctr1TypeAttr, ctr1NameAttr, ctr1TableAttr] ++ ctr1Payload :: [],
          typeOf a = unix.NFTA_OBJ_TYPE → a.Data.length = 4) ∧
        typeOf ctr1Payload = unix.NFTA_OBJ_DATA ∧
        lastType [ctr1TypeAttr, ctr1NameAttr, ctr1TableAttr] = some NFT_OBJECT_COUNTER) ∧
      ∃ o e, objFromMsg permMsg = .ret (some o, e)) ∧
    ((earlyPayloadMsg.Header.Typ = objHeaderType ∧ 4 ≤ earlyPayloadMsg.Data.length ∧
        earlyPayloadMsg.Data[0]? = some TableFamilyIPv4 ∧
        attrStream (earlyPayloadMsg.Data.drop 4) = ([] ++ ctr1Payload :: [ctr1TypeAttr], none) ∧
        (∀ a ∈ [] ++ ctr1Payload :: [ctr1TypeAttr],
          typeOf a = unix.NFTA_OBJ_TYPE → a.Data.length = 4) ∧
        typeOf ctr1Payload = unix.NFTA_OBJ_DATA ∧
        (∀ a ∈ ([] : List Attribute), typeOf a ≠ unix.NFTA_OBJ_TYPE) ∧
        (∀ a ∈ [] ++ [ctr1TypeAttr], typeOf a ≠ unix.NFTA_OBJ_DATA)) ∧
      ∃ e, objFromMsg earlyPayloadMsg = .ret (none, some e)) :=
  ⟨⟨⟨by decide, by decide, by decide, by decide!, by decide, by decide, by decide⟩,
      (objFromMsg_payload_after_type permMsg TableFamilyIPv4
        ([ctr1TypeAttr, ctr1NameAttr, ctr1TableAttr] ++ ctr1Payload :: [])
        (by decide) (by decide) (by decide) (by decide!) (by decide)).1.mpr
        ⟨[ctr1TypeAttr, ctr1NameAttr, ctr1TableAttr], ctr1Payload, [], rfl, by decide,
          by decide⟩⟩,
    ⟨⟨by decide, by decide, by decide, by decide!, by decide, by decide, by decide, by decide⟩,
      (objFromMsg_payload_after_type earlyPayloadMsg TableFamilyIPv4
        ([] ++ ctr1Payload :: [ctr1TypeAttr])
        (by decide) (by decide) (by decide) (by decide!) (by decide)).2.2
        [] ctr1Payload [ctr1TypeAttr] rfl (by decide) (by decide) (by decide)⟩⟩

/-! ## Truncated replies -/

theorem counterDecode_error (b : List Byte) (c : CounterObj) (e : Error)
    (h : (attrStream b).2 = some e) : ∃ e1, (counterDecode b c).2 = some e1 := by
  unfold counterDecode
  rw [h]
  dsimp only
  generalize counterScan (attrStream b).1 c false false = r
  obtain ⟨c1, b1, b2, oe⟩ := r
  cases oe with
  | some e2 => exact ⟨e2, rfl⟩
  | none => exact ⟨e, rfl⟩

theorem nested_error (b : List Byte) (o : CounterObj) (e : Error)
    (h : (attrStream b).2 = some e) :
    ∃ o1 e1, objFromMsg.nested b o = .ret (o1, some e1) := by
  rcases nested_cases b o with hn | hn
  · obtain ⟨e1, he1⟩ := counterDecode_error b o e h
    refine ⟨(counterDecode b o).1, e1, ?_⟩
    rw [hn, ← he1]
  · exact ⟨o, .invalidAttribute, hn⟩

/-- Counterexample to C12 as stated: `trailingTruncMsg` has the expected header
type, its attribute stream ends in an attribute whose declared length exceeds the
bytes remaining, and `objFromMsg` returns the counter `ctr1` with a nil error. -/
theorem objFromMsg_truncated_counterexample :
    trailingTruncMsg.Header.Typ = objHeaderType ∧ 4 ≤ trailingTruncMsg.Data.length ∧
    (attrStream (trailingTruncMsg.Data.drop 4)).2 = some .invalidAttribute ∧
    Attribute.unmarshal ((trailingTruncMsg.Data.drop 4).drop 60) = .error .invalidAttribute ∧
    objFromMsg trailingTruncMsg = .ret (some ctr1, none) := by
  refine ⟨by decide, by decide, by decide!, rfl, by decide!⟩

/-- Claim C12, amended: in a reply with the expected header type and at least 4
data bytes, (1) when the attribute stream breaks off with an error and no payload
attribute before the break stands after a counter type code, `objFromMsg` returns
no object and a non-nil error; (2) when the first payload attribute standing after
a counter type code carries a nested stream that breaks off with an error,
`objFromMsg` returns a non-nil error; (3) when the header scan of the decoder
rejects the buffer (fewer bytes than a header remain at the start of an attribute),
`objFromMsg` returns no object and the invalid-attribute error, wherever the short
attribute stands; (4) when the header scan accepts the buffer, the result is the
decode of the first payload attribute standing after a counter type code, whatever
follows it: a break of the stream behind that attribute is never read. -/
theorem objFromMsg_truncated (msg : Message)
    (hh : msg.Header.Typ = objHeaderType) (hlen : 4 ≤ msg.Data.length) :
    (∀ attrs e, attrStream (msg.Data.drop 4) = (attrs, some e) →
      (∀ pre d post, attrs = pre ++ d :: post → typeOf d = unix.NFTA_OBJ_DATA →
        lastType pre ≠ some NFT_OBJECT_COUNTER) →
      ∃ e1, objFromMsg msg = .ret (none, some e1)) ∧
    (∀ pre d post perr e, attrStream (msg.Data.drop 4) = (pre ++ d :: post, perr) →
      typeOf d = unix.NFTA_OBJ_DATA → lastType pre = some NFT_OBJECT_COUNTER →
      (∀ a ∈ pre, typeOf a = unix.NFTA_OBJ_TYPE → a.Data.length = 4) →
      (∀ p d1 q, pre = p ++ d1 :: q → typeOf d1 = unix.NFTA_OBJ_DATA →
        lastType p ≠ some NFT_OBJECT_COUNTER) →
      (attrStream d.Data).2 = some e →
      ∃ o e1, objFromMsg msg = .ret (o, some e1)) ∧
    (headersOK (msg.Data.drop 4) = false →
      objFromMsg msg = .ret (none, some .invalidAttribute)) ∧
    (headersOK (msg.Data.drop 4) = true →
      ∀ fam pre d post perr, msg.Data[0]? = some fam →
      attrStream (msg.Data.drop 4) = (pre ++ d :: post, perr) →
      typeOf d = unix.NFTA_OBJ_DATA → lastType pre = some NFT_OBJECT_COUNTER →
      (∀ a ∈ pre, typeOf a = unix.NFTA_OBJ_TYPE → a.Data.length = 4) →
      (∀ p d1 q, pre = p ++ d1 :: q → typeOf d1 = unix.NFTA_OBJ_DATA →
        lastType p ≠ some NFT_OBJECT_COUNTER) →
      objFromMsg msg =
        match objFromMsg.nested d.Data ⟨lastTable fam pre, (lastName pre).getD [], 0, 0⟩ with
        | .ret (o, e) => .ret (some o, e)
        | .panic => .panic
        | .outOfFuel => .outOfFuel) := by
  obtain ⟨fam, hfam⟩ : ∃ fam, msg.Data[0]? = some fam :=
    ⟨msg.Data[0], List.getElem?_eq_getElem (by omega)⟩
  rw [objFromMsg_eq msg fam hh hlen hfam]
  refine ⟨?_, ?_, ?_, ?_⟩
  · intro attrs e hs hno
    by_cases hk : headersOK (msg.Data.drop 4) = true
    · rw [if_pos hk, hs]
      apply objScan_error_of_no_object
      rw [objScan_object_iff]
      rintro ⟨pre, d, post, he, hd, hl, _⟩
      exact hno pre d post he hd ((getD_zero_eq_counter _).mp hl)
    · rw [if_neg hk]
      exact ⟨_, rfl⟩
  · intro pre d post perr e hs hd hl hty hfirst hn
    by_cases hk : headersOK (msg.Data.drop 4) = true
    · rw [if_pos hk, hs]
      obtain ⟨o1, e1, h1⟩ := nested_error d.Data
        ⟨lastTable fam pre, (lastName pre).getD [], 0, 0⟩ e hn
      refine ⟨some o1, e1, ?_⟩
      show objScan fam perr (pre ++ d :: post) none [] 0 = _
      rw [objScan_append_skipping fam perr (d :: post) pre none [] 0 hty
          (fun p d1 q hp hd1 hc => hfirst p d1 q hp hd1 ((getD_zero_eq_counter _).mp hc)),
        objScan_dispatch fam perr d post _ _ _ hd (by rw [hl]; rfl)]
      simp only [Option.or_none]
      rw [h1]
    · rw [if_neg hk]
      exact ⟨_, _, rfl⟩
  · intro hk
    rw [if_neg (by rw [hk]; exact Bool.false_ne_true)]
  · intro hk fam1 pre d post perr hfam1 hs hd hl hty hfirst
    have hf : fam1 = fam := Option.some.inj (hfam1.symm.trans hfam)
    subst hf
    rw [if_pos hk, hs]
    show objScan fam1 perr (pre ++ d :: post) none [] 0 = _
    rw [objScan_append_skipping fam1 perr (d :: post) pre none [] 0 hty
        (fun p d1 q hp hd1 hc => hfirst p d1 q hp hd1 ((getD_zero_eq_counter _).mp hc)),
      objScan_dispatch fam1 perr d post _ _ _ hd (by rw [hl]; rfl)]
    simp only [Option.or_none]

/-- Witness of C12: `earlyTruncMsg`, cut inside its name attribute; `nestedTruncMsg`,
cut inside the nested payload stream; `shortTailMsg`, cut behind the payload with
three bytes left; and `trailingTruncMsg`, cut behind the payload with a whole header
left, which decodes like the uncut `ctr1Msg`. -/
theorem objFromMsg_truncated_witness :
    ((earlyTruncMsg.Header.Typ = objHeaderType ∧ 4 ≤ earlyTruncMsg.Data.length ∧
        attrStream (earlyTruncMsg.Data.drop 4) = ([ctr1TableAttr], some .invalidAttribute) ∧
        (∀ pre d post, [ctr1TableAttr] = pre ++ d :: post → typeOf d = unix.NFTA_OBJ_DATA →
          lastType pre ≠ some NFT_OBJECT_COUNTER)) ∧
      ∃ e1, objFromMsg earlyTruncMsg = .ret (none, some e1)) ∧
    ((nestedTruncMsg.Header.Typ = objHeaderType ∧ 4 ≤ nestedTruncMsg.Data.length ∧
        attrStream (nestedTruncMsg.Data.drop 4)
          = ([ctr1TableAttr, ctr1NameAttr, ctr1TypeAttr] ++ truncPayload :: [], none) ∧
        typeOf truncPayload = unix.NFTA_OBJ_DATA ∧
        lastType [ctr1TableAttr, ctr1NameAttr, ctr1TypeAttr] = some NFT_OBJECT_COUNTER ∧
        (∀ a ∈ [ctr1TableAttr, ctr1NameAttr, ctr1TypeAttr],
          typeOf a = unix.NFTA_OBJ_TYPE → a.Data.length = 4) ∧
        (∀ p d1 q, [ctr1TableAttr, ctr1NameAttr, ctr1TypeAttr] = p ++ d1 :: q →
          typeOf d1 = unix.NFTA_OBJ_DATA → lastType p ≠ some NFT_OBJECT_COUNTER) ∧
        (attrStream truncPayload.Data).2 = some .invalidAttribute) ∧
      ∃ o e1, objFromMsg nestedTruncMsg = .ret (o, some e1)) ∧
    ((shortTailMsg.Header.Typ = objHeaderType ∧ 4 ≤ shortTailMsg.Data.length ∧
        headersOK (shortTailMsg.Data.drop 4) = false) ∧
      objFromMsg shortTailMsg = .ret (none, some .invalidAttribute)) ∧
    ((trailingTruncMsg.Header.Typ = objHeaderType ∧ 4 ≤ trailingTruncMsg.Data.length ∧
        headersOK (trailingTruncMsg.Data.drop 4) = true ∧
        trailingTruncMsg.Data[0]? = some TableFamilyIPv4 ∧
        attrStream (trailingTruncMsg.Data.drop 4)
          = ([ctr1TableAttr, ctr1NameAttr, ctr1TypeAttr] ++ ctr1Payload :: [],
              some .invalidAttribute) ∧
        ctr1Msg.Header.Typ = objHeaderType ∧ 4 ≤ ctr1Msg.Data.length ∧
        headersOK (ctr1Msg.Data.drop 4) = true ∧
        ctr1Msg.Data[0]? = some TableFamilyIPv4 ∧
        attrStream (ctr1Msg.Data.drop 4)
          = ([ctr1TableAttr, ctr1NameAttr, ctr1TypeAttr] ++ ctr1Payload :: [], none) ∧
        typeOf ctr1Payload = unix.NFTA_OBJ_DATA) ∧
      objFromMsg trailingTruncMsg = objFromMsg ctr1Msg) :=
  have h1 : ∀ pre d post, [ctr1TableAttr] = pre ++ d :: post →
      typeOf d = unix.NFTA_OBJ_DATA → lastType pre ≠ some NFT_OBJECT_COUNTER :=
    decomposition_of_index [ctr1TableAttr]
      (fun pre d => typeOf d = unix.NFTA_OBJ_DATA → lastType pre ≠ some NFT_OBJECT_COUNTER)
      (by decide)
  have h2 : ∀ p d1 q, [ctr1TableAttr, ctr1NameAttr, ctr1TypeAttr] = p ++ d1 :: q →
      typeOf d1 = unix.NFTA_OBJ_DATA → lastType p ≠ some NFT_OBJECT_COUNTER :=
    decomposition_of_index [ctr1TableAttr, ctr1NameAttr, ctr1TypeAttr]
      (fun pre d => typeOf d = unix.NFTA_OBJ_DATA → lastType pre ≠ some NFT_OBJECT_COUNTER)
      (by decide)
  ⟨⟨⟨by decide, by decide, by decide!, h1⟩,
      (objFromMsg_truncated earlyTruncMsg (by decide) (by decide)).1
        [ctr1TableAttr] .invalidAttribute (by decide!) h1⟩,
    ⟨⟨by decide, by decide, by decide!, by decide, by decide, by decide, h2, by decide!⟩,
      (objFromMsg_truncated nestedTruncMsg (by decide) (by decide)).2.1
        [ctr1TableAttr, ctr1NameAttr, ctr1TypeAttr] truncPayload [] none .invalidAttribute
        (by decide!) (by decide) (by decide) (by decide) h2 (by decide!)⟩,
    ⟨⟨by decide, by decide, by decide!⟩,
      (objFromMsg_truncated shortTailMsg (by decide) (by decide)).2.2.1 (by decide!)⟩,
    ⟨⟨by decide, by decide, by decide!, by decide, by decide!, by decide, by decide,
        by decide!, by decide, by decide!, by decide⟩,
      ((objFromMsg_truncated trailingTruncMsg (by decide) (by decide)).2.2.2 (by decide!)
        TableFamilyIPv4 [ctr1TableAttr, ctr1NameAttr, ctr1TypeAttr] ctr1Payload []
        (some .invalidAttribute) (by decide) (by decide!) (by decide) (by decide) (by decide)
        h2).trans
      ((objFromMsg_truncated ctr1Msg (by decide) (by decide)).2.2.2 (by decide!)
        TableFamilyIPv4 [ctr1TableAttr, ctr1NameAttr, ctr1TypeAttr] ctr1Payload []
        none (by decide) (by decide!) (by decide) (by decide) (by decide) h2).symm⟩⟩

end Nftables
